import Mathlib

/-!
# shark-viz: text classification and aggregation pipeline

A shallow embedding of the classification and aggregation code of
`src/visualizations/bodyMap.js` and `src/visualizations/bubbleViz.js`.

JavaScript strings are modelled as lists of characters (`Str`), that is, as
well-formed strings. The built-in case mappings `toLowerCase` / `toUpperCase`
are the Unicode case conversions of the engine; they are a parameter of the
model (`CaseMapping`), known on the ASCII range and on white space, and every
statement below holds for each such pair of mappings. A value read from a CSV
row is a `JsVal`: a string, or `undefined` / `null` when the column is absent.
Numbers are IEEE 754 doubles: `JsNum` holds the years and populations (integers,
infinities, `NaN`), `JsFloat` the rate (a double that is not negative, as a
dyadic fraction); sums, quotients and products are rounded to the nearest double.
-/

namespace SharkViz

/-! ## JavaScript strings -/

/-- The text of a JavaScript string. -/
abbrev Str := List Char

/-- A field value as the program receives it: a string, `undefined` or `null`. -/
inductive JsVal where
  | undefined : JsVal
  | null : JsVal
  | str (s : Str) : JsVal
  deriving DecidableEq, Repr

/-- The expression `v || dflt` where `dflt` is a string and `v` is then used as a string. -/
def JsVal.orElse (v : JsVal) (dflt : Str) : Str :=
  match v with
  | .str s => if s.isEmpty then dflt else s
  | _ => dflt

/-- White space and line terminators: the code points removed by `trim()` and matched by `\s`. -/
def isJsSpace (c : Char) : Bool :=
  c.toNat == 9 || c.toNat == 10 || c.toNat == 11 || c.toNat == 12 || c.toNat == 13 ||
  c.toNat == 32 || c.toNat == 160 || c.toNat == 5760 ||
  (8192 ≤ c.toNat && c.toNat ≤ 8202) ||
  c.toNat == 8232 || c.toNat == 8233 || c.toNat == 8239 || c.toNat == 8287 ||
  c.toNat == 12288 || c.toNat == 65279

/-- Lower-case mapping of the ASCII range: the letters `A`-`Z` go to `a`-`z`, every other
character is left as it is. -/
def toLowerChar (c : Char) : Char :=
  if 65 ≤ c.toNat ∧ c.toNat ≤ 90 then Char.ofNat (c.toNat + 32) else c

/-- Upper-case mapping of the ASCII range: the letters `a`-`z` go to `A`-`Z`, every other
character is left as it is. -/
def toUpperChar (c : Char) : Char :=
  if 97 ≤ c.toNat ∧ c.toNat ≤ 122 then Char.ofNat (c.toNat - 32) else c

/-- A plain character: a character of the ASCII range (code point below 128) or a white space
character. -/
def isPlain (c : Char) : Bool := decide (c.toNat < 128) || isJsSpace c

/-- The built-in methods `String.prototype.toLowerCase` (`lower`) and
`String.prototype.toUpperCase` (`upper`). They apply the Unicode case conversions, whose tables
belong to the engine and not to the program: outside the ASCII range a character can change
(`U+212A` lower-cases to `k`, `U+017F` upper-cases to `S`) and the length of the text can
change (`U+00DF` upper-cases to `SS`). The two functions are therefore a parameter, of which
three facts of the Unicode tables are used: on a text of plain characters `lower` is the ASCII
lower-case mapping applied to each character, `upper` the ASCII upper-case mapping, and the
only strings that upper-case to `Y` are `y` and `Y`. -/
class CaseMapping where
  lower : Str → Str
  upper : Str → Str
  lower_plain : ∀ s : Str, (∀ c ∈ s, isPlain c = true) → lower s = s.map toLowerChar
  upper_plain : ∀ s : Str, (∀ c ∈ s, isPlain c = true) → upper s = s.map toUpperChar
  upper_Y : ∀ s : Str, upper s = "Y".toList → s = "y".toList ∨ s = "Y".toList

/-- The method `String.prototype.toLowerCase`. -/
def toLowerCase [CaseMapping] (s : Str) : Str := CaseMapping.lower s

/-- The method `String.prototype.toUpperCase`. -/
def toUpperCase [CaseMapping] (s : Str) : Str := CaseMapping.upper s

/-- The method `String.prototype.trim`: leading and trailing white space removed. -/
def trim (s : Str) : Str := (s.dropWhile isJsSpace).rdropWhile isJsSpace

/-- The method `String.prototype.includes`: `kw` occurs in `s` as a contiguous substring. -/
def includes : Str → Str → Bool
  | [], kw => kw.isEmpty
  | c :: t, kw => kw.isPrefixOf (c :: t) || includes t kw

/-! ## bodyMap.js: body regions -/

/-- One entry of `BODY_REGIONS`. -/
structure BodyRegion where
  keywords : List Str
  color : String
  position : Nat × Nat
  name : String

/-- The constant `BODY_REGIONS`, as its entries in declaration order (the order of
`Object.entries`). -/
def BODY_REGIONS : List (String × BodyRegion) :=
  [ ("head",
      { keywords := ["head", "face", "neck", "skull", "scalp", "ear", "nose", "jaw", "chin",
                     "cheek", "forehead", "temple"].map String.toList,
        color := "#EF4444", position := (100, 35), name := "Head & Neck" }),
    ("torso",
      { keywords := ["chest", "abdomen", "stomach", "torso", "back", "ribs", "side", "hip",
                     "pelvis", "shoulder", "body"].map String.toList,
        color := "#F97316", position := (100, 120), name := "Torso" }),
    ("upperArm",
      { keywords := ["upper arm", "bicep", "tricep"].map String.toList,
        color := "#FBBF24", position := (45, 110), name := "Upper Arm" }),
    ("lowerArm",
      { keywords := ["forearm", "wrist", "hand", "finger", "thumb", "palm", "knuckle",
                     "arm"].map String.toList,
        color := "#A3E635", position := (35, 160), name := "Arm & Hand" }),
    ("upperLeg",
      { keywords := ["thigh", "groin", "buttock", "upper leg", "quadricep"].map String.toList,
        color := "#22D3EE", position := (75, 230), name := "Upper Leg" }),
    ("lowerLeg",
      { keywords := ["knee", "calf", "shin", "lower leg", "leg"].map String.toList,
        color := "#818CF8", position := (75, 310), name := "Lower Leg" }),
    ("foot",
      { keywords := ["foot", "feet", "ankle", "toe", "heel", "arch"].map String.toList,
        color := "#E879F9", position := (75, 375), name := "Foot & Ankle" }) ]

/-- The inner loop of `parseBodyRegion`: the keywords of one region are tried in order; the
first one that occurs in the text pushes the region onto `acc` and leaves the loop. -/
def parseBodyRegion.keywordLoop (text : Str) (region : String) :
    List Str → List String → List String
  | [], acc => acc
  | keyword :: rest, acc =>
    if includes text keyword then acc ++ [region]
    else parseBodyRegion.keywordLoop text region rest acc

/-- The outer loop of `parseBodyRegion` over `Object.entries(BODY_REGIONS)`. -/
def parseBodyRegion.regionLoop (text : Str) :
    List (String × BodyRegion) → List String → List String
  | [], acc => acc
  | (region, data) :: rest, acc =>
    parseBodyRegion.regionLoop text rest
      (parseBodyRegion.keywordLoop text region data.keywords acc)

/-- The function `parseBodyRegion` (bodyMap.js, lines 104-120). -/
def parseBodyRegion [CaseMapping] (injuryText : JsVal) : List String :=
  match injuryText with
  | .str s =>
    if s.isEmpty then []
    else
      let text := toLowerCase s
      let found := parseBodyRegion.regionLoop text BODY_REGIONS []
      if found.length > 0 then found else ["unknown"]
  | _ => []

/-- A region rule matches a text when at least one of its keywords occurs in the text. -/
def regionMatches (text : Str) (r : String × BodyRegion) : Bool :=
  r.2.keywords.any (fun keyword => includes text keyword)

/-- The keys of the region rules that match a lower-cased text, in declaration order. -/
def matchingRegions (text : Str) : List String :=
  (BODY_REGIONS.filter (regionMatches text)).map Prod.fst

/-! ## JavaScript numbers

A number of the program is an IEEE 754 double. The years and the populations are parsed by
`parseInt` and added: they are integers, infinities or `NaN` (`JsNum`). The zero `-0` is
identified with `0`: the program compares, adds and tests the truthiness of these numbers,
and never divides by one that is zero. -/

/-- A double that is an integer, an infinity or `NaN`. -/
inductive JsNum where
  | nan : JsNum
  | posInf : JsNum
  | negInf : JsNum
  | fin (n : Int) : JsNum
  deriving DecidableEq, Repr

/-- The number of binary digits of `n` (`fuel` bounds the number of steps). -/
def bitLength.go : Nat → Nat → Nat
  | 0, _ => 0
  | fuel + 1, n => if n = 0 then 0 else bitLength.go fuel (n / 2) + 1

/-- The number of binary digits of a natural number. -/
def bitLength (n : Nat) : Nat := bitLength.go n n

/-- The double nearest to a natural number, ties to the even significand: the number
itself below `2 ^ 53`, else its 53 leading binary digits rounded, `Infinity` from `2 ^ 1024`
on. -/
def JsNum.ofNat (n : Nat) : JsNum :=
  if n < 2 ^ 53 then .fin n
  else
    let shift := bitLength n - 53
    let m := n / 2 ^ shift
    let r := n % 2 ^ shift
    let m' := if 2 ^ (shift - 1) < r ∨ (r = 2 ^ (shift - 1) ∧ m % 2 = 1) then m + 1 else m
    if 1024 < bitLength (m' * 2 ^ shift) then .posInf else .fin ((m' * 2 ^ shift : Nat) : Int)

/-- The opposite of a number. -/
def JsNum.neg : JsNum → JsNum
  | .nan => .nan
  | .posInf => .negInf
  | .negInf => .posInf
  | .fin n => .fin (-n)

/-- The double nearest to an integer. -/
def JsNum.ofInt (n : Int) : JsNum :=
  if 0 ≤ n then JsNum.ofNat n.toNat else (JsNum.ofNat (-n).toNat).neg

/-- Truthiness of a number: every number but 0 and `NaN`. -/
def JsNum.truthy : JsNum → Bool
  | .fin n => decide (n ≠ 0)
  | .nan => false
  | _ => true

/-- The comparison `x > 0`; it is false of `NaN`. -/
def JsNum.isPositive : JsNum → Bool
  | .fin n => decide (0 < n)
  | .posInf => true
  | _ => false

/-- The comparison `x < 0`; it is false of `NaN`. -/
def JsNum.isNegative : JsNum → Bool
  | .fin n => decide (n < 0)
  | .negInf => true
  | _ => false

/-- A double that is not negative and not `NaN`, as the rate is: the value `m * 2 ^ e` with
`m` odd (or `m = 0` and `e = 0`), or `Infinity`. -/
inductive JsFloat where
  | inf : JsFloat
  | fin (m : Nat) (e : Int) : JsFloat
  deriving DecidableEq, Repr

/-- The value `m * 2 ^ e` in lowest terms (`fuel` bounds the number of steps). -/
def JsFloat.normalize : Nat → Nat → Int → JsFloat
  | 0, m, e => .fin m e
  | fuel + 1, m, e =>
    if m = 0 then .fin 0 0
    else if m % 2 = 0 then JsFloat.normalize fuel (m / 2) (e + 1)
    else .fin m e

/-- The double nearest to the fraction `num / den` (with `den` positive), ties to the even
significand: the exponent `e` of the fraction is found from the lengths of `num` and `den`,
the fraction is rounded to a multiple of `2 ^ (e - 52)` (of `2 ^ (-1074)` in the subnormal
range), and the result is `Infinity` from `2 ^ 1024` on. -/
def JsFloat.round (num den : Nat) : JsFloat :=
  if num = 0 then .fin 0 0
  else
    let e0 : Int := (bitLength num : Int) - (bitLength den : Int)
    let e : Int :=
      if (if 0 ≤ e0 then decide (den * 2 ^ e0.toNat ≤ num)
          else decide (den ≤ num * 2 ^ (-e0).toNat)) then e0
      else e0 - 1
    let q : Int := max e (-1022) - 52
    let n := if 0 ≤ q then num else num * 2 ^ (-q).toNat
    let d := if 0 ≤ q then den * 2 ^ q.toNat else den
    let m := n / d
    let r := n % d
    let m' := if d < 2 * r ∨ (2 * r = d ∧ m % 2 = 1) then m + 1 else m
    if 971 < q ∨ (q = 971 ∧ m' = 2 ^ 53) then .inf else JsFloat.normalize 64 m' q

/-- The quotient `n / d` of a count by a positive number. The count is the length of an
array, an integer below `2 ^ 32`; a finite quotient is rounded to the nearest double, and the
quotient by `Infinity` is 0. -/
def JsFloat.quotient (n : Nat) (d : JsNum) : JsFloat :=
  match d with
  | .fin p => JsFloat.round n p.toNat
  | _ => .fin 0 0

/-- The product `x * k` of a double by a natural number that is a double, rounded to the
nearest double. -/
def JsFloat.times (x : JsFloat) (k : Nat) : JsFloat :=
  match x with
  | .inf => .inf
  | .fin m e =>
    if 0 ≤ e then JsFloat.round (m * k * 2 ^ e.toNat) 1
    else JsFloat.round (m * k) (2 ^ (-e).toNat)

/-- The value of a character as a digit of the given radix, if it is one. -/
def parseInt.digitVal (radix : Nat) (c : Char) : Option Nat :=
  if 48 ≤ c.toNat ∧ c.toNat ≤ 57 then
    (if c.toNat - 48 < radix then some (c.toNat - 48) else none)
  else if 97 ≤ c.toNat ∧ c.toNat ≤ 122 then
    (if c.toNat - 87 < radix then some (c.toNat - 87) else none)
  else if 65 ≤ c.toNat ∧ c.toNat ≤ 90 then
    (if c.toNat - 55 < radix then some (c.toNat - 55) else none)
  else none

/-- The digits of `parseInt`: the value of the longest prefix of radix digits, `none` when
that prefix is empty. The accumulator is `none` until a digit has been read. -/
def parseInt.digits (radix : Nat) : Str → Option Nat → Option Nat
  | [], acc => acc
  | c :: t, acc =>
    match parseInt.digitVal radix c with
    | some d => parseInt.digits radix t (some (acc.getD 0 * radix + d))
    | none => acc

/-- The part of `parseInt` after the sign: prefix detection and digits. -/
def parseInt.unsigned (s : Str) : Option Nat :=
  match s with
  | z :: x :: t =>
    if z.toNat = 48 ∧ (x.toNat = 120 ∨ x.toNat = 88) then parseInt.digits 16 t none
    else parseInt.digits 10 s none
  | _ => parseInt.digits 10 s none

/-- The number that `parseInt` returns for the digits it has read: the double nearest to the
integer they denote, with its sign; `NaN` when no digit was read. -/
def parseInt.result (negative : Bool) (digits : Option Nat) : JsNum :=
  match digits with
  | some n => if negative then (JsNum.ofNat n).neg else JsNum.ofNat n
  | none => .nan

/-- The call `parseInt(v)` with no radix: leading white space is skipped, then an optional sign
and an optional `0x` / `0X` prefix (radix 16), then the longest run of digits is read. The
result is `NaN` when there is no digit and for `undefined` / `null` (which are parsed as the
texts `undefined` and `null`), else the double nearest to the integer read. (For more than 20
significant decimal digits the language lets an engine read the further digits as zeros; the
nearest double of the integer written is what the engines return.) -/
def parseInt (v : JsVal) : JsNum :=
  match v with
  | .str s =>
    match s.dropWhile isJsSpace with
    | c :: t =>
      if c.toNat = 45 then parseInt.result true (parseInt.unsigned t)
      else if c.toNat = 43 then parseInt.result false (parseInt.unsigned t)
      else parseInt.result false (parseInt.unsigned (c :: t))
    | [] => .nan
  | _ => .nan

/-- A row of the incident table as parsed by `d3.csv`: each column is a string, or
`undefined` when the column is absent. -/
structure Row where
  Country : JsVal
  Year : JsVal
  Injury : JsVal
  Fatal_Y_N : JsVal
  State : JsVal
  Species : JsVal
  deriving DecidableEq, Repr

/-- An element of `incidentData`. The year is the number returned by `parseInt`. -/
structure Incident where
  year : JsNum
  injury : Str
  fatal : Bool
  state : Str
  bodyRegions : List String
  deriving DecidableEq, Repr

/-- The filter predicate of `loadData` (bodyMap.js, lines 144-150). The two comparisons
`year >= 1980 && year <= 2019` hold together only of a finite year: they are false of `NaN`,
and one of them is false of an infinity; the last test `!isNaN(year)` then holds. -/
def loadData.keep [CaseMapping] (d : Row) : Bool :=
  let country := toUpperCase (d.Country.orElse [])
  match parseInt d.Year with
  | .fin year =>
    (country == "USA".toList || country == "UNITED STATES".toList) &&
      decide (1980 ≤ year) && decide (year ≤ 2019)
  | _ => false

/-- The record built by the `map` step of `loadData` (bodyMap.js, lines 151-157). -/
def loadData.toIncident [CaseMapping] (d : Row) : Incident :=
  { year := parseInt d.Year
    injury := d.Injury.orElse []
    fatal := toUpperCase (d.Fatal_Y_N.orElse []) == "Y".toList
    state := d.State.orElse []
    bodyRegions := parseBodyRegion d.Injury }

/-- The value assigned to `incidentData` by `loadData` (bodyMap.js, lines 143-157). -/
def loadData.incidentData [CaseMapping] (incidentRaw : List Row) : List Incident :=
  (incidentRaw.filter loadData.keep).map loadData.toIncident

/-! ## Regular expressions

The patterns used by `parseSpeciesName`, with the backtracking semantics of JavaScript:
alternatives are tried left to right, quantifiers over a character class are greedy (or lazy)
and give characters back on failure. `run r s k` matches `r` at the start of `s` and passes
the rest of the input to the continuation `k`. -/

/-- Regular expressions over character classes. -/
inductive Re where
  | eps : Re
  | cls (p : Char → Bool) : Re
  | seq (a b : Re) : Re
  | alt (a b : Re) : Re
  | star (p : Char → Bool) : Re
  | starLazy (p : Char → Bool) : Re

/-- Greedy `p*` followed by the continuation `k`. -/
def Re.runStar (p : Char → Bool) (k : Str → Option Str) : Str → Option Str
  | [] => k []
  | c :: t =>
    if p c then
      match Re.runStar p k t with
      | some r => some r
      | none => k (c :: t)
    else k (c :: t)

/-- Lazy `p*?` followed by the continuation `k`. -/
def Re.runStarLazy (p : Char → Bool) (k : Str → Option Str) : Str → Option Str
  | [] => k []
  | c :: t =>
    match k (c :: t) with
    | some r => some r
    | none => if p c then Re.runStarLazy p k t else none

/-- Backtracking match of `r` at the start of the input, then `k` on the rest. -/
def Re.run : Re → Str → (Str → Option Str) → Option Str
  | .eps, s, k => k s
  | .cls p, s, k =>
    match s with
    | c :: t => if p c then k t else none
    | [] => none
  | .seq a b, s, k => Re.run a s (fun rest => Re.run b rest k)
  | .alt a b, s, k =>
    match Re.run a s k with
    | some r => some r
    | none => Re.run b s k
  | .star p, s, k => Re.runStar p k s
  | .starLazy p, s, k => Re.runStarLazy p k s

/-- The input left after the match of `r` at the start of `s`, if there is one. -/
def Re.matchAt (r : Re) (s : Str) : Option Str := Re.run r s some

/-- The method `RegExp.prototype.test` (also the truthiness of `String.prototype.match`) for an
unanchored pattern: there is a match at some position. -/
def Re.test (r : Re) : Str → Bool
  | [] => (Re.matchAt r []).isSome
  | c :: t => (Re.matchAt r (c :: t)).isSome || Re.test r t

/-- The method `String.prototype.replace` with a global pattern: every match, found left to
right and non-overlapping, is replaced by `rep`. The second argument counts the characters
still covered by the last match. None of the program's patterns matches the empty string; a
position with an empty match is treated as a position without match. -/
def Re.replaceAll (r : Re) (rep : Str) : Str → Nat → Str
  | [], _ => []
  | _ :: t, skip + 1 => Re.replaceAll r rep t skip
  | c :: t, 0 =>
    match Re.matchAt r (c :: t) with
    | some rest =>
      if (c :: t).length - rest.length = 0 then c :: Re.replaceAll r rep t 0
      else rep ++ Re.replaceAll r rep t ((c :: t).length - rest.length - 1)
    | none => c :: Re.replaceAll r rep t 0

/-- A literal character of a pattern with the `i` flag. Every literal of the program's
patterns is an ASCII letter; without the `u` flag a character outside the ASCII range is never
canonicalised to an ASCII one, so the input character matches when it is the letter in either
ASCII case. -/
def Re.chr (c : Char) : Re := .cls (fun x => toUpperChar x == toUpperChar c)

/-- A literal string of a pattern with the `i` flag. -/
def Re.lit (s : String) : Re := s.toList.foldr (fun c r => .seq (Re.chr c) r) .eps

/-- The quantifier `?` (greedy): the pattern, or else nothing. -/
def Re.opt (r : Re) : Re := .alt r .eps

/-- The quantifier `+` over a character class. -/
def Re.plus (p : Char → Bool) : Re := .seq (.cls p) (.star p)

/-- The first of several alternatives that matches. -/
def Re.alts : List Re → Re
  | [] => .cls (fun _ => false)
  | [r] => r
  | r :: rs => .alt r (Re.alts rs)

/-- The class `\d`. -/
def isDigit (c : Char) : Bool := decide (48 ≤ c.toNat) && decide (c.toNat ≤ 57)

/-- The class `.`: every character but a line terminator. -/
def isDot (c : Char) : Bool :=
  !(c.toNat == 10 || c.toNat == 13 || c.toNat == 8232 || c.toNat == 8233)

/-! ## bubbleViz.js: species names -/

/-- The two phrases tested first by `parseSpeciesName` (bubbleViz.js, line 14). -/
def rejectPhrases : List Str := ["shark involvement", "prior to death"].map String.toList

/-- The constant `unknownVariations` (bubbleViz.js, lines 19-23). -/
def unknownVariations : List Str :=
  ["unknown", "undetermined", "not stated", "not staed", "questionable", "unconfirmed",
   "unidentified", "not identified", "no id", "not confirmed", "invalid"].map String.toList

/-- One entry of `speciesPatterns`. -/
structure SpeciesPattern where
  keywords : List Str
  name : Str

/-- Builds an entry of `speciesPatterns` from string literals. -/
def SpeciesPattern.ofStrings (keywords : List String) (name : String) : SpeciesPattern :=
  { keywords := keywords.map String.toList, name := name.toList }

/-- The constant `speciesPatterns` (bubbleViz.js, lines 32-59), in declaration order. -/
def speciesPatterns : List SpeciesPattern :=
  [ .ofStrings ["white", "great white", "white pointer", "carcharodon"] "White Shark",
    .ofStrings ["tiger"] "Tiger Shark",
    .ofStrings ["bull", "zambezi"] "Bull Shark",
    .ofStrings ["blue"] "Blue Shark",
    .ofStrings ["mako", "shortfin mako", "longfin mako"] "Mako Shark",
    .ofStrings ["hammerhead", "hammer head"] "Hammerhead Shark",
    .ofStrings ["blacktip", "black tip", "black-tip"] "Blacktip Shark",
    .ofStrings ["nurse"] "Nurse Shark",
    .ofStrings ["lemon"] "Lemon Shark",
    .ofStrings ["reef", "grey reef", "gray reef", "whitetip reef", "blacktip reef"] "Reef Shark",
    .ofStrings ["bronze", "bronze whaler", "copper"] "Bronze Whaler Shark",
    .ofStrings ["spinner"] "Spinner Shark",
    .ofStrings ["sandbar", "sand bar"] "Sandbar Shark",
    .ofStrings ["sand tiger", "grey nurse", "gray nurse", "ragged tooth"] "Sand Tiger Shark",
    .ofStrings ["oceanic whitetip", "oceanic white tip"] "Oceanic Whitetip Shark",
    .ofStrings ["sevengill", "seven gill", "7 gill"] "Sevengill Shark",
    .ofStrings ["sixgill", "six gill", "6 gill"] "Sixgill Shark",
    .ofStrings ["thresher"] "Thresher Shark",
    .ofStrings ["wobbegong", "carpet shark"] "Wobbegong Shark",
    .ofStrings ["porbeagle"] "Porbeagle Shark",
    .ofStrings ["dusky"] "Dusky Shark",
    .ofStrings ["silky"] "Silky Shark",
    .ofStrings ["basking"] "Basking Shark",
    .ofStrings ["whale shark"] "Whale Shark",
    .ofStrings ["goblin"] "Goblin Shark",
    .ofStrings ["megamouth", "mega mouth"] "Megamouth Shark" ]

/-- The inner loop over `pattern.keywords`: whether some keyword occurs in the text (the loop
returns at the first one). -/
def parseSpeciesName.keywordLoop (text : Str) : List Str → Bool
  | [] => false
  | keyword :: rest => if includes text keyword then true else parseSpeciesName.keywordLoop text rest

/-- The loop over `speciesPatterns` (bubbleViz.js, lines 62-68): the name of the first pattern
with a keyword in the text is returned; `none` when the loop falls through. -/
def parseSpeciesName.patternLoop (text : Str) : List SpeciesPattern → Option Str
  | [] => none
  | pattern :: rest =>
    if parseSpeciesName.keywordLoop text pattern.keywords then some pattern.name
    else parseSpeciesName.patternLoop text rest

/-- The pattern `/small\s+shark|shark\s*\d/i`. -/
def reBareShark : Re :=
  .alt (.seq (Re.lit "small") (.seq (Re.plus isJsSpace) (Re.lit "shark")))
       (.seq (Re.lit "shark") (.seq (.star isJsSpace) (.cls isDigit)))

/-- The pattern `/shark[s]?/gi`. -/
def reShark : Re := .seq (Re.lit "shark") (Re.opt (Re.chr (Char.ofNat 115)))

/-- The pattern `/\d+(\.\d+)?\s*(m|ft|feet|meter|metre)[s]?/gi`. -/
def reMeasure : Re :=
  .seq (Re.plus isDigit)
    (.seq (Re.opt (.seq (.cls (fun c => c.toNat == 46)) (Re.plus isDigit)))
      (.seq (.star isJsSpace)
        (.seq (Re.alts [Re.lit "m", Re.lit "ft", Re.lit "feet", Re.lit "meter", Re.lit "metre"])
          (Re.opt (Re.chr (Char.ofNat 115))))))

/-- The pattern `/\d+[-'"]?\d*\s*(m|ft|feet)/gi`. -/
def reFeetInches : Re :=
  .seq (Re.plus isDigit)
    (.seq (Re.opt (.cls (fun c => c.toNat == 45 || c.toNat == 39 || c.toNat == 34)))
      (.seq (.star isDigit)
        (.seq (.star isJsSpace) (Re.alts [Re.lit "m", Re.lit "ft", Re.lit "feet"]))))

/-- The pattern `/involved|unconfirmed|questionable|possibly|suspected|est|estimated/gi`. -/
def reQualifier : Re :=
  Re.alts [Re.lit "involved", Re.lit "unconfirmed", Re.lit "questionable", Re.lit "possibly",
    Re.lit "suspected", Re.lit "est", Re.lit "estimated"]

/-- The pattern `/\(.*?\)/g`. -/
def reParens : Re :=
  .seq (.cls (fun c => c.toNat == 40)) (.seq (.starLazy isDot) (.cls (fun c => c.toNat == 41)))

/-- The pattern `/[,;?]/g`. -/
def rePunct : Re := .cls (fun c => c.toNat == 44 || c.toNat == 59 || c.toNat == 63)

/-- The value `cleaned` (bubbleViz.js, lines 76-83). -/
def parseSpeciesName.cleaned (text : Str) : Str :=
  trim
    (Re.replaceAll rePunct " ".toList
      (Re.replaceAll reParens []
        (Re.replaceAll reQualifier []
          (Re.replaceAll reFeetInches []
            (Re.replaceAll reMeasure []
              (Re.replaceAll reShark [] text 0) 0) 0) 0) 0) 0)

/-- The property `length` of a string: the number of UTF-16 code units. -/
def utf16Length (s : Str) : Nat := (s.map (fun c => if c.toNat < 65536 then 1 else 2)).sum

/-- The test `/^[\d\s\-,.;:'"?]+$/.test(cleaned)`. -/
def parseSpeciesName.onlyDigitsPunct (cleaned : Str) : Bool :=
  !cleaned.isEmpty &&
    cleaned.all (fun c => isDigit c || isJsSpace c || c.toNat == 45 || c.toNat == 44 ||
      c.toNat == 46 || c.toNat == 59 || c.toNat == 58 || c.toNat == 39 || c.toNat == 34 ||
      c.toNat == 63)

/-- The call `cleaned.split(/\s+/)`: the pieces between maximal runs of white space. `cur` is
the piece being read, reversed; `inGap` is set while a run of white space is being skipped. -/
def splitSpaces : Str → Str → Bool → List Str
  | [], cur, _ => [cur.reverse]
  | c :: t, cur, inGap =>
    if isJsSpace c then
      (if inGap then splitSpaces t [] true else cur.reverse :: splitSpaces t [] true)
    else splitSpaces t (c :: cur) false

/-- The callback `word => word.charAt(0).toUpperCase() + word.slice(1)`. The method `charAt`
reads one UTF-16 code unit: a first character outside the basic plane (two code units) is cut
into halves that `toUpperCase` leaves as they are, and the word comes back unchanged. -/
def capitalizeWord [CaseMapping] : Str → Str
  | [] => []
  | c :: t => if c.toNat < 65536 then toUpperCase [c] ++ t else c :: t

/-- The call `words.join(' ')`. -/
def joinSpace : List Str → Str
  | [] => []
  | [w] => w
  | w :: ws => w ++ " ".toList ++ joinSpace ws

/-- The body of `parseSpeciesName` after the guard, on the lower-cased and trimmed text
(bubbleViz.js, lines 12-96). -/
def parseSpeciesName.classify [CaseMapping] (text : Str) : Str :=
  if includes text "shark involvement".toList || includes text "prior to death".toList then
    "Unknown".toList
  else if unknownVariations.any (fun variation => includes text variation) then
    "Unknown".toList
  else
    match parseSpeciesName.patternLoop text speciesPatterns with
    | some name => name
    | none =>
      if Re.test reBareShark text || text == "shark".toList then "Unknown".toList
      else
        let cleaned := parseSpeciesName.cleaned text
        if cleaned.isEmpty || decide (utf16Length cleaned < 3) ||
            parseSpeciesName.onlyDigitsPunct cleaned then
          "Unknown".toList
        else
          joinSpace ((splitSpaces cleaned [] false).map capitalizeWord) ++ " Shark".toList

/-- The function `parseSpeciesName` with the code after its guard (lines 10-96) as the
parameter `rest`, which receives `rawText.toLowerCase().trim()`. -/
def parseSpeciesName.guarded [CaseMapping] (rest : Str → Str) (rawText : JsVal) : Str :=
  match rawText with
  | .str s =>
    if s.isEmpty || (trim s).isEmpty then "Unknown".toList
    else rest (trim (toLowerCase s))
  | _ => "Unknown".toList

/-- The function `parseSpeciesName` (bubbleViz.js, lines 5-97). -/
def parseSpeciesName [CaseMapping] (rawText : JsVal) : Str :=
  parseSpeciesName.guarded parseSpeciesName.classify rawText

/-! ## bubbleViz.js: species aggregation -/

/-- An element of the array returned by `cleanAttackData`. -/
structure Bucket where
  species : JsVal
  incidents : Nat
  fatal : Nat
  nonFatal : Nat
  deriving DecidableEq, Repr

/-- The grouping step of `d3.rollup`: the row is appended to the group of its key, or opens a
new group at the end (the groups keep the order in which their keys first appear). -/
def rollup.insert (key : JsVal) (d : Row) : List (JsVal × List Row) → List (JsVal × List Row)
  | [] => [(key, [d])]
  | (k, g) :: rest =>
    if k = key then (k, g ++ [d]) :: rest else (k, g) :: rollup.insert key d rest

/-- The groups of `d3.rollup(data, reduce, d => d.Species)` before reduction. -/
def rollup.groups (data : List Row) : List (JsVal × List Row) :=
  data.foldl (fun m d => rollup.insert d.Species d m) []

/-- The expression `(d['Fatal Y/N'] || 'N').trim().toUpperCase()`. -/
def cleanAttackData.fatalValue [CaseMapping] (d : Row) : Str :=
  toUpperCase (trim (d.Fatal_Y_N.orElse "N".toList))

/-- The reducer passed to `d3.rollup` (bubbleViz.js, lines 103-114), with the key. -/
def cleanAttackData.reduce [CaseMapping] (species : JsVal) (v : List Row) : Bucket :=
  { species := species
    incidents := v.length
    fatal := (v.map (fun d => if cleanAttackData.fatalValue d = "Y".toList then 1 else 0)).sum
    nonFatal := (v.map (fun d =>
      if cleanAttackData.fatalValue d = "N".toList ∨ cleanAttackData.fatalValue d = [] then 1
      else 0)).sum }

/-- The array built by `Array.from(speciesMap, ...)`: one bucket for each species group. -/
def cleanAttackData.buckets [CaseMapping] (data : List Row) : List Bucket :=
  (rollup.groups data).map (fun e => cleanAttackData.reduce e.1 e.2)

/-- The call `sort((a, b) => b.incidents - a.incidents)`: a stable sort that puts `a` before
`b` when `a.incidents` is larger. -/
def sortByIncidents (l : List Bucket) : List Bucket :=
  l.insertionSort (fun a b => a.incidents ≥ b.incidents)

/-- The function `cleanAttackData` (bubbleViz.js, lines 99-128). -/
def cleanAttackData [CaseMapping] (data : List Row) : List Bucket :=
  (sortByIncidents ((cleanAttackData.buckets data).filter (fun d => d.incidents > 5))).take 10

/-- A keyword that neither starts nor ends with white space, so that trimming the text around
it cannot cut into it. -/
def trimSafe (kw : Str) : Bool :=
  match kw.head?, kw.getLast? with
  | some a, some b => !isJsSpace a && !isJsSpace b
  | _, _ => false

/-! ## bodyMap.js: population series and yearly statistics

An object keyed by year or by region is a function from the key to the entry, `none` where
the object has no such property. The value `maxPopulation` and the writes to the page (texts,
scales, radii) are presentation and are not modelled. -/

/-- The object `populationData`: the entry of a year is absent, or a number. -/
abbrev PopulationData := Int → Option JsNum

/-- The constant `COASTAL_STATES` (bodyMap.js, line 4). -/
def COASTAL_STATES : List Str :=
  ["CA", "FL", "TX", "NC", "SC", "GA", "HI", "OR", "WA", "NJ", "NY", "MA", "ME", "NH", "RI",
   "CT", "DE", "MD", "VA", "AL", "MS", "LA"].map String.toList

/-- The call `COASTAL_STATES.includes(state)` on a destructured field. -/
def arrayIncludes (xs : List Str) (v : JsVal) : Bool :=
  match v with
  | .str s => decide (s ∈ xs)
  | _ => false

/-- The method `String.prototype.split` with a one-character separator (given by its code
point): the pieces between the separators; `cur` is the piece being read, reversed. -/
def splitOn (sep : Nat) : Str → Str → List Str
  | [], cur => [cur.reverse]
  | c :: t, cur =>
    if c.toNat = sep then cur.reverse :: splitOn sep t [] else splitOn sep t (c :: cur)

/-- An element of an array pattern `[state, year, pop] = parts`: the piece at the index, or
`undefined` when the array is shorter. -/
def fieldAt (parts : List Str) (i : Nat) : JsVal :=
  match parts.get? i with
  | some s => .str s
  | none => .undefined

/-- Addition of two numbers: the double nearest to the sum of two integers; `NaN` when one
of them is `NaN` and for the sum of the two infinities. -/
def numAdd (a b : JsNum) : JsNum :=
  match a, b with
  | .fin x, .fin y => JsNum.ofInt (x + y)
  | .nan, _ => .nan
  | _, .nan => .nan
  | .posInf, .negInf => .nan
  | .negInf, .posInf => .nan
  | .posInf, _ => .posInf
  | _, .posInf => .posInf
  | .negInf, _ => .negInf
  | _, .negInf => .negInf

/-- Truthiness of an entry `populationData[y]`: a number other than 0 and `NaN` (a missing
entry is `undefined`). -/
def entryTruthy : Option JsNum → Bool
  | some x => x.truthy
  | none => false

/-- The expression `entry || dflt` on an entry of `populationData`. -/
def entryOr (entry : Option JsNum) (dflt : JsNum) : JsNum :=
  match entry with
  | some x => if x.truthy then x else dflt
  | none => dflt

/-- The three fields of a population line: `const [state, year, pop] = line.split(',')`. -/
def loadData.lineState (line : Str) : JsVal := fieldAt (splitOn 44 line []) 0

/-- The number `y = parseInt(year)` of a population line. -/
def loadData.lineYear (line : Str) : JsNum := parseInt (fieldAt (splitOn 44 line []) 1)

/-- The number `p = parseInt(pop)` of a population line. -/
def loadData.linePop (line : Str) : JsNum := parseInt (fieldAt (splitOn 44 line []) 2)

/-- The callback of `popLines.forEach` (bodyMap.js, lines 130-138) as a step on
`populationData`. The comparisons `y >= 1980 && y <= 2019` hold together only of a finite
year. -/
def loadData.popLine (populationData : PopulationData) (line : Str) : PopulationData :=
  match loadData.lineYear line with
  | .fin y =>
    if arrayIncludes COASTAL_STATES (loadData.lineState line) && decide (1980 ≤ y) &&
        decide (y ≤ 2019) then
      let current : JsNum :=
        if !entryTruthy (populationData y) then .fin 0 else (populationData y).getD .nan
      Function.update populationData y (some (numAdd current (loadData.linePop line)))
    else populationData
  | _ => populationData

/-- The array `popLines = popRaw.trim().split('\n')`. -/
def loadData.popLines (popRaw : Str) : List Str := splitOn 10 (trim popRaw) []

/-- The object `populationData` after the loop of `loadData` over the population lines
(bodyMap.js, lines 129-138), from its value before the call. -/
def loadData.populationData (before : PopulationData) (popRaw : Str) : PopulationData :=
  (loadData.popLines popRaw).foldl loadData.popLine before

/-- The value `basePopulation = populationData[1980] || 100000000` (bodyMap.js, line 140). -/
def loadData.basePopulation (populationData : PopulationData) : JsNum :=
  entryOr (populationData 1980) (.fin 100000000)

/-- The statistics computed by `updateVisualization` before it writes them to the page. -/
structure VizStats where
  yearIncidents : List Incident
  population : JsNum
  totalIncidents : Nat
  fatalCount : Nat
  nonFatalCount : Int
  rate : JsFloat
  regionCounts : String → Option Nat
  regionFatal : String → Option Nat

/-- The objects `regionCounts` and `regionFatal` after their initialisation loop: the entry 0
for every key of `BODY_REGIONS`. -/
def updateVisualization.initCounts (region : String) : Option Nat :=
  if region ∈ BODY_REGIONS.map Prod.fst then some 0 else none

/-- The statement `obj[region]++` on an entry that holds a number. Both objects carry the
keys of `BODY_REGIONS` and nothing else, and the statement runs only behind the guard
`regionCounts[region] !== undefined`. -/
def updateVisualization.increment (obj : String → Option Nat) (region : String) :
    String → Option Nat :=
  match obj region with
  | some n => Function.update obj region (some (n + 1))
  | none => obj

/-- The callback of `incident.bodyRegions.forEach` (bodyMap.js, lines 315-320) as a step on
the pair `(regionCounts, regionFatal)`. -/
def updateVisualization.regionStep (incident : Incident)
    (st : (String → Option Nat) × (String → Option Nat)) (region : String) :
    (String → Option Nat) × (String → Option Nat) :=
  if region ≠ "unknown" ∧ (st.1 region).isSome then
    (updateVisualization.increment st.1 region,
     if incident.fatal then updateVisualization.increment st.2 region else st.2)
  else st

/-- The callback of `yearIncidents.forEach` (bodyMap.js, lines 314-321). -/
def updateVisualization.incidentStep (st : (String → Option Nat) × (String → Option Nat))
    (incident : Incident) : (String → Option Nat) × (String → Option Nat) :=
  incident.bodyRegions.foldl (updateVisualization.regionStep incident) st

/-- The rate `population > 0 ? (totalIncidents / population) * 1000000 : 0`, in the
arithmetic of doubles: the quotient is rounded, then the product is. -/
def updateVisualization.rate (totalIncidents : Nat) (population : JsNum) : JsFloat :=
  if population.isPositive then (JsFloat.quotient totalIncidents population).times 1000000
  else .fin 0 0

/-- The function `updateVisualization` (bodyMap.js, lines 299-324) on the module state
`incidentData`, `populationData`, `basePopulation`: the values it computes. -/
def updateVisualization (incidentData : List Incident) (populationData : PopulationData)
    (basePopulation : JsNum) (year : Int) : VizStats :=
  let yearIncidents := incidentData.filter (fun d => d.year == .fin year)
  let population := entryOr (populationData year) basePopulation
  let totalIncidents := yearIncidents.length
  let fatalCount := (yearIncidents.filter (fun d => d.fatal)).length
  let counts := yearIncidents.foldl updateVisualization.incidentStep
    (updateVisualization.initCounts, updateVisualization.initCounts)
  { yearIncidents := yearIncidents
    population := population
    totalIncidents := totalIncidents
    fatalCount := fatalCount
    nonFatalCount := (totalIncidents : Int) - (fatalCount : Int)
    rate := updateVisualization.rate totalIncidents population
    regionCounts := counts.1
    regionFatal := counts.2 }

/-- The three numbers shown by `showBubbleTooltip` (bodyMap.js, lines 368-376). -/
structure TooltipValues where
  count : Nat
  fatalCount : Nat
  nonFatalCount : Int
  deriving DecidableEq, Repr

/-- The function `showBubbleTooltip` on the two objects stored by `updateVisualization`
(`none` when `window.currentRegionCounts` / `window.currentRegionFatal` is not set yet). -/
def showBubbleTooltip (currentRegionCounts currentRegionFatal : Option (String → Option Nat))
    (region : String) : TooltipValues :=
  let counts : String → Option Nat := currentRegionCounts.getD (fun _ => none)
  let fatal : String → Option Nat := currentRegionFatal.getD (fun _ => none)
  let count := (counts region).getD 0
  let fatalCount := (fatal region).getD 0
  { count := count, fatalCount := fatalCount,
    nonFatalCount := (count : Int) - (fatalCount : Int) }

/-! ## Example inputs -/

/-- The case mappings of the ASCII range applied to each character: a pair of mappings with
the three facts of `CaseMapping`, at which the definitions can be evaluated. On a text of
plain characters every pair of case mappings agrees with it. -/
def asciiCase : CaseMapping where
  lower := fun s => s.map toLowerChar
  upper := fun s => s.map toUpperChar
  lower_plain := fun _ _ => rfl
  upper_plain := fun _ _ => rfl
  upper_Y := by
    intro s h
    match s, h with
    | [], h => exact absurd h (by decide)
    | [c], h =>
      have hc : toUpperChar c = Char.ofNat 89 := List.head_eq_of_cons_eq h
      unfold toUpperChar at hc
      split at hc
      · rename_i hr
        left
        have h2 := congrArg Char.toNat hc
        have h3 : (Char.ofNat (c.toNat - 32)).toNat = c.toNat - 32 := by
          unfold Char.ofNat
          rw [dif_pos (Or.inl (by omega))]
          rfl
        rw [h3] at h2
        have h4 : c.toNat = 121 := by
          have h5 : (Char.ofNat 89).toNat = 89 := rfl
          omega
        rw [← Char.ofNat_toNat c, h4]
        rfl
      · right
        rw [hc]
        rfl
    | _ :: _ :: _, h => simp at h

/-- A retained row (USA, 1990) whose `Injury` cell is empty. -/
def exampleRowNoInjury : Row :=
  { Country := .str "USA".toList, Year := .str "1990".toList, Injury := .str [],
    Fatal_Y_N := .str "N".toList, State := .str "FL".toList,
    Species := .str "White shark".toList }

/-- A row whose fatal flag, trimmed and upper-cased (`N` when missing or empty), is one of the
three values that `cleanAttackData` counts: `Y` as fatal, `N` or the empty string as not
fatal. -/
def cleanAttackData.recognised [CaseMapping] (d : Row) : Bool :=
  decide (cleanAttackData.fatalValue d = "Y".toList) ||
  decide (cleanAttackData.fatalValue d = "N".toList ∨ cleanAttackData.fatalValue d = [])

/-- Six rows of the species `White Shark` whose fatal flag is `UNKNOWN`. -/
def exampleRowsUnknownFlag : List Row :=
  List.replicate 6
    { Country := .str "USA".toList, Year := .str "1990".toList, Injury := .str [],
      Fatal_Y_N := .str "UNKNOWN".toList, State := .str "FL".toList,
      Species := .str "White Shark".toList }

/-- The number of increments that the labels of one record give to the entry of a region:
the occurrences of the region among the labels, none for the label `unknown`. -/
def regionWeight (k : String) (regions : List String) : Nat :=
  if k = "unknown" then 0 else regions.count k

/-- A retained row (USA, 1990) whose injury text names three regions. -/
def exampleRowThreeRegions : Row :=
  { exampleRowNoInjury with Injury := .str "laceration to forearm and chest".toList }

/-- A population series whose only entry is a population of 0 for the year 1990. -/
def examplePopulationZero : PopulationData :=
  fun y => if y = 1990 then some (.fin 0) else none

/-- The population lines that count for a year: the state code is in `COASTAL_STATES` and the
year field parses to that year. -/
def contributing (lines : List Str) (y : Int) : List Str :=
  lines.filter (fun l => arrayIncludes COASTAL_STATES (loadData.lineState l) &&
    (loadData.lineYear l == .fin y))

/-- The sum of the population values `parseInt(pop)` of the lines that count for a year, added
from 0 in the order of the lines as numbers of the program (`NaN` as soon as one value is
`NaN`). -/
def populationSum (lines : List Str) (y : Int) : JsNum :=
  ((contributing lines y).map loadData.linePop).foldl numAdd (.fin 0)

/-- The two statements `if (!populationData[y]) populationData[y] = 0; populationData[y] += p`
on the number held by the entry. -/
def addToEntry (entry p : JsNum) : JsNum :=
  numAdd (if entry.truthy then entry else .fin 0) p

/-- The integer held by a finite number, 0 otherwise. -/
def JsNum.toInt : JsNum → Int
  | .fin n => n
  | _ => 0

/-- Three population lines of one state and year; the population of the second does not
parse. -/
def examplePopRawBadLine : Str := "CA,1980,5\nCA,1980,abc\nCA,1980,7".toList

/-- Four population lines: two count for 1980, one has a state outside the allow-list, one a
year outside the range. -/
def examplePopRaw : Str := "CA,1980,5\nAK,1980,100\nFL,1980,7\nTX,2020,9".toList

/-- A word ends before the empty text and before a white space character. -/
def wordBreak : Str → Bool
  | [] => true
  | d :: _ => isJsSpace d

/-- The white-space separated words of a text: its maximal runs of characters that are not
white space, in order. -/
def wordsOf : Str → List Str
  | [] => []
  | c :: t =>
    if isJsSpace c then wordsOf t
    else if wordBreak t then [c] :: wordsOf t
    else
      match wordsOf t with
      | w :: ws => (c :: w) :: ws
      | [] => [[c]]

/-- The last character of the text, if there is one, is not white space. -/
def endsInWord (s : Str) : Prop := ∀ x, s.getLast? = some x → isJsSpace x = false

/-- A retained row (USA, 1990) whose fatal flag is `Y` after a leading blank. -/
def exampleRowFlagSpaced : Row :=
  { exampleRowNoInjury with Fatal_Y_N := .str " Y".toList }

/-- A field value of plain characters (`undefined` and `null` count as plain). -/
def plainVal (v : JsVal) : Bool :=
  match v with
  | .str s => s.all isPlain
  | _ => true

/-- A row whose `Country`, `Injury` and `Fatal Y/N` cells, the three that the program passes
to a case mapping, are plain. -/
def plainRow (d : Row) : Bool :=
  plainVal d.Country && plainVal d.Injury && plainVal d.Fatal_Y_N

/-- A word that is empty or begins with a plain character. -/
def headPlain (w : Str) : Bool :=
  match w with
  | [] => true
  | c :: _ => isPlain c

/-- Five rows for the loader: `usa` in 1990, `Canada` in 1990, `USA` with the year `unknown`,
`United States` in 2019 and `USA` in 2020. -/
def exampleRowsLoader : List Row :=
  [ { exampleRowNoInjury with Country := .str "usa".toList },
    { exampleRowNoInjury with Country := .str "Canada".toList },
    { exampleRowNoInjury with Year := .str "unknown".toList },
    { exampleRowNoInjury with Country := .str "United States".toList,
                              Year := .str "2019".toList },
    { exampleRowNoInjury with Year := .str "2020".toList } ]

/-- The species values with more than 5 rows, each once, in the order of their first row. -/
def qualifyingSpecies (data : List Row) : List JsVal :=
  ((data.map (fun d => d.Species)).dedup).filter
    (fun k => decide (data.countP (fun d => d.Species = k) > 5))

/-- A record of the year 1990. -/
def exampleIncident : Incident :=
  { year := .fin 1990, injury := [], fatal := false, state := "FL".toList, bodyRegions := [] }

/-- The pattern of the qualifier step without its last alternative `estimated`, which stands
behind its own beginning `est`. -/
def reQualifierReached : Re :=
  Re.alts [Re.lit "involved", Re.lit "unconfirmed", Re.lit "questionable", Re.lit "possibly",
    Re.lit "suspected", Re.lit "est"]

/-- The pattern of the first measurement step without the unit alternatives `meter` and
`metre`, which stand behind their own beginning `m`. -/
def reMeasureReached : Re :=
  .seq (Re.plus isDigit)
    (.seq (Re.opt (.seq (.cls (fun c => c.toNat == 46)) (Re.plus isDigit)))
      (.seq (.star isJsSpace)
        (.seq (Re.alts [Re.lit "m", Re.lit "ft", Re.lit "feet"])
          (Re.opt (Re.chr (Char.ofNat 115))))))

/-- Three population lines for 1980 whose values are `2 ^ 53`, 1 and 1. -/
def examplePopRawLarge : Str :=
  "CA,1980,9007199254740992\nFL,1980,1\nTX,1980,1".toList

/-! ## Basic facts about the string model -/

theorem includes_iff (s kw : Str) : includes s kw = true ↔ kw <:+: s := by
  induction s with
  | nil => cases kw <;> simp [includes]
  | cons c t ih =>
    rw [includes, Bool.or_eq_true, ih, List.infix_cons_iff, List.isPrefixOf_iff_prefix]

theorem keywordLoop_eq (text : Str) (region : String) (kws : List Str) (acc : List String) :
    parseBodyRegion.keywordLoop text region kws acc =
      if kws.any (fun keyword => includes text keyword) then acc ++ [region] else acc := by
  induction kws with
  | nil => simp [parseBodyRegion.keywordLoop]
  | cons kw rest ih =>
    by_cases h : includes text kw = true
    · simp [parseBodyRegion.keywordLoop, h]
    · simp [parseBodyRegion.keywordLoop, h, ih]

theorem regionLoop_eq (text : Str) (rs : List (String × BodyRegion)) (acc : List String) :
    parseBodyRegion.regionLoop text rs acc =
      acc ++ (rs.filter (regionMatches text)).map Prod.fst := by
  induction rs generalizing acc with
  | nil => simp [parseBodyRegion.regionLoop]
  | cons r rest ih =>
    obtain ⟨region, data⟩ := r
    rw [parseBodyRegion.regionLoop, ih, keywordLoop_eq]
    by_cases h : regionMatches text (region, data) = true
    · have h' : (data.keywords.any fun keyword => includes text keyword) = true := h
      simp [h, h']
    · have h' : ¬ (data.keywords.any fun keyword => includes text keyword) = true := h
      simp [h, h']

theorem parseBodyRegion_str [CaseMapping] (s : Str) (hs : s ≠ []) :
    parseBodyRegion (.str s) =
      if matchingRegions (toLowerCase s) = [] then ["unknown"]
      else matchingRegions (toLowerCase s) := by
  have hne : s.isEmpty = false := by cases s <;> simp_all
  simp only [parseBodyRegion, hne, regionLoop_eq, List.nil_append]
  unfold matchingRegions
  cases h : (BODY_REGIONS.filter (regionMatches (toLowerCase s))).map Prod.fst <;> simp

theorem matchingRegions_sublist (text : Str) :
    (matchingRegions text).Sublist
      ["head", "torso", "upperArm", "lowerArm", "upperLeg", "lowerLeg", "foot"] := by
  have h : BODY_REGIONS.map Prod.fst =
      ["head", "torso", "upperArm", "lowerArm", "upperLeg", "lowerLeg", "foot"] := by decide
  rw [← h]
  exact (List.filter_sublist _).map _

theorem toLowerChar_of_space (c : Char) (h : isJsSpace c = true) : toLowerChar c = c := by
  unfold toLowerChar
  split
  · simp only [isJsSpace, Bool.or_eq_true, Bool.and_eq_true, beq_iff_eq, decide_eq_true_eq] at h
    omega
  · rfl

theorem toLowerCase_plain [CaseMapping] (s : Str) (h : ∀ c ∈ s, isPlain c = true) :
    toLowerCase s = s.map toLowerChar :=
  CaseMapping.lower_plain s h

theorem toUpperCase_plain [CaseMapping] (s : Str) (h : ∀ c ∈ s, isPlain c = true) :
    toUpperCase s = s.map toUpperChar :=
  CaseMapping.upper_plain s h

theorem toLowerCase_nil [CaseMapping] : toLowerCase [] = [] :=
  toLowerCase_plain [] (fun _ h => absurd h (List.not_mem_nil _))

theorem toUpperCase_nil [CaseMapping] : toUpperCase [] = [] :=
  toUpperCase_plain [] (fun _ h => absurd h (List.not_mem_nil _))

theorem isPlain_of_space (c : Char) (h : isJsSpace c = true) : isPlain c = true := by
  unfold isPlain
  rw [h]
  exact Bool.or_true _

theorem toLowerCase_of_spaces [CaseMapping] (s : Str) (h : ∀ c ∈ s, isJsSpace c = true) :
    toLowerCase s = s := by
  rw [toLowerCase_plain s (fun c hc => isPlain_of_space c (h c hc))]
  induction s with
  | nil => rfl
  | cons c t ih =>
    simp only [List.map_cons]
    rw [toLowerChar_of_space c (h c (by simp)), ih (fun x hx => h x (by simp [hx]))]

theorem trim_of_spaces (s : Str) (h : ∀ c ∈ s, isJsSpace c = true) : trim s = [] := by
  unfold trim
  rw [List.dropWhile_eq_nil_iff.mpr h]
  rfl

theorem spaces_of_trim_nil (s : Str) (h : trim s = []) : ∀ c ∈ s, isJsSpace c = true := by
  unfold trim at h
  rw [List.rdropWhile_eq_nil_iff] at h
  have h2 : s.dropWhile isJsSpace = [] := by
    by_contra hne
    have := List.head_dropWhile_not isJsSpace s hne
    rw [h _ (List.head_mem hne)] at this
    exact absurd this (by simp)
  exact List.dropWhile_eq_nil_iff.mp h2

/-- A text whose lower-cased, trimmed form is not empty passes the guard of
`parseSpeciesName`. -/
theorem trim_ne_nil_of_lower [CaseMapping] (s : Str) (h : trim (toLowerCase s) ≠ []) : trim s ≠ [] := by
  intro hs
  have hsp := spaces_of_trim_nil s hs
  rw [toLowerCase_of_spaces s hsp] at h
  exact h hs

theorem infix_dropWhile (p : Char → Bool) (kw l : Str) (c : Char) (t : Str)
    (hkw : kw = c :: t) (hc : p c = false) (h : kw <:+: l) : kw <:+: l.dropWhile p := by
  induction l with
  | nil => simpa using h
  | cons a l ih =>
    rw [List.infix_cons_iff] at h
    by_cases ha : p a = true
    · rw [List.dropWhile_cons_of_pos ha]
      rcases h with h | h
      · exfalso
        rw [hkw, List.cons_prefix_cons] at h
        rw [h.1, ha] at hc
        exact absurd hc (by simp)
      · exact ih h
    · rw [List.dropWhile_cons_of_neg ha]
      exact List.infix_cons_iff.mpr h

/-- Trimming keeps every occurrence of a keyword that has no white space at its ends. -/
theorem infix_trim (kw l : Str) (hs : trimSafe kw = true) (h : kw <:+: l) : kw <:+: trim l := by
  unfold trimSafe at hs
  cases hkw : kw with
  | nil => rw [hkw] at hs; simp at hs
  | cons c t =>
    have hlast : ∃ b r, kw.reverse = b :: r ∧ kw.getLast? = some b := by
      cases hr : kw.reverse with
      | nil => rw [hkw] at hr; simp at hr
      | cons b r =>
        refine ⟨b, r, rfl, ?_⟩
        have : kw = (b :: r).reverse := by rw [← hr, List.reverse_reverse]
        rw [this]; simp
    obtain ⟨b, r, hrev, hb⟩ := hlast
    rw [hb] at hs
    have hhead : kw.head? = some c := by rw [hkw]; rfl
    rw [hhead] at hs
    simp only [Bool.and_eq_true, Bool.not_eq_true', Bool.not_eq_eq_eq_not, Bool.not_true] at hs
    have h1 : kw <:+: l.dropWhile isJsSpace := infix_dropWhile isJsSpace kw l c t hkw hs.1 h
    have h2 : kw.reverse <:+: (l.dropWhile isJsSpace).reverse := List.reverse_infix.mpr h1
    have h3 := infix_dropWhile isJsSpace kw.reverse _ b r hrev hs.2 h2
    have h4 := List.reverse_infix.mpr h3
    rw [List.reverse_reverse] at h4
    rw [← hkw]
    unfold trim
    rw [List.rdropWhile]
    exact h4

theorem species_keywordLoop_eq (text : Str) (kws : List Str) :
    parseSpeciesName.keywordLoop text kws = kws.any (fun keyword => includes text keyword) := by
  induction kws with
  | nil => rfl
  | cons kw rest ih =>
    by_cases h : includes text kw = true
    · simp [parseSpeciesName.keywordLoop, h]
    · simp [parseSpeciesName.keywordLoop, h, ih]

theorem species_keywordLoop_iff (text : Str) (kws : List Str) :
    parseSpeciesName.keywordLoop text kws = true ↔ ∃ kw ∈ kws, kw <:+: text := by
  simp [species_keywordLoop_eq, includes_iff]

/-- The pattern loop returns the name of the first pattern, by position, that has a keyword
in the text. -/
theorem patternLoop_first (text : Str) (ps : List SpeciesPattern)
    (h : ∃ p ∈ ps, ∃ kw ∈ p.keywords, kw <:+: text) :
    ∃ (i : Nat) (hi : i < ps.length),
      (∃ kw ∈ (ps.get ⟨i, hi⟩).keywords, kw <:+: text) ∧
      (∀ (j : Nat) (hj : j < ps.length), j < i →
          ∀ kw ∈ (ps.get ⟨j, hj⟩).keywords, ¬ kw <:+: text) ∧
      parseSpeciesName.patternLoop text ps = some (ps.get ⟨i, hi⟩).name := by
  induction ps with
  | nil => simp at h
  | cons p rest ih =>
    by_cases hp : parseSpeciesName.keywordLoop text p.keywords = true
    · refine ⟨0, by simp, ?_, ?_, ?_⟩
      · exact (species_keywordLoop_iff text p.keywords).mp hp
      · intro j _ hj0
        exact absurd hj0 (Nat.not_lt_zero j)
      · simp [parseSpeciesName.patternLoop, hp]
    · have hrest : ∃ q ∈ rest, ∃ kw ∈ q.keywords, kw <:+: text := by
        obtain ⟨q, hq, hk⟩ := h
        rcases List.mem_cons.mp hq with rfl | hq
        · exact absurd ((species_keywordLoop_iff text q.keywords).mpr hk) hp
        · exact ⟨q, hq, hk⟩
      obtain ⟨i, hi, h1, h2, h3⟩ := ih hrest
      refine ⟨i + 1, by simpa using hi, ?_, ?_, ?_⟩
      · simpa using h1
      · intro j hj hji kw hkw
        cases j with
        | zero =>
          intro hinf
          exact hp ((species_keywordLoop_iff text p.keywords).mpr ⟨kw, by simpa using hkw, hinf⟩)
        | succ j =>
          exact h2 j (by simpa using hj) (by omega) kw (by simpa using hkw)
      · simp only [parseSpeciesName.patternLoop, hp, Bool.false_eq_true, if_false]
        simpa using h3

theorem patternLoop_name_mem (text : Str) (ps : List SpeciesPattern) (name : Str)
    (h : parseSpeciesName.patternLoop text ps = some name) : ∃ p ∈ ps, p.name = name := by
  induction ps with
  | nil => simp [parseSpeciesName.patternLoop] at h
  | cons p rest ih =>
    by_cases hp : parseSpeciesName.keywordLoop text p.keywords = true
    · simp only [parseSpeciesName.patternLoop, hp, if_true, Option.some.injEq] at h
      exact ⟨p, by simp, h⟩
    · simp only [parseSpeciesName.patternLoop, hp, Bool.false_eq_true, if_false] at h
      obtain ⟨q, hq, hn⟩ := ih h
      exact ⟨q, by simp [hq], hn⟩

/-- The guard of `parseSpeciesName` lets through every string whose trimmed form is not
empty. -/
theorem parseSpeciesName_of_trim_ne [CaseMapping] (s : Str) (h : trim s ≠ []) :
    parseSpeciesName (.str s) = parseSpeciesName.classify (trim (toLowerCase s)) := by
  have hs : s ≠ [] := by
    rintro rfl
    exact h rfl
  have h1 : s.isEmpty = false := by cases s <;> simp_all
  have h2 : (trim s).isEmpty = false := by cases hts : trim s <;> simp_all
  simp [parseSpeciesName, parseSpeciesName.guarded, h1, h2]

theorem speciesPatterns_keywords_ne_nil :
    ∀ p ∈ speciesPatterns, ∀ kw ∈ p.keywords, kw ≠ [] := by decide

theorem speciesPatterns_name_ne_nil : ∀ p ∈ speciesPatterns, p.name ≠ [] := by decide

theorem keywords_trimSafe : ∀ kw ∈ rejectPhrases ++ unknownVariations, trimSafe kw = true := by
  decide

theorem ne_nil_of_trimSafe (kw : Str) (h : trimSafe kw = true) : kw ≠ [] := by
  rintro rfl
  simp [trimSafe] at h

theorem ne_nil_of_infix (kw l : Str) (hkw : kw ≠ []) (h : kw <:+: l) : l ≠ [] := by
  rintro rfl
  exact hkw (List.infix_nil.mp h)

theorem classify_unknown [CaseMapping] (text : Str)
    (h : ∃ kw ∈ rejectPhrases ++ unknownVariations, kw <:+: text) :
    parseSpeciesName.classify text = "Unknown".toList := by
  obtain ⟨kw, hkw, hin⟩ := h
  have hinc := (includes_iff text kw).mpr hin
  unfold parseSpeciesName.classify
  rcases List.mem_append.mp hkw with hr | hu
  · have hcases : kw = "shark involvement".toList ∨ kw = "prior to death".toList := by
      simpa [rejectPhrases] using hr
    rcases hcases with rfl | rfl
    · rw [hinc, Bool.true_or, if_pos rfl]
    · rw [hinc, Bool.or_true, if_pos rfl]
  · have hany : unknownVariations.any (fun variation => includes text variation) = true :=
      List.any_eq_true.mpr ⟨kw, hu, hinc⟩
    rw [hany]
    split <;> rfl

theorem classify_ne_nil [CaseMapping] (text : Str) : parseSpeciesName.classify text ≠ [] := by
  unfold parseSpeciesName.classify
  split
  · decide
  · split
    · decide
    · split
      · rename_i name hname
        obtain ⟨p, hp, hpn⟩ := patternLoop_name_mem text speciesPatterns name hname
        rw [← hpn]
        exact speciesPatterns_name_ne_nil p hp
      · split
        · decide
        · simp only []
          split
          · decide
          · exact List.append_ne_nil_of_right_ne_nil _ (by decide)

theorem parseSpeciesName_ne_nil [CaseMapping] (rawText : JsVal) : parseSpeciesName rawText ≠ [] := by
  unfold parseSpeciesName parseSpeciesName.guarded
  split
  · split
    · decide
    · exact classify_ne_nil _
  · decide

theorem rollup_insert_keys (key : JsVal) (d : Row) (m : List (JsVal × List Row)) :
    (rollup.insert key d m).map Prod.fst =
      if key ∈ m.map Prod.fst then m.map Prod.fst else m.map Prod.fst ++ [key] := by
  induction m with
  | nil => simp [rollup.insert]
  | cons e rest ih =>
    obtain ⟨k, g⟩ := e
    by_cases hk : k = key
    · simp [rollup.insert, hk]
    · have hk' : ¬ key = k := fun h => hk h.symm
      simp only [rollup.insert, hk, if_false, List.map_cons, ih, List.mem_cons, hk', false_or]
      split <;> simp

theorem rollup_insert_mem (key : JsVal) (d : Row) (m : List (JsVal × List Row))
    (hnd : (m.map Prod.fst).Nodup) (k : JsVal) (g : List Row)
    (h : (k, g) ∈ rollup.insert key d m) :
    (k ≠ key ∧ (k, g) ∈ m) ∨
    (k = key ∧ ((∃ g0, (key, g0) ∈ m ∧ g = g0 ++ [d]) ∨ (key ∉ m.map Prod.fst ∧ g = [d]))) := by
  induction m with
  | nil =>
    simp only [rollup.insert, List.mem_singleton, Prod.mk.injEq] at h
    exact Or.inr ⟨h.1, Or.inr ⟨by simp, h.2⟩⟩
  | cons e rest ih =>
    obtain ⟨k0, g0⟩ := e
    simp only [List.map_cons, List.nodup_cons] at hnd
    by_cases hk : k0 = key
    · subst hk
      simp only [rollup.insert, if_true, List.mem_cons, Prod.mk.injEq] at h
      rcases h with ⟨rfl, rfl⟩ | h
      · exact Or.inr ⟨rfl, Or.inl ⟨g0, by simp, rfl⟩⟩
      · have hne : k ≠ k0 := by
          rintro rfl
          exact hnd.1 (List.mem_map.mpr ⟨(k, g), h, rfl⟩)
        exact Or.inl ⟨hne, by simp [h]⟩
    · simp only [rollup.insert, hk, if_false, List.mem_cons, Prod.mk.injEq] at h
      rcases h with ⟨rfl, rfl⟩ | h
      · exact Or.inl ⟨hk, by simp⟩
      · rcases ih hnd.2 h with ⟨h1, h2⟩ | ⟨h1, h2 | h2⟩
        · exact Or.inl ⟨h1, by simp [h2]⟩
        · obtain ⟨g1, hg1, hg⟩ := h2
          exact Or.inr ⟨h1, Or.inl ⟨g1, by simp [hg1], hg⟩⟩
        · refine Or.inr ⟨h1, Or.inr ⟨?_, h2.2⟩⟩
          simp only [List.map_cons, List.mem_cons, not_or]
          exact ⟨fun h => hk h.symm, h2.1⟩

theorem rollup_groups_snoc (data : List Row) (d : Row) :
    rollup.groups (data ++ [d]) = rollup.insert d.Species d (rollup.groups data) := by
  simp [rollup.groups, List.foldl_append]

/-- The invariant of grouping: the keys are pairwise distinct, the group of a key holds the
rows with that key in input order, and every row has its key among the groups. -/
theorem rollup_groups_inv (data : List Row) :
    ((rollup.groups data).map Prod.fst).Nodup ∧
    (∀ k g, (k, g) ∈ rollup.groups data → g = data.filter (fun d => d.Species = k)) ∧
    (∀ d ∈ data, d.Species ∈ (rollup.groups data).map Prod.fst) := by
  induction data using List.reverseRecOn with
  | nil => simp [rollup.groups]
  | append_singleton data d ih =>
    obtain ⟨hnd, hgr, hall⟩ := ih
    rw [rollup_groups_snoc]
    refine ⟨?_, ?_, ?_⟩
    · rw [rollup_insert_keys]
      split
      · exact hnd
      · rename_i hnot
        rw [List.nodup_append]
        refine ⟨hnd, by simp, ?_⟩
        simp only [List.disjoint_singleton, List.Disjoint]
        intro a ha hb
        simp only [List.mem_singleton] at hb
        exact hnot (hb ▸ ha)
    · intro k g hkg
      rw [List.filter_append]
      rcases rollup_insert_mem d.Species d _ hnd k g hkg with ⟨h1, h2⟩ | ⟨h1, h2 | h2⟩
      · have : ¬ d.Species = k := fun h => h1 h.symm
        simp [hgr k g h2, this]
      · obtain ⟨g0, hg0, hg⟩ := h2
        rw [hg, hgr _ g0 hg0, h1]
        simp
      · have hempty : data.filter (fun d' => d'.Species = k) = [] := by
          rw [List.filter_eq_nil_iff]
          intro d' hd' hsp
          simp only [decide_eq_true_eq] at hsp
          exact h2.1 (h1 ▸ hsp ▸ hall d' hd')
        rw [hempty, h2.2, h1]
        simp
    · intro d' hd'
      rw [rollup_insert_keys]
      rcases List.mem_append.mp hd' with h | h
      · split
        · exact hall d' h
        · exact List.mem_append_left _ (hall d' h)
      · simp only [List.mem_singleton] at h
        subst h
        split
        · assumption
        · simp

theorem length_three_way {α : Type} (p q : α → Prop) [DecidablePred p] [DecidablePred q]
    (hdisj : ∀ a, p a → ¬ q a) (v : List α) :
    v.length = (v.map (fun d => if p d then 1 else 0)).sum +
      (v.map (fun d => if q d then 1 else 0)).sum +
      v.countP (fun d => !(decide (p d) || decide (q d))) := by
  induction v with
  | nil => rfl
  | cons d v ih =>
    simp only [List.length_cons, List.map_cons, List.sum_cons, List.countP_cons, ih]
    by_cases hp : p d
    · have hq : ¬ q d := hdisj d hp
      simp only [hp, hq, if_true, if_false, decide_True, decide_False, Bool.or_false,
        Bool.not_true, Bool.false_eq_true]
      omega
    · by_cases hq : q d
      · simp only [hp, hq, if_true, if_false, decide_True, decide_False, Bool.or_true,
          Bool.not_true, Bool.false_eq_true]
        omega
      · simp only [hp, hq, if_true, if_false, decide_False, Bool.or_false,
          Bool.not_false]
        omega

theorem reduce_split [CaseMapping] (k : JsVal) (v : List Row) :
    (cleanAttackData.reduce k v).incidents =
      (cleanAttackData.reduce k v).fatal + (cleanAttackData.reduce k v).nonFatal +
        v.countP (fun d => !cleanAttackData.recognised d) := by
  simp only [cleanAttackData.reduce, cleanAttackData.recognised]
  refine length_three_way _ _ ?_ v
  intro d hY hN
  rw [hY] at hN
  revert hN
  decide

theorem buckets_mem [CaseMapping] (data : List Row) (b : Bucket) (hb : b ∈ cleanAttackData.buckets data) :
    b = cleanAttackData.reduce b.species (data.filter (fun d => d.Species = b.species)) := by
  simp only [cleanAttackData.buckets, List.mem_map] at hb
  obtain ⟨⟨k, g⟩, hkg, rfl⟩ := hb
  have := (rollup_groups_inv data).2.1 k g hkg
  simp only [cleanAttackData.reduce]
  rw [this]

theorem buckets_species [CaseMapping] (data : List Row) :
    (cleanAttackData.buckets data).map (fun b => b.species) =
      (rollup.groups data).map Prod.fst := by
  simp [cleanAttackData.buckets, cleanAttackData.reduce, Function.comp_def]

theorem sortByIncidents_perm (l : List Bucket) : (sortByIncidents l).Perm l :=
  List.perm_insertionSort _ l

theorem sortByIncidents_sorted (l : List Bucket) :
    (sortByIncidents l).Pairwise (fun a b => a.incidents ≥ b.incidents) := by
  haveI : IsTotal Bucket (fun a b => a.incidents ≥ b.incidents) :=
    ⟨fun a b => Nat.le_total b.incidents a.incidents⟩
  haveI : IsTrans Bucket (fun a b => a.incidents ≥ b.incidents) :=
    ⟨fun a b c (h1 : a.incidents ≥ b.incidents) (h2 : b.incidents ≥ c.incidents) =>
      Nat.le_trans h2 h1⟩
  exact List.sorted_insertionSort (fun a b : Bucket => a.incidents ≥ b.incidents) l

theorem cleanAttackData_mem [CaseMapping] (data : List Row) (b : Bucket) (hb : b ∈ cleanAttackData data) :
    b ∈ cleanAttackData.buckets data ∧ b.incidents > 5 := by
  have h1 := List.mem_of_mem_take hb
  have h2 := (sortByIncidents_perm _).mem_iff.mp h1
  simpa using h2

theorem countP_or_of_disjoint (p q : Row → Bool) (l : List Row)
    (h : ∀ d, p d = true → q d = true → False) :
    l.countP (fun d => p d || q d) = l.countP p + l.countP q := by
  induction l with
  | nil => rfl
  | cons d l ih =>
    simp only [List.countP_cons, ih]
    cases hp : p d <;> cases hq : q d
    · simp
    · simp; omega
    · simp; omega
    · exact absurd (h d hp hq) id

theorem sum_incidents_eq_countP (data : List Row) (R : List Bucket)
    (hnd : (R.map (fun b => b.species)).Nodup)
    (hinc : ∀ b ∈ R, b.incidents = data.countP (fun d => d.Species = b.species)) :
    (R.map (fun b => b.incidents)).sum =
      data.countP (fun d => d.Species ∈ R.map (fun b => b.species)) := by
  induction R with
  | nil => simp
  | cons b R ih =>
    simp only [List.map_cons, List.nodup_cons] at hnd
    simp only [List.map_cons, List.sum_cons, List.mem_cons]
    rw [ih hnd.2 (fun b' hb' => hinc b' (by simp [hb'])), hinc b (by simp)]
    rw [← countP_or_of_disjoint]
    · congr 1
      funext d
      simp [Bool.decide_or]
    · intro d h1 h2
      simp only [decide_eq_true_eq] at h1 h2
      exact hnd.1 (h1 ▸ h2)

theorem loadData_keep_iff [CaseMapping] (d : Row) :
    loadData.keep d = true ↔
      (toUpperCase (d.Country.orElse []) = "USA".toList ∨
        toUpperCase (d.Country.orElse []) = "UNITED STATES".toList) ∧
      ∃ y, parseInt d.Year = .fin y ∧ 1980 ≤ y ∧ y ≤ 2019 := by
  unfold loadData.keep
  cases hy : parseInt d.Year with
  | nan => simp
  | posInf => simp
  | negInf => simp
  | fin y =>
    simp only [Bool.and_eq_true, Bool.or_eq_true, beq_iff_eq, decide_eq_true_eq,
      JsNum.fin.injEq, exists_eq_left']
    tauto

theorem increment_apply (obj : String → Option Nat) (r k : String) :
    updateVisualization.increment obj r k =
      (obj k).map (fun n => n + if k = r then 1 else 0) := by
  unfold updateVisualization.increment
  cases h : obj r with
  | none =>
    by_cases hk : k = r
    · subst hk; simp [h]
    · simp [hk]
  | some n =>
    by_cases hk : k = r
    · subst hk; simp [h]
    · simp [Function.update, hk]

theorem option_map_add_add (o : Option Nat) (a b : Nat) :
    (o.map (fun n => n + a)).map (fun n => n + b) = o.map (fun n => n + (a + b)) := by
  cases o <;> simp [Nat.add_assoc]

theorem option_map_add_zero (o : Option Nat) : o.map (fun n => n + 0) = o := by
  cases o <;> rfl

theorem regionWeight_single (k r : String) :
    regionWeight k [r] = if k = r ∧ r ≠ "unknown" then 1 else 0 := by
  unfold regionWeight
  by_cases hu : k = "unknown"
  · rw [if_pos hu, if_neg]
    rintro ⟨h1, h2⟩
    exact h2 (h1 ▸ hu)
  · by_cases hk : k = r
    · subst hk
      rw [if_neg hu, if_pos ⟨rfl, hu⟩]
      simp
    · have hk' : ¬ r = k := fun h => hk h.symm
      rw [if_neg hu, if_neg (fun h => hk h.1)]
      simp [List.count_cons, hk']

theorem regionWeight_cons (k r : String) (L : List String) :
    regionWeight k (r :: L) = regionWeight k [r] + regionWeight k L := by
  unfold regionWeight
  by_cases hu : k = "unknown"
  · simp [hu]
  · simp only [hu, if_false, List.count_cons, List.count_nil]
    omega

theorem regionStep_apply (inc : Incident) (st : (String → Option Nat) × (String → Option Nat))
    (hdom : ∀ k, (st.1 k).isSome = (st.2 k).isSome) (r k : String) :
    (updateVisualization.regionStep inc st r).1 k =
        (st.1 k).map (fun n => n + regionWeight k [r]) ∧
    (updateVisualization.regionStep inc st r).2 k =
        (st.2 k).map (fun n => n + if inc.fatal then regionWeight k [r] else 0) := by
  unfold updateVisualization.regionStep
  by_cases hr : r ≠ "unknown" ∧ (st.1 r).isSome = true
  · rw [if_pos hr]
    by_cases hk : k = r
    · have he : regionWeight k [r] = 1 := by
        rw [regionWeight_single, if_pos ⟨hk, hr.1⟩]
      rw [he]
      cases hf : inc.fatal
      · simp only [increment_apply, if_pos hk, Bool.false_eq_true, if_false,
          option_map_add_zero, and_self]
      · simp only [increment_apply, if_pos hk, if_true, and_self]
    · have he : regionWeight k [r] = 0 := by
        rw [regionWeight_single, if_neg (fun h => hk h.1)]
      rw [he]
      cases hf : inc.fatal
      · simp only [increment_apply, if_neg hk, Bool.false_eq_true, if_false,
          option_map_add_zero, and_self]
      · simp only [increment_apply, if_neg hk, if_true, option_map_add_zero, and_self]
  · rw [if_neg hr]
    by_cases hk : k = r ∧ r ≠ "unknown"
    · obtain ⟨hkr, hu⟩ := hk
      subst hkr
      have hnone : st.1 k = none := by
        cases h : st.1 k with
        | none => rfl
        | some n => exact absurd ⟨hu, by simp [h]⟩ hr
      have hnone2 : st.2 k = none := by
        have := hdom k
        rw [hnone] at this
        cases h : st.2 k with
        | none => rfl
        | some n => rw [h] at this; simp at this
      simp [hnone, hnone2]
    · have he : regionWeight k [r] = 0 := by
        rw [regionWeight_single, if_neg hk]
      rw [he]
      simp only [ite_self, option_map_add_zero, and_self]

theorem incidentStep_apply (inc : Incident) (L : List String)
    (st : (String → Option Nat) × (String → Option Nat))
    (hdom : ∀ k, (st.1 k).isSome = (st.2 k).isSome) (k : String) :
    (L.foldl (updateVisualization.regionStep inc) st).1 k =
        (st.1 k).map (fun n => n + regionWeight k L) ∧
    (L.foldl (updateVisualization.regionStep inc) st).2 k =
        (st.2 k).map (fun n => n + if inc.fatal then regionWeight k L else 0) := by
  induction L generalizing st with
  | nil =>
    have h0 : regionWeight k [] = 0 := by simp [regionWeight]
    simp only [List.foldl_nil, h0, ite_self, option_map_add_zero, and_self]
  | cons r L ih =>
    have hstep := regionStep_apply inc st hdom r
    have hdom' : ∀ k, ((updateVisualization.regionStep inc st r).1 k).isSome =
        ((updateVisualization.regionStep inc st r).2 k).isSome := by
      intro k'
      rw [(hstep k').1, (hstep k').2]
      simp [hdom k']
    have h := ih (updateVisualization.regionStep inc st r) hdom'
    rw [List.foldl_cons, h.1, h.2, (hstep k).1, (hstep k).2, option_map_add_add,
      option_map_add_add, regionWeight_cons k r L]
    refine ⟨rfl, ?_⟩
    cases inc.fatal
    · simp only [Bool.false_eq_true, if_false, Nat.add_zero]
    · simp only [if_true]

theorem incidents_fold_apply (ds : List Incident)
    (st : (String → Option Nat) × (String → Option Nat))
    (hdom : ∀ k, (st.1 k).isSome = (st.2 k).isSome) (k : String) :
    (ds.foldl updateVisualization.incidentStep st).1 k =
        (st.1 k).map (fun n => n + (ds.map (fun d => regionWeight k d.bodyRegions)).sum) ∧
    (ds.foldl updateVisualization.incidentStep st).2 k =
        (st.2 k).map (fun n => n +
          ((ds.filter (fun d => d.fatal)).map (fun d => regionWeight k d.bodyRegions)).sum) := by
  induction ds generalizing st with
  | nil =>
    simp only [List.foldl_nil, List.map_nil, List.sum_nil, List.filter_nil,
      option_map_add_zero, and_self]
  | cons d ds ih =>
    have hstep := incidentStep_apply d d.bodyRegions st hdom
    have hdom' : ∀ k, ((updateVisualization.incidentStep st d).1 k).isSome =
        ((updateVisualization.incidentStep st d).2 k).isSome := by
      intro k'
      unfold updateVisualization.incidentStep
      rw [(hstep k').1, (hstep k').2]
      simp [hdom k']
    have h := ih (updateVisualization.incidentStep st d) hdom'
    rw [List.foldl_cons, h.1, h.2]
    unfold updateVisualization.incidentStep
    rw [(hstep k).1, (hstep k).2, option_map_add_add, option_map_add_add]
    constructor
    · simp only [List.map_cons, List.sum_cons]
    · cases hf : d.fatal
      · simp only [Bool.false_eq_true, if_false, Nat.zero_add, List.filter_cons, hf]
      · simp only [if_true, List.filter_cons, hf, List.map_cons, List.sum_cons]

theorem regionKeys_eq : BODY_REGIONS.map Prod.fst =
    ["head", "torso", "upperArm", "lowerArm", "upperLeg", "lowerLeg", "foot"] := by decide

theorem parseBodyRegion_nodup [CaseMapping] (v : JsVal) : (parseBodyRegion v).Nodup := by
  cases v with
  | undefined => exact List.nodup_nil
  | null => exact List.nodup_nil
  | str s =>
    by_cases hs : s = []
    · subst hs; exact List.nodup_nil
    · rw [parseBodyRegion_str s hs]
      split
      · exact List.nodup_singleton _
      · exact (matchingRegions_sublist _).nodup (by decide)

theorem incidentData_nodup [CaseMapping] (incidentRaw : List Row) :
    ∀ d ∈ loadData.incidentData incidentRaw, d.bodyRegions.Nodup := by
  intro d hd
  simp only [loadData.incidentData, List.mem_map, List.mem_filter] at hd
  obtain ⟨row, _, rfl⟩ := hd
  exact parseBodyRegion_nodup _

theorem regionWeight_nodup (k : String) (L : List String) (hL : L.Nodup)
    (hk : k ≠ "unknown") : regionWeight k L = if k ∈ L then 1 else 0 := by
  unfold regionWeight
  rw [if_neg hk, List.count_eq_of_nodup hL]

theorem sum_indicator_eq_countP {α : Type} (p : α → Bool) (l : List α) :
    (l.map (fun d => if p d = true then 1 else 0)).sum = l.countP p := by
  induction l with
  | nil => rfl
  | cons d l ih =>
    simp only [List.map_cons, List.sum_cons, ih, List.countP_cons]
    cases p d
    · simp
    · simp; omega

theorem sum_weight_eq_countP (k : String) (hk : k ≠ "unknown") (ds : List Incident)
    (hnd : ∀ d ∈ ds, d.bodyRegions.Nodup) :
    (ds.map (fun d => regionWeight k d.bodyRegions)).sum =
      ds.countP (fun d => decide (k ∈ d.bodyRegions)) := by
  rw [← sum_indicator_eq_countP]
  congr 1
  apply List.map_congr_left
  intro d hd
  rw [regionWeight_nodup k _ (hnd d hd) hk]
  simp

theorem initCounts_key (r : String) (hr : r ∈ BODY_REGIONS.map Prod.fst) :
    updateVisualization.initCounts r = some 0 := by
  unfold updateVisualization.initCounts
  rw [if_pos hr]

theorem key_ne_unknown (r : String) (hr : r ∈ BODY_REGIONS.map Prod.fst) : r ≠ "unknown" := by
  rintro rfl
  revert hr
  decide

/-- Region counts of `updateVisualization` on records whose label lists have no repeats. -/
theorem updateVisualization_regions (incidentData : List Incident)
    (hnd : ∀ d ∈ incidentData, d.bodyRegions.Nodup) (populationData : PopulationData)
    (basePopulation : JsNum) (year : Int) (r : String)
    (hr : r ∈ BODY_REGIONS.map Prod.fst) :
    (updateVisualization incidentData populationData basePopulation year).regionCounts r =
      some ((updateVisualization incidentData populationData basePopulation
        year).yearIncidents.countP (fun d => decide (r ∈ d.bodyRegions))) ∧
    (updateVisualization incidentData populationData basePopulation year).regionFatal r =
      some (((updateVisualization incidentData populationData basePopulation
        year).yearIncidents.filter (fun d => d.fatal)).countP
          (fun d => decide (r ∈ d.bodyRegions))) := by
  simp only [updateVisualization]
  have hnd' : ∀ d ∈ incidentData.filter (fun d => d.year == .fin year), d.bodyRegions.Nodup :=
    fun d hd => hnd d (List.mem_of_mem_filter hd)
  have hnd'' : ∀ d ∈ (incidentData.filter (fun d => d.year == .fin year)).filter
      (fun d => d.fatal), d.bodyRegions.Nodup :=
    fun d hd => hnd' d (List.mem_of_mem_filter hd)
  have h := incidents_fold_apply (incidentData.filter (fun d => d.year == .fin year))
    (updateVisualization.initCounts, updateVisualization.initCounts) (fun _ => rfl) r
  simp only [initCounts_key r hr] at h
  rw [h.1, h.2, sum_weight_eq_countP r (key_ne_unknown r hr) _ hnd',
    sum_weight_eq_countP r (key_ne_unknown r hr) _ hnd'']
  simp

theorem entryOr_truthy (entry : Option JsNum) (dflt : JsNum) (hd : dflt.truthy = true) :
    (entryOr entry dflt).truthy = true := by
  unfold entryOr
  split
  · split
    · assumption
    · exact hd
  · exact hd

theorem isPositive_of_truthy (v : JsNum) (ht : v.truthy = true)
    (hn : v.isNegative = false) : v.isPositive = true := by
  cases v with
  | nan => exact absurd ht (by decide)
  | posInf => rfl
  | negInf => exact absurd hn (by decide)
  | fin n =>
    simp only [JsNum.truthy, JsNum.isNegative, JsNum.isPositive, decide_eq_true_eq,
      decide_eq_false_iff_not] at ht hn ⊢
    omega

theorem entryOr_pos (entry : Option JsNum) (dflt : JsNum)
    (he : ∀ v, entry = some v → v.isNegative = false) (hd : dflt.isPositive = true) :
    (entryOr entry dflt).isPositive = true := by
  unfold entryOr
  split
  · rename_i x
    split
    · rename_i hx
      exact isPositive_of_truthy x hx (he x rfl)
    · exact hd
  · exact hd

theorem popLine_apply (pd : PopulationData) (l : Str) (y : Int) :
    loadData.popLine pd l y =
      if arrayIncludes COASTAL_STATES (loadData.lineState l) = true ∧
          loadData.lineYear l = .fin y ∧ 1980 ≤ y ∧ y ≤ 2019 then
        some (addToEntry ((pd y).getD .nan) (loadData.linePop l))
      else pd y := by
  have hcur : ∀ e : Option JsNum,
      (if (!entryTruthy e) = true then JsNum.fin 0 else e.getD .nan) =
        (if (e.getD .nan).truthy = true then e.getD .nan else .fin 0) := by
    intro e
    cases e with
    | none => rfl
    | some x => cases hx : x.truthy <;> simp [entryTruthy, hx]
  unfold loadData.popLine
  cases hy : loadData.lineYear l with
  | nan => exact (if_neg (fun h => absurd h.2.1 (by simp))).symm
  | posInf => exact (if_neg (fun h => absurd h.2.1 (by simp))).symm
  | negInf => exact (if_neg (fun h => absurd h.2.1 (by simp))).symm
  | fin y0 =>
    show (if (arrayIncludes COASTAL_STATES (loadData.lineState l) && decide (1980 ≤ y0) &&
        decide (y0 ≤ 2019)) = true then
          Function.update pd y0 (some (numAdd
            (if (!entryTruthy (pd y0)) = true then JsNum.fin 0 else (pd y0).getD .nan)
            (loadData.linePop l)))
        else pd) y = _
    by_cases hc : (arrayIncludes COASTAL_STATES (loadData.lineState l) && decide (1980 ≤ y0) &&
        decide (y0 ≤ 2019)) = true
    · rw [if_pos hc]
      simp only [Bool.and_eq_true, decide_eq_true_eq] at hc
      by_cases hyy : y0 = y
      · subst hyy
        have hcond : arrayIncludes COASTAL_STATES (loadData.lineState l) = true ∧
            JsNum.fin y0 = .fin y0 ∧ 1980 ≤ y0 ∧ y0 ≤ 2019 := ⟨hc.1.1, rfl, hc.1.2, hc.2⟩
        rw [if_pos hcond, Function.update_same, hcur]
        rfl
      · have hcond : ¬ (arrayIncludes COASTAL_STATES (loadData.lineState l) = true ∧
            JsNum.fin y0 = .fin y ∧ 1980 ≤ y ∧ y ≤ 2019) :=
          fun h => hyy (JsNum.fin.inj h.2.1)
        rw [if_neg hcond, Function.update_noteq (Ne.symm hyy)]
    · rw [if_neg hc]
      simp only [Bool.and_eq_true, decide_eq_true_eq] at hc
      have hcond : ¬ (arrayIncludes COASTAL_STATES (loadData.lineState l) = true ∧
          JsNum.fin y0 = .fin y ∧ 1980 ≤ y ∧ y ≤ 2019) := by
        rintro ⟨h1, h2, h3, h4⟩
        have hyy : y0 = y := JsNum.fin.inj h2
        subst hyy
        exact hc ⟨⟨h1, h3⟩, h4⟩
      rw [if_neg hcond]

/-- The entry of a year of the range after the loop over the lines: the entry before the loop
when no line counts for the year, else the result of the two statements of the loop body on
the population values of the lines that count, in order. -/
theorem populationData_fold (lines : List Str) (before : PopulationData) (y : Int)
    (hlo : 1980 ≤ y) (hhi : y ≤ 2019) :
    lines.foldl loadData.popLine before y =
      if contributing lines y = [] then before y
      else some (((contributing lines y).map loadData.linePop).foldl addToEntry
        ((before y).getD .nan)) := by
  induction lines generalizing before with
  | nil => simp [contributing]
  | cons l ls ih =>
    rw [List.foldl_cons]
    by_cases hc : (arrayIncludes COASTAL_STATES (loadData.lineState l) &&
        (loadData.lineYear l == .fin y)) = true
    · have hcons : contributing (l :: ls) y = l :: contributing ls y := by
        simp only [contributing, List.filter_cons, hc, if_true]
      simp only [Bool.and_eq_true, beq_iff_eq] at hc
      have hstep : loadData.popLine before l y =
          some (addToEntry ((before y).getD .nan) (loadData.linePop l)) := by
        rw [popLine_apply, if_pos ⟨hc.1, hc.2, hlo, hhi⟩]
      rw [ih (loadData.popLine before l), hstep, hcons, if_neg (List.cons_ne_nil _ _)]
      split
      · rename_i hnil
        simp [hnil]
      · simp
    · have hcons : contributing (l :: ls) y = contributing ls y := by
        simp only [contributing, List.filter_cons, hc, Bool.false_eq_true, if_false]
      have hstep : loadData.popLine before l y = before y := by
        rw [popLine_apply, if_neg]
        rintro ⟨h1, h2, _⟩
        exact hc (by simp [h1, h2])
      rw [ih (loadData.popLine before l), hstep, hcons]

theorem populationData_out_of_range (lines : List Str) (before : PopulationData) (y : Int)
    (hy : y < 1980 ∨ 2019 < y) : lines.foldl loadData.popLine before y = before y := by
  induction lines generalizing before with
  | nil => rfl
  | cons l ls ih =>
    rw [List.foldl_cons, ih, popLine_apply, if_neg]
    rintro ⟨_, _, h1, h2⟩
    omega

theorem ofNat_ne_nan (n : Nat) : JsNum.ofNat n ≠ .nan := by
  unfold JsNum.ofNat
  split
  · simp
  · simp only []
    split <;> split <;> simp

theorem ofInt_ne_nan (n : Int) : JsNum.ofInt n ≠ .nan := by
  unfold JsNum.ofInt
  split
  · exact ofNat_ne_nan _
  · have h := ofNat_ne_nan (-n).toNat
    cases hv : JsNum.ofNat (-n).toNat with
    | nan => exact absurd hv h
    | posInf => simp [JsNum.neg]
    | negInf => simp [JsNum.neg]
    | fin k => simp [JsNum.neg]

theorem ofInt_of_small (n : Int) (h : n.natAbs < 2 ^ 53) : JsNum.ofInt n = .fin n := by
  unfold JsNum.ofInt
  split
  · rename_i h0
    have hlt : n.toNat < 2 ^ 53 := by omega
    simp only [JsNum.ofNat, if_pos hlt, JsNum.fin.injEq]
    omega
  · rename_i h0
    have hlt : (-n).toNat < 2 ^ 53 := by omega
    simp only [JsNum.ofNat, if_pos hlt, JsNum.neg, JsNum.fin.injEq]
    omega

theorem numAdd_fin_ne_nan (a : JsNum) (p : Int) (ha : a ≠ .nan) : numAdd a (.fin p) ≠ .nan := by
  cases a with
  | nan => exact absurd rfl ha
  | posInf => simp [numAdd]
  | negInf => simp [numAdd]
  | fin x => exact ofInt_ne_nan _

theorem addToEntry_of_ne_nan (a p : JsNum) (ha : a ≠ .nan) : addToEntry a p = numAdd a p := by
  unfold addToEntry
  cases a with
  | nan => exact absurd rfl ha
  | posInf => rfl
  | negInf => rfl
  | fin x =>
    by_cases hx : x = 0
    · subst hx
      rfl
    · simp [JsNum.truthy, hx]

/-- On population values that are finite numbers the reset of a falsy entry changes nothing:
the loop adds the values up. -/
theorem foldl_addToEntry_numeric (ps : List JsNum) (acc : JsNum) (hacc : acc ≠ .nan)
    (h : ∀ e ∈ ps, ∃ p : Int, e = .fin p) :
    ps.foldl addToEntry acc = ps.foldl numAdd acc := by
  induction ps generalizing acc with
  | nil => rfl
  | cons e ps ih =>
    obtain ⟨p, rfl⟩ := h (e) (by simp)
    rw [List.foldl_cons, List.foldl_cons, addToEntry_of_ne_nan acc _ hacc]
    exact ih _ (numAdd_fin_ne_nan acc p hacc) (fun e' he' => h e' (by simp [he']))

/-- Below `2 ^ 53` the additions of the program are exact. -/
theorem foldl_numAdd_exact (ps : List Int) (acc : Int)
    (h : acc.natAbs + (ps.map Int.natAbs).sum < 2 ^ 53) :
    (ps.map JsNum.fin).foldl numAdd (.fin acc) = .fin (acc + ps.sum) := by
  induction ps generalizing acc with
  | nil => simp
  | cons p ps ih =>
    simp only [List.map_cons, List.sum_cons] at h
    have hstep : numAdd (.fin acc) (.fin p) = .fin (acc + p) :=
      ofInt_of_small _ (by have := Int.natAbs_add_le acc p; omega)
    rw [List.map_cons, List.foldl_cons, hstep, ih (acc + p) (by
      have := Int.natAbs_add_le acc p
      omega)]
    simp [Int.add_assoc]

theorem run_seq (a b : Re) (s : Str) (k : Str → Option Str) :
    Re.run (.seq a b) s k = Re.run a s (fun rest => Re.run b rest k) := rfl

theorem run_alt (a b : Re) (s : Str) (k : Str → Option Str) :
    Re.run (.alt a b) s k =
      match Re.run a s k with
      | some r => some r
      | none => Re.run b s k := rfl

theorem run_cls_cons (p : Char → Bool) (c : Char) (t : Str) (k : Str → Option Str) :
    Re.run (.cls p) (c :: t) k = if p c then k t else none := rfl

theorem run_star (p : Char → Bool) (s : Str) (k : Str → Option Str) :
    Re.run (.star p) s k = Re.runStar p k s := rfl

theorem runStar_cons (p : Char → Bool) (k : Str → Option Str) (c : Char) (t : Str) :
    Re.runStar p k (c :: t) =
      if p c then
        match Re.runStar p k t with
        | some r => some r
        | none => k (c :: t)
      else k (c :: t) := rfl

theorem run_alt_isSome (a b : Re) (s : Str) (k : Str → Option Str)
    (h : (Re.run a s k).isSome = true ∨ (Re.run b s k).isSome = true) :
    (Re.run (.alt a b) s k).isSome = true := by
  rw [run_alt]
  cases ha : Re.run a s k with
  | some r => rfl
  | none =>
    rcases h with h | h
    · rw [ha] at h; exact absurd h (by simp)
    · exact h

theorem chr_self (c : Char) (rest : Str) (k : Str → Option Str) :
    Re.run (Re.chr c) (c :: rest) k = k rest := by
  unfold Re.chr
  rw [run_cls_cons]
  simp

theorem lit_run_list (l rest : Str) (k : Str → Option Str) :
    Re.run (l.foldr (fun c r => Re.seq (Re.chr c) r) Re.eps) (l ++ rest) k = k rest := by
  induction l with
  | nil => rfl
  | cons c l ih =>
    show Re.run (Re.seq (Re.chr c) (l.foldr (fun c r => Re.seq (Re.chr c) r) Re.eps))
      (c :: (l ++ rest)) k = k rest
    rw [run_seq, chr_self]
    exact ih

theorem lit_run (s : String) (rest : Str) (k : Str → Option Str) :
    Re.run (Re.lit s) (s.toList ++ rest) k = k rest :=
  lit_run_list s.toList rest k

theorem runStar_of_cont (p : Char → Bool) (k : Str → Option Str) (s : Str)
    (hk : (k s).isSome = true) : (Re.runStar p k s).isSome = true := by
  cases s with
  | nil => exact hk
  | cons c t =>
    rw [runStar_cons]
    by_cases hc : p c = true
    · rw [if_pos hc]
      cases Re.runStar p k t with
      | some r => rfl
      | none => exact hk
    · rw [if_neg hc]
      exact hk

theorem runStar_complete (p : Char → Bool) (k : Str → Option Str) (ws rest : Str)
    (hws : ∀ c ∈ ws, p c = true) (hk : (k rest).isSome = true) :
    (Re.runStar p k (ws ++ rest)).isSome = true := by
  induction ws with
  | nil => exact runStar_of_cont p k rest hk
  | cons c ws ih =>
    have hc : p c = true := hws c (by simp)
    have h := ih (fun x hx => hws x (by simp [hx]))
    rw [List.cons_append, runStar_cons, if_pos hc]
    obtain ⟨r, hr⟩ := Option.isSome_iff_exists.mp h
    rw [hr]
    rfl

theorem test_of_matchAt (r : Re) (pre m : Str) (h : (Re.matchAt r m).isSome = true) :
    Re.test r (pre ++ m) = true := by
  induction pre with
  | nil =>
    cases m with
    | nil => exact h
    | cons c t =>
      show ((Re.matchAt r (c :: t)).isSome || Re.test r t) = true
      rw [h]
      rfl
  | cons c pre ih =>
    show ((Re.matchAt r (c :: (pre ++ m))).isSome || Re.test r (pre ++ m)) = true
    rw [ih]
    exact Bool.or_true _

theorem bareShark_small (pre ws post : Str) (hne : ws ≠ [])
    (hws : ∀ c ∈ ws, isJsSpace c = true) :
    Re.test reBareShark (pre ++ ("small".toList ++ (ws ++ ("shark".toList ++ post)))) = true := by
  apply test_of_matchAt
  unfold Re.matchAt reBareShark
  apply run_alt_isSome
  left
  cases ws with
  | nil => exact absurd rfl hne
  | cons w ws =>
    have hw : isJsSpace w = true := hws w (by simp)
    rw [run_seq, lit_run, run_seq]
    unfold Re.plus
    rw [run_seq, List.cons_append, run_cls_cons, if_pos hw, run_star]
    apply runStar_complete
    · exact fun x hx => hws x (by simp [hx])
    · rw [lit_run]
      rfl

theorem bareShark_digit (pre ws post : Str) (d : Char)
    (hws : ∀ c ∈ ws, isJsSpace c = true) (hd : isDigit d = true) :
    Re.test reBareShark (pre ++ ("shark".toList ++ (ws ++ d :: post))) = true := by
  apply test_of_matchAt
  unfold Re.matchAt reBareShark
  apply run_alt_isSome
  right
  rw [run_seq, lit_run, run_seq, run_star]
  apply runStar_complete _ _ _ _ hws
  rw [run_cls_cons, if_pos hd]
  rfl

theorem patternLoop_none (text : Str) (ps : List SpeciesPattern)
    (h : ∀ p ∈ ps, ∀ kw ∈ p.keywords, ¬ kw <:+: text) :
    parseSpeciesName.patternLoop text ps = none := by
  induction ps with
  | nil => rfl
  | cons p rest ih =>
    have hp : ¬ parseSpeciesName.keywordLoop text p.keywords = true := by
      rw [species_keywordLoop_iff]
      rintro ⟨kw, hkw, hin⟩
      exact h p (by simp) kw hkw hin
    simp only [parseSpeciesName.patternLoop, hp, Bool.false_eq_true, if_false]
    exact ih (fun q hq => h q (by simp [hq]))

/-- The value of `classify` on a text without reject phrase, uncertain variation and species
keyword: the bare-shark test, then the cleanup fallback. -/
theorem classify_no_keyword [CaseMapping] (text : Str)
    (hrej : ∀ kw ∈ rejectPhrases, ¬ kw <:+: text)
    (hunk : ∀ kw ∈ unknownVariations, ¬ kw <:+: text)
    (hsp : ∀ p ∈ speciesPatterns, ∀ kw ∈ p.keywords, ¬ kw <:+: text) :
    parseSpeciesName.classify text =
      if (Re.test reBareShark text || text == "shark".toList) = true then "Unknown".toList
      else if (((parseSpeciesName.cleaned text).isEmpty ||
            decide (utf16Length (parseSpeciesName.cleaned text) < 3)) ||
          parseSpeciesName.onlyDigitsPunct (parseSpeciesName.cleaned text)) = true then
        "Unknown".toList
      else
        joinSpace ((splitSpaces (parseSpeciesName.cleaned text) [] false).map capitalizeWord) ++
          " Shark".toList := by
  have hr1 : includes text "shark involvement".toList = false := by
    rw [Bool.eq_false_iff, Ne, includes_iff]
    exact hrej _ (by simp [rejectPhrases])
  have hr2 : includes text "prior to death".toList = false := by
    rw [Bool.eq_false_iff, Ne, includes_iff]
    exact hrej _ (by simp [rejectPhrases])
  have hu : unknownVariations.any (fun variation => includes text variation) = false := by
    rw [Bool.eq_false_iff, Ne, List.any_eq_true]
    rintro ⟨kw, hkw, hinc⟩
    exact hunk kw hkw ((includes_iff _ _).mp hinc)
  unfold parseSpeciesName.classify
  rw [hr1, hr2, hu, patternLoop_none text speciesPatterns hsp]
  rfl

theorem wordsOf_cons (c : Char) (t : Str) :
    wordsOf (c :: t) =
      if isJsSpace c then wordsOf t
      else if wordBreak t then [c] :: wordsOf t
      else
        match wordsOf t with
        | w :: ws => (c :: w) :: ws
        | [] => [[c]] := rfl

theorem splitSpaces_cons (c : Char) (t cur : Str) (inGap : Bool) :
    splitSpaces (c :: t) cur inGap =
      if isJsSpace c then
        (if inGap then splitSpaces t [] true else cur.reverse :: splitSpaces t [] true)
      else splitSpaces t (c :: cur) false := rfl

theorem wordsOf_cons_space (c : Char) (t : Str) (hc : isJsSpace c = true) :
    wordsOf (c :: t) = wordsOf t := by
  rw [wordsOf_cons, if_pos hc]

theorem wordsOf_single_then_space (a c : Char) (t : Str) (ha : isJsSpace a = false)
    (hc : isJsSpace c = true) : wordsOf (a :: c :: t) = [a] :: wordsOf t := by
  have hb : wordBreak (c :: t) = true := hc
  rw [wordsOf_cons, if_neg (by simp [ha]), if_pos hb, wordsOf_cons_space c t hc]

theorem wordsOf_single (a : Char) (ha : isJsSpace a = false) : wordsOf [a] = [[a]] := by
  rw [wordsOf_cons, if_neg (by simp [ha])]
  rfl

theorem wordsOf_cons_word (a b : Char) (t : Str) (w : Str) (ws : List Str)
    (ha : isJsSpace a = false) (hb : isJsSpace b = false)
    (h : wordsOf (b :: t) = w :: ws) : wordsOf (a :: b :: t) = (a :: w) :: ws := by
  have hbr : ¬ wordBreak (b :: t) = true := by
    show ¬ isJsSpace b = true
    simp [hb]
  rw [wordsOf_cons, if_neg (by simp [ha]), if_neg hbr, h]

/-- A run of characters without white space followed by a white space character is one
word. -/
theorem wordsOf_append_space (l : Str) (c : Char) (t : Str)
    (hl : ∀ x ∈ l, isJsSpace x = false) (hc : isJsSpace c = true) :
    wordsOf (l ++ c :: t) = (if l = [] then [] else [l]) ++ wordsOf t := by
  induction l with
  | nil => simp [wordsOf_cons_space c t hc]
  | cons a l ih =>
    have ha : isJsSpace a = false := hl a (by simp)
    have ih' := ih (fun x hx => hl x (by simp [hx]))
    cases l with
    | nil =>
      simp only [List.cons_append, List.nil_append, if_neg (List.cons_ne_nil _ _),
        List.singleton_append]
      exact wordsOf_single_then_space a c t ha hc
    | cons b l =>
      have hb : isJsSpace b = false := hl b (by simp)
      rw [if_neg (List.cons_ne_nil _ _)] at ih'
      simp only [List.cons_append, if_neg (List.cons_ne_nil _ _), List.singleton_append]
      exact wordsOf_cons_word a b (l ++ c :: t) (b :: l) (wordsOf t) ha hb ih'

theorem wordsOf_nospace (l : Str) (hl : ∀ x ∈ l, isJsSpace x = false) :
    wordsOf l = if l = [] then [] else [l] := by
  induction l with
  | nil => rfl
  | cons a l ih =>
    have ha : isJsSpace a = false := hl a (by simp)
    have ih' := ih (fun x hx => hl x (by simp [hx]))
    rw [if_neg (List.cons_ne_nil _ _)]
    cases l with
    | nil => exact wordsOf_single a ha
    | cons b l =>
      have hb : isJsSpace b = false := hl b (by simp)
      rw [if_neg (List.cons_ne_nil _ _)] at ih'
      exact wordsOf_cons_word a b l (b :: l) [] ha hb ih'

theorem filter_nonempty_cons (w : Str) (ws : List Str) :
    (w :: ws).filter (fun w => !w.isEmpty) =
      (if w = [] then [] else [w]) ++ ws.filter (fun w => !w.isEmpty) := by
  cases w with
  | nil => simp
  | cons a l => simp

theorem splitSpaces_words (s : Str) :
    (∀ cur : Str, (∀ x ∈ cur, isJsSpace x = false) →
      (splitSpaces s cur false).filter (fun w => !w.isEmpty) = wordsOf (cur.reverse ++ s)) ∧
    (splitSpaces s [] true).filter (fun w => !w.isEmpty) = wordsOf s := by
  induction s with
  | nil =>
    constructor
    · intro cur hcur
      have hrev : ∀ x ∈ cur.reverse, isJsSpace x = false :=
        fun x hx => hcur x (List.mem_reverse.mp hx)
      rw [List.append_nil, wordsOf_nospace _ hrev]
      show [cur.reverse].filter (fun w => !w.isEmpty) = _
      rw [filter_nonempty_cons]
      simp
    · rfl
  | cons c t ih =>
    by_cases hc : isJsSpace c = true
    · constructor
      · intro cur hcur
        have hrev : ∀ x ∈ cur.reverse, isJsSpace x = false :=
          fun x hx => hcur x (List.mem_reverse.mp hx)
        rw [wordsOf_append_space _ c t hrev hc, splitSpaces_cons, if_pos hc,
          if_neg (by simp), filter_nonempty_cons, ih.2]
      · rw [splitSpaces_cons, if_pos hc, if_pos rfl, ih.2, wordsOf_cons_space c t hc]
    · have hc' : isJsSpace c = false := by simpa using hc
      constructor
      · intro cur hcur
        rw [splitSpaces_cons, if_neg hc, ih.1 (c :: cur) (by
          intro x hx
          rcases List.mem_cons.mp hx with rfl | hx
          · exact hc'
          · exact hcur x hx)]
        simp
      · rw [splitSpaces_cons, if_neg hc, ih.1 [c] (by simpa using hc')]
        rfl

theorem endsInWord_tail (c : Char) (t : Str) (ht : t ≠ []) (h : endsInWord (c :: t)) :
    endsInWord t := by
  intro x hx
  apply h x
  cases t with
  | nil => exact absurd rfl ht
  | cons d t => rw [List.getLast?_cons_cons]; exact hx

theorem endsInWord_ne_nil (c : Char) (t : Str) (hc : isJsSpace c = true)
    (h : endsInWord (c :: t)) : t ≠ [] := by
  rintro rfl
  have := h c rfl
  rw [hc] at this
  exact absurd this (by simp)

theorem splitSpaces_nonempty (s : Str) :
    (∀ cur : Str, cur ≠ [] → endsInWord s → ∀ w ∈ splitSpaces s cur false, w ≠ []) ∧
    (s ≠ [] → endsInWord s → ∀ w ∈ splitSpaces s [] true, w ≠ []) := by
  induction s with
  | nil =>
    constructor
    · intro cur hcur _ w hw
      have : w = cur.reverse := by simpa [splitSpaces] using hw
      rw [this]
      simpa using hcur
    · intro h
      exact absurd rfl h
  | cons c t ih =>
    by_cases hc : isJsSpace c = true
    · constructor
      · intro cur hcur hend w hw
        rw [splitSpaces_cons, if_pos hc, if_neg (by simp)] at hw
        have ht := endsInWord_ne_nil c t hc hend
        rcases List.mem_cons.mp hw with rfl | hw
        · simpa using hcur
        · exact ih.2 ht (endsInWord_tail c t ht hend) w hw
      · intro _ hend w hw
        rw [splitSpaces_cons, if_pos hc, if_pos rfl] at hw
        have ht := endsInWord_ne_nil c t hc hend
        exact ih.2 ht (endsInWord_tail c t ht hend) w hw
    · have key : ∀ cur : Str, endsInWord (c :: t) →
          ∀ w ∈ splitSpaces t (c :: cur) false, w ≠ [] := by
        intro cur hend w hw
        by_cases ht : t = []
        · subst ht
          have : w = (c :: cur).reverse := by simpa [splitSpaces] using hw
          rw [this]
          simp
        · exact ih.1 (c :: cur) (List.cons_ne_nil _ _) (endsInWord_tail c t ht hend) w hw
      constructor
      · intro cur _ hend w hw
        rw [splitSpaces_cons, if_neg hc] at hw
        exact key cur hend w hw
      · intro _ hend w hw
        rw [splitSpaces_cons, if_neg hc] at hw
        exact key [] hend w hw

theorem trim_head_not_space (s : Str) (c : Char) (t : Str) (h : trim s = c :: t) :
    isJsSpace c = false := by
  unfold trim at h
  have hpre : (s.dropWhile isJsSpace).rdropWhile isJsSpace <+: s.dropWhile isJsSpace :=
    List.rdropWhile_prefix _ _
  rw [h] at hpre
  obtain ⟨r, hr⟩ := hpre
  have hne : s.dropWhile isJsSpace ≠ [] := by
    rw [← hr]; simp
  have hhead := List.head_dropWhile_not isJsSpace s hne
  have : (s.dropWhile isJsSpace).head hne = c := by
    simp only [← hr, List.cons_append, List.head_cons]
  rw [this] at hhead
  simpa using hhead

theorem trim_endsInWord (s : Str) : endsInWord (trim s) := by
  intro x hx
  unfold trim at hx
  by_cases hne : (s.dropWhile isJsSpace).rdropWhile isJsSpace = []
  · rw [hne] at hx
    exact absurd hx (by simp)
  · have hlast := List.rdropWhile_last_not isJsSpace (s.dropWhile isJsSpace) hne
    rw [List.getLast?_eq_getLast _ hne] at hx
    have : ((s.dropWhile isJsSpace).rdropWhile isJsSpace).getLast hne = x :=
      Option.some.inj hx
    rw [this] at hlast
    simpa using hlast

/-- On a trimmed, non-empty text `split(/\s+/)` yields the words of the text. -/
theorem splitSpaces_trim (s : Str) (hne : trim s ≠ []) :
    splitSpaces (trim s) [] false = wordsOf (trim s) := by
  have hend := trim_endsInWord s
  cases hts : trim s with
  | nil => exact absurd hts hne
  | cons c t =>
    rw [hts] at hend
    have hc : isJsSpace c = false := trim_head_not_space s c t hts
    have hall : ∀ w ∈ splitSpaces (c :: t) [] false, w ≠ [] := by
      intro w hw
      rw [splitSpaces_cons, if_neg (by simp [hc])] at hw
      by_cases ht : t = []
      · subst ht
        have : w = [c] := by simpa [splitSpaces] using hw
        rw [this]
        simp
      · exact (splitSpaces_nonempty t).1 [c] (List.cons_ne_nil _ _)
          (endsInWord_tail c t ht hend) w hw
    have hfilter : (splitSpaces (c :: t) [] false).filter (fun w => !w.isEmpty) =
        splitSpaces (c :: t) [] false := by
      rw [List.filter_eq_self]
      intro w hw
      have := hall w hw
      cases w with
      | nil => exact absurd rfl this
      | cons a l => rfl
    rw [← hfilter, (splitSpaces_words (c :: t)).1 [] (by simp)]
    rfl

theorem fallback_condition (cleaned : Str) :
    (((cleaned.isEmpty || decide (utf16Length cleaned < 3)) ||
        parseSpeciesName.onlyDigitsPunct cleaned) = true) ↔
      (cleaned = [] ∨ utf16Length cleaned < 3 ∨
        ∀ c ∈ cleaned, isDigit c = true ∨ isJsSpace c = true ∨
          c.toNat ∈ [45, 44, 46, 59, 58, 39, 34, 63]) := by
  cases cleaned with
  | nil => simp
  | cons a l =>
    simp only [List.isEmpty_cons, Bool.false_or, Bool.or_eq_true, decide_eq_true_eq,
      parseSpeciesName.onlyDigitsPunct, Bool.not_false, Bool.true_and, List.all_eq_true,
      beq_iff_eq, List.mem_cons, List.mem_singleton, List.not_mem_nil, or_false,
      false_or, (List.cons_ne_nil a l)]
    constructor
    · rintro (h | h)
      · exact Or.inl h
      · right
        intro c hc
        have := h c hc
        tauto
    · rintro (h | h)
      · exact Or.inl h
      · right
        intro c hc
        have := h c hc
        tauto

theorem cleaned_words (text : Str) (h : parseSpeciesName.cleaned text ≠ []) :
    splitSpaces (parseSpeciesName.cleaned text) [] false =
      wordsOf (parseSpeciesName.cleaned text) :=
  splitSpaces_trim _ h

theorem parseSpeciesName_blank [CaseMapping] (s : Str) (h : trim s = []) :
    parseSpeciesName (.str s) = "Unknown".toList ∧ trim (toLowerCase s) = [] := by
  have hsp := spaces_of_trim_nil s h
  rw [toLowerCase_of_spaces s hsp]
  refine ⟨?_, h⟩
  simp [parseSpeciesName, parseSpeciesName.guarded, h]

theorem mem_matchingRegions_of_keyword (text : Str) (i : Nat) (hi : i < BODY_REGIONS.length)
    (kw : Str) (hkw : kw ∈ (BODY_REGIONS.get ⟨i, hi⟩).2.keywords) (hin : kw <:+: text) :
    (BODY_REGIONS.get ⟨i, hi⟩).1 ∈ matchingRegions text := by
  unfold matchingRegions
  refine List.mem_map.mpr ⟨BODY_REGIONS.get ⟨i, hi⟩, List.mem_filter.mpr ⟨List.get_mem _ _ _, ?_⟩,
    rfl⟩
  unfold regionMatches
  exact List.any_eq_true.mpr ⟨kw, hkw, (includes_iff text kw).mpr hin⟩

theorem mem_parseBodyRegion_of_matching [CaseMapping] (s : Str) (r : String)
    (h : r ∈ matchingRegions (toLowerCase s)) : r ∈ parseBodyRegion (.str s) := by
  have hs : s ≠ [] := by
    rintro rfl
    have hempty : matchingRegions [] = [] := by decide
    rw [toLowerCase_nil, hempty] at h
    exact absurd h (List.not_mem_nil r)
  rw [parseBodyRegion_str s hs, if_neg (List.ne_nil_of_mem h)]
  exact h

theorem forearm_regions [CaseMapping] (s : Str) (h : "forearm".toList <:+: toLowerCase s) :
    "head" ∈ parseBodyRegion (.str s) ∧ "lowerArm" ∈ parseBodyRegion (.str s) := by
  have hear : "ear".toList <:+: "forearm".toList := (includes_iff _ _).mp (by decide)
  constructor
  · exact mem_parseBodyRegion_of_matching s "head"
      (mem_matchingRegions_of_keyword _ 0 (by decide) "ear".toList (by decide) (hear.trans h))
  · exact mem_parseBodyRegion_of_matching s "lowerArm"
      (mem_matchingRegions_of_keyword _ 3 (by decide) "forearm".toList (by decide) h)

theorem patternLoop_prefix (text : Str) (before after : List SpeciesPattern)
    (q : SpeciesPattern) (hq : ∃ kw ∈ q.keywords, kw <:+: text) :
    ∃ p ∈ before ++ [q],
      parseSpeciesName.patternLoop text (before ++ q :: after) = some p.name := by
  induction before with
  | nil =>
    refine ⟨q, by simp, ?_⟩
    have hk := (species_keywordLoop_iff text q.keywords).mpr hq
    simp only [List.nil_append, parseSpeciesName.patternLoop, hk, if_true]
  | cons p rest ih =>
    by_cases hp : parseSpeciesName.keywordLoop text p.keywords = true
    · refine ⟨p, by simp, ?_⟩
      simp only [List.cons_append, parseSpeciesName.patternLoop, hp, if_true]
    · obtain ⟨p', hp', hloop⟩ := ih
      refine ⟨p', by simp only [List.cons_append, List.mem_cons]; exact Or.inr hp', ?_⟩
      simp only [List.cons_append, parseSpeciesName.patternLoop, hp, Bool.false_eq_true,
        if_false]
      exact hloop

theorem classify_of_pattern [CaseMapping] (text : Str) (name : Str)
    (hno : ¬ ∃ kw ∈ rejectPhrases ++ unknownVariations, kw <:+: text)
    (hloop : parseSpeciesName.patternLoop text speciesPatterns = some name) :
    parseSpeciesName.classify text = name := by
  have hr1 : includes text "shark involvement".toList = false := by
    rw [Bool.eq_false_iff, Ne, includes_iff]
    exact fun h => hno ⟨_, by simp [rejectPhrases], h⟩
  have hr2 : includes text "prior to death".toList = false := by
    rw [Bool.eq_false_iff, Ne, includes_iff]
    exact fun h => hno ⟨_, by simp [rejectPhrases], h⟩
  have hu : unknownVariations.any (fun variation => includes text variation) = false := by
    rw [Bool.eq_false_iff, Ne, List.any_eq_true]
    rintro ⟨kw, hkw, hinc⟩
    exact hno ⟨kw, List.mem_append_right _ hkw, (includes_iff _ _).mp hinc⟩
  unfold parseSpeciesName.classify
  rw [hr1, hr2, hu, hloop]
  rfl

/-- A text that holds a keyword of the pattern at position `j` is classified `Unknown` or with
the name of one of the first `j + 1` patterns. -/
theorem parseSpeciesName_shadow [CaseMapping] (s : Str) (j : Nat) (hj : j < speciesPatterns.length)
    (kw hit : Str) (hhit : hit ∈ (speciesPatterns.get ⟨j, hj⟩).keywords)
    (hsub : hit <:+: kw) (hsafe : trimSafe kw = true) (hkw : kw <:+: toLowerCase s) :
    parseSpeciesName (.str s) = "Unknown".toList ∨
      ∃ p ∈ speciesPatterns.take (j + 1), parseSpeciesName (.str s) = p.name := by
  have hin : kw <:+: trim (toLowerCase s) := infix_trim kw _ hsafe hkw
  have hne : trim (toLowerCase s) ≠ [] := ne_nil_of_infix kw _ (ne_nil_of_trimSafe kw hsafe) hin
  rw [parseSpeciesName_of_trim_ne s (trim_ne_nil_of_lower s hne)]
  by_cases hno : ∃ k ∈ rejectPhrases ++ unknownVariations, k <:+: trim (toLowerCase s)
  · exact Or.inl (classify_unknown _ hno)
  · right
    have hsplit : speciesPatterns =
        speciesPatterns.take j ++ speciesPatterns.get ⟨j, hj⟩ :: speciesPatterns.drop (j + 1) := by
      rw [List.get_eq_getElem, List.getElem_cons_drop, List.take_append_drop]
    obtain ⟨p, hp, hloop⟩ := patternLoop_prefix (trim (toLowerCase s)) (speciesPatterns.take j)
      (speciesPatterns.drop (j + 1)) (speciesPatterns.get ⟨j, hj⟩) ⟨hit, hhit, hsub.trans hin⟩
    rw [← hsplit] at hloop
    refine ⟨p, ?_, classify_of_pattern _ _ hno hloop⟩
    rw [List.take_succ, List.getElem?_eq_getElem hj]
    simpa using hp

/-- A string that upper-cases to `Y` is `y` or `Y`; it has no white space around it. -/
theorem upper_eq_Y [CaseMapping] (s : Str) (h : toUpperCase s = "Y".toList) :
    (s = "y".toList ∨ s = "Y".toList) ∧ trim s = s := by
  have hs := CaseMapping.upper_Y s h
  refine ⟨hs, ?_⟩
  rcases hs with rfl | rfl <;> decide

theorem reduce_single_fatal [CaseMapping] (d : Row) :
    (cleanAttackData.reduce d.Species [d]).fatal =
      if cleanAttackData.fatalValue d = "Y".toList then 1 else 0 := by
  simp only [cleanAttackData.reduce, List.map_cons, List.map_nil, List.sum_cons, List.sum_nil,
    Nat.add_zero]

theorem bodyFatal_iff [CaseMapping] (d : Row) :
    (loadData.toIncident d).fatal = true ↔ toUpperCase (d.Fatal_Y_N.orElse []) = "Y".toList := by
  simp only [loadData.toIncident, beq_iff_eq]

theorem orElse_of_ne_nil (v : JsVal) (h : v.orElse [] ≠ []) (dflt : Str) :
    v.orElse dflt = v.orElse [] := by
  cases v with
  | undefined => exact absurd rfl h
  | null => exact absurd rfl h
  | str s =>
    cases s with
    | nil => exact absurd rfl h
    | cons c t => rfl

theorem orElse_of_eq_nil (v : JsVal) (h : v.orElse [] = []) (dflt : Str) :
    v.orElse dflt = dflt := by
  cases v with
  | undefined => rfl
  | null => rfl
  | str s =>
    cases s with
    | nil => rfl
    | cons c t => exact absurd h (by simp [JsVal.orElse])

theorem bubbleFatal_of_bodyFatal [CaseMapping] (d : Row) (h : (loadData.toIncident d).fatal = true) :
    (cleanAttackData.reduce d.Species [d]).fatal = 1 := by
  rw [bodyFatal_iff] at h
  obtain ⟨hs, htrim⟩ := upper_eq_Y _ h
  have hne : d.Fatal_Y_N.orElse [] ≠ [] := by
    rcases hs with hs | hs <;> rw [hs] <;> decide
  rw [reduce_single_fatal, if_pos]
  unfold cleanAttackData.fatalValue
  rw [orElse_of_ne_nil _ hne, htrim]
  exact h

theorem fatal_agree_of_trimmed [CaseMapping] (d : Row)
    (ht : trim (d.Fatal_Y_N.orElse []) = d.Fatal_Y_N.orElse []) :
    ((loadData.toIncident d).fatal = true ↔ (cleanAttackData.reduce d.Species [d]).fatal = 1) := by
  constructor
  · exact bubbleFatal_of_bodyFatal d
  · intro h
    rw [reduce_single_fatal] at h
    have hY : cleanAttackData.fatalValue d = "Y".toList := by
      by_contra hn
      rw [if_neg hn] at h
      exact absurd h (by decide)
    rw [bodyFatal_iff]
    unfold cleanAttackData.fatalValue at hY
    by_cases hne : d.Fatal_Y_N.orElse [] = []
    · rw [orElse_of_eq_nil _ hne, toUpperCase_plain _ (by decide)] at hY
      exact absurd hY (by decide)
    · rw [orElse_of_ne_nil _ hne, ht] at hY
      exact hY

theorem plainVal_str (s : Str) (h : plainVal (.str s) = true) : ∀ c ∈ s, isPlain c = true := by
  simpa [plainVal] using h

theorem orElse_plain (v : JsVal) (dflt : Str) (hv : plainVal v = true)
    (hd : ∀ c ∈ dflt, isPlain c = true) : ∀ c ∈ v.orElse dflt, isPlain c = true := by
  cases v with
  | undefined => exact hd
  | null => exact hd
  | str s =>
    by_cases hs : s.isEmpty = true
    · simp only [JsVal.orElse, hs, if_true]
      exact hd
    · simp only [JsVal.orElse, hs, Bool.false_eq_true, if_false]
      exact plainVal_str s hv

theorem parseBodyRegion_plain [CaseMapping] (v : JsVal) (h : plainVal v = true) :
    parseBodyRegion v = @parseBodyRegion asciiCase v := by
  cases v with
  | undefined => rfl
  | null => rfl
  | str s =>
    simp only [parseBodyRegion, toLowerCase_plain s (plainVal_str s h)]
    rfl

theorem plainRow_fields (d : Row) (h : plainRow d = true) :
    plainVal d.Country = true ∧ plainVal d.Injury = true ∧ plainVal d.Fatal_Y_N = true := by
  simpa [plainRow, and_assoc] using h

theorem keep_plain [CaseMapping] (d : Row) (h : plainRow d = true) :
    loadData.keep d = @loadData.keep asciiCase d := by
  have hc := orElse_plain d.Country [] (plainRow_fields d h).1
    (fun _ hx => absurd hx (List.not_mem_nil _))
  simp only [loadData.keep, toUpperCase_plain _ hc]
  rfl

theorem toIncident_plain [CaseMapping] (d : Row) (h : plainRow d = true) :
    loadData.toIncident d = @loadData.toIncident asciiCase d := by
  have hf := orElse_plain d.Fatal_Y_N [] (plainRow_fields d h).2.2
    (fun _ hx => absurd hx (List.not_mem_nil _))
  simp only [loadData.toIncident, toUpperCase_plain _ hf,
    parseBodyRegion_plain d.Injury (plainRow_fields d h).2.1]
  rfl

theorem incidentData_plain [CaseMapping] (rows : List Row) (h : ∀ d ∈ rows, plainRow d = true) :
    loadData.incidentData rows = @loadData.incidentData asciiCase rows := by
  induction rows with
  | nil => rfl
  | cons d rows ih =>
    have hd := h d (by simp)
    have ih' := ih (fun x hx => h x (by simp [hx]))
    simp only [loadData.incidentData, List.filter_cons] at ih' ⊢
    rw [keep_plain d hd]
    split
    · simp only [List.map_cons, toIncident_plain d hd, ih']
    · exact ih'

theorem trim_subset (s : Str) : ∀ c ∈ trim s, c ∈ s := by
  intro c hc
  unfold trim at hc
  exact (List.dropWhile_sublist _).subset ((List.rdropWhile_prefix _ _).sublist.subset hc)

theorem fatalValue_plain [CaseMapping] (d : Row) (h : plainRow d = true) :
    cleanAttackData.fatalValue d = @cleanAttackData.fatalValue asciiCase d := by
  have hf := orElse_plain d.Fatal_Y_N "N".toList (plainRow_fields d h).2.2 (by decide)
  have ht : ∀ c ∈ trim (d.Fatal_Y_N.orElse "N".toList), isPlain c = true :=
    fun c hc => hf c (trim_subset _ c hc)
  simp only [cleanAttackData.fatalValue, toUpperCase_plain _ ht]
  rfl

theorem reduce_plain [CaseMapping] (k : JsVal) (v : List Row) (h : ∀ d ∈ v, plainRow d = true) :
    cleanAttackData.reduce k v = @cleanAttackData.reduce asciiCase k v := by
  have hmap : ∀ (f g : Row → Nat), (∀ d ∈ v, f d = g d) → (v.map f).sum = (v.map g).sum :=
    fun f g hfg => congrArg List.sum (List.map_congr_left hfg)
  simp only [cleanAttackData.reduce]
  congr 1
  · exact hmap _ _ (fun d hd => by rw [fatalValue_plain d (h d hd)])
  · exact hmap _ _ (fun d hd => by rw [fatalValue_plain d (h d hd)])

theorem buckets_plain [CaseMapping] (data : List Row) (h : ∀ d ∈ data, plainRow d = true) :
    cleanAttackData.buckets data = @cleanAttackData.buckets asciiCase data := by
  simp only [cleanAttackData.buckets]
  apply List.map_congr_left
  rintro ⟨k, g⟩ hkg
  apply reduce_plain
  intro d hd
  have hg := (rollup_groups_inv data).2.1 k g hkg
  rw [hg] at hd
  exact h d (List.mem_of_mem_filter hd)

theorem cleanAttackData_plain [CaseMapping] (data : List Row)
    (h : ∀ d ∈ data, plainRow d = true) :
    cleanAttackData data = @cleanAttackData asciiCase data := by
  simp only [cleanAttackData, buckets_plain data h]

theorem capitalizeWord_plain [CaseMapping] (w : Str) (h : headPlain w = true) :
    capitalizeWord w = @capitalizeWord asciiCase w := by
  cases w with
  | nil => rfl
  | cons c t =>
    have hc : ∀ x ∈ [c], isPlain x = true := by
      intro x hx
      rw [List.mem_singleton.mp hx]
      exact h
    simp only [capitalizeWord, toUpperCase_plain [c] hc]
    rfl

/-- When the words of the residue begin with plain characters the classification does not
depend on the case mappings. -/
theorem classify_plain [CaseMapping] (text : Str)
    (h : ∀ w ∈ splitSpaces (parseSpeciesName.cleaned text) [] false, headPlain w = true) :
    parseSpeciesName.classify text = @parseSpeciesName.classify asciiCase text := by
  have hmap : (splitSpaces (parseSpeciesName.cleaned text) [] false).map capitalizeWord =
      (splitSpaces (parseSpeciesName.cleaned text) [] false).map (@capitalizeWord asciiCase) :=
    List.map_congr_left (fun w hw => capitalizeWord_plain w (h w hw))
  simp only [parseSpeciesName.classify, hmap]

/-- On a text of plain characters whose residue has words beginning with plain characters,
`parseSpeciesName` does not depend on the case mappings. -/
theorem parseSpeciesName_plain [CaseMapping] (s : Str) (hp : ∀ c ∈ s, isPlain c = true)
    (hw : ∀ w ∈ splitSpaces (parseSpeciesName.cleaned (trim (s.map toLowerChar))) [] false,
      headPlain w = true) :
    parseSpeciesName (.str s) = @parseSpeciesName asciiCase (.str s) := by
  simp only [parseSpeciesName, parseSpeciesName.guarded, toLowerCase_plain s hp]
  split
  · rfl
  · rw [classify_plain _ hw]
    rfl

theorem rollup_groups_keys_mem (data : List Row) :
    ∀ k ∈ (rollup.groups data).map Prod.fst, ∃ d ∈ data, d.Species = k := by
  induction data using List.reverseRecOn with
  | nil => simp [rollup.groups]
  | append_singleton data d ih =>
    intro k hk
    rw [rollup_groups_snoc, rollup_insert_keys] at hk
    split at hk
    · obtain ⟨d', hd', hs⟩ := ih k hk
      exact ⟨d', List.mem_append_left _ hd', hs⟩
    · rcases List.mem_append.mp hk with h | h
      · obtain ⟨d', hd', hs⟩ := ih k h
        exact ⟨d', List.mem_append_left _ hd', hs⟩
      · exact ⟨d, by simp, (List.mem_singleton.mp h).symm⟩

/-- The keys of the groups are the distinct species values of the rows. -/
theorem rollup_groups_keys_perm (data : List Row) :
    ((rollup.groups data).map Prod.fst).Perm ((data.map (fun d => d.Species)).dedup) := by
  rw [List.perm_ext_iff_of_nodup (rollup_groups_inv data).1 (List.nodup_dedup _)]
  intro k
  constructor
  · intro hk
    obtain ⟨d, hd, hs⟩ := rollup_groups_keys_mem data k hk
    exact List.mem_dedup.mpr (List.mem_map.mpr ⟨d, hd, hs⟩)
  · intro hk
    obtain ⟨d, hd, hs⟩ := List.mem_map.mp (List.mem_dedup.mp hk)
    exact hs ▸ (rollup_groups_inv data).2.2 d hd

theorem buckets_incidents [CaseMapping] (data : List Row) (b : Bucket)
    (hb : b ∈ cleanAttackData.buckets data) :
    b.incidents = data.countP (fun d => d.Species = b.species) := by
  have hred := buckets_mem data b hb
  rw [hred]
  simp only [cleanAttackData.reduce]
  rw [List.countP_eq_length_filter]

/-- The buckets that pass the filter `incidents > 5` are as many as the species values with
more than 5 rows. -/
theorem filtered_buckets_length [CaseMapping] (data : List Row) :
    ((cleanAttackData.buckets data).filter (fun d => d.incidents > 5)).length =
      (qualifyingSpecies data).length := by
  have hmap : ((cleanAttackData.buckets data).filter (fun d => d.incidents > 5)).map
        (fun b => b.species) =
      ((rollup.groups data).map Prod.fst).filter
        (fun k => decide (data.countP (fun d => d.Species = k) > 5)) := by
    rw [← buckets_species, List.filter_map]
    congr 1
    apply List.filter_congr
    intro b hb
    simp only [Function.comp, buckets_incidents data b hb]
  have hlen := congrArg List.length hmap
  rw [List.length_map] at hlen
  rw [hlen]
  exact ((rollup_groups_keys_perm data).filter _).length_eq

theorem bucket_of_species [CaseMapping] (data : List Row) (k : JsVal)
    (hk : data.countP (fun d => d.Species = k) > 5) :
    ∃ g ∈ (cleanAttackData.buckets data).filter (fun d => d.incidents > 5), g.species = k := by
  have hpos : 0 < data.countP (fun d => d.Species = k) := by omega
  obtain ⟨d, hd, hs⟩ := List.countP_pos_iff.mp hpos
  simp only [decide_eq_true_eq] at hs
  have hkey : k ∈ (rollup.groups data).map Prod.fst := hs ▸ (rollup_groups_inv data).2.2 d hd
  rw [← buckets_species, List.mem_map] at hkey
  obtain ⟨g, hg, hgk⟩ := hkey
  refine ⟨g, List.mem_filter.mpr ⟨hg, ?_⟩, hgk⟩
  rw [decide_eq_true_eq, buckets_incidents data g hg, hgk]
  exact hk

theorem lit_run_bind (l s : Str) (k : Str → Option Str) :
    Re.run (l.foldr (fun c r => Re.seq (Re.chr c) r) Re.eps) s k =
      (Re.run (l.foldr (fun c r => Re.seq (Re.chr c) r) Re.eps) s some).bind k := by
  induction l generalizing s k with
  | nil => rfl
  | cons c l ih =>
    show Re.run (Re.seq (Re.chr c) (l.foldr (fun c r => Re.seq (Re.chr c) r) Re.eps)) s k =
      (Re.run (Re.seq (Re.chr c) (l.foldr (fun c r => Re.seq (Re.chr c) r) Re.eps)) s some).bind k
    rw [run_seq, run_seq]
    unfold Re.chr
    cases s with
    | nil => rfl
    | cons x t =>
      rw [run_cls_cons, run_cls_cons]
      split
      · exact ih t k
      · rfl

theorem lit_run_append (a b s : Str) (k : Str → Option Str) :
    Re.run ((a ++ b).foldr (fun c r => Re.seq (Re.chr c) r) Re.eps) s k =
      Re.run (a.foldr (fun c r => Re.seq (Re.chr c) r) Re.eps) s
        (fun rest => Re.run (b.foldr (fun c r => Re.seq (Re.chr c) r) Re.eps) rest k) := by
  induction a generalizing s with
  | nil => rfl
  | cons c a ih =>
    show Re.run (Re.seq (Re.chr c) ((a ++ b).foldr (fun c r => Re.seq (Re.chr c) r) Re.eps)) s k =
      Re.run (Re.seq (Re.chr c) (a.foldr (fun c r => Re.seq (Re.chr c) r) Re.eps)) s _
    rw [run_seq, run_seq]
    unfold Re.chr
    cases s with
    | nil => rfl
    | cons x t =>
      rw [run_cls_cons, run_cls_cons]
      split
      · exact ih t
      · rfl

/-- A literal that begins with another literal does not match where that one does not. -/
theorem lit_extension_none (a b s : Str) (k k' : Str → Option Str) (hk : ∀ r, (k r).isSome = true)
    (h : Re.run (a.foldr (fun c r => Re.seq (Re.chr c) r) Re.eps) s k = none) :
    Re.run ((a ++ b).foldr (fun c r => Re.seq (Re.chr c) r) Re.eps) s k' = none := by
  rw [lit_run_bind] at h
  rw [lit_run_append, lit_run_bind]
  cases hm : Re.run (a.foldr (fun c r => Re.seq (Re.chr c) r) Re.eps) s some with
  | none => rfl
  | some r =>
    rw [hm] at h
    have := hk r
    rw [show (some r).bind k = k r from rfl] at h
    rw [h] at this
    exact absurd this (by simp)

theorem qualifier_reached (s : Str) :
    Re.matchAt reQualifier s = Re.matchAt reQualifierReached s := by
  have hdead : Re.run (Re.lit "est") s some = none →
      Re.run (Re.lit "estimated") s some = none :=
    fun h => lit_extension_none "est".toList "imated".toList s some some (fun _ => rfl) h
  simp only [Re.matchAt, reQualifier, reQualifierReached, Re.alts, run_alt]
  cases h1 : Re.run (Re.lit "est") s some with
  | some r => rfl
  | none => rw [hdead h1]


theorem opt_total (r : Re) (s : Str) : (Re.run (Re.opt r) s some).isSome = true := by
  unfold Re.opt
  rw [run_alt]
  cases Re.run r s some with
  | some x => rfl
  | none => rfl

theorem units_reached (s : Str) (k : Str → Option Str) (hk : ∀ r, (k r).isSome = true) :
    Re.run (Re.alts [Re.lit "m", Re.lit "ft", Re.lit "feet", Re.lit "meter", Re.lit "metre"]) s k =
      Re.run (Re.alts [Re.lit "m", Re.lit "ft", Re.lit "feet"]) s k := by
  have hdead1 : Re.run (Re.lit "m") s k = none → Re.run (Re.lit "meter") s k = none :=
    fun h => lit_extension_none "m".toList "eter".toList s k k hk h
  have hdead2 : Re.run (Re.lit "m") s k = none → Re.run (Re.lit "metre") s k = none :=
    fun h => lit_extension_none "m".toList "etre".toList s k k hk h
  simp only [Re.alts, run_alt]
  cases h1 : Re.run (Re.lit "m") s k with
  | some r => rfl
  | none =>
    simp only [hdead1 h1, hdead2 h1]
    cases Re.run (Re.lit "ft") s k with
    | some r => rfl
    | none =>
      cases Re.run (Re.lit "feet") s k with
      | some r => rfl
      | none => rfl

theorem measure_reached (s : Str) :
    Re.matchAt reMeasure s = Re.matchAt reMeasureReached s := by
  have hK : (fun rest => Re.run (Re.alts [Re.lit "m", Re.lit "ft", Re.lit "feet",
        Re.lit "meter", Re.lit "metre"]) rest
          (fun rest => Re.run (Re.opt (Re.chr (Char.ofNat 115))) rest some)) =
      (fun rest => Re.run (Re.alts [Re.lit "m", Re.lit "ft", Re.lit "feet"]) rest
          (fun rest => Re.run (Re.opt (Re.chr (Char.ofNat 115))) rest some)) :=
    funext (fun rest => units_reached rest _ (fun r => opt_total _ r))
  simp only [Re.matchAt, reMeasure, reMeasureReached, run_seq]
  rw [hK]

theorem replaceAll_congr (r r' : Re) (rep : Str) (h : ∀ s, Re.matchAt r s = Re.matchAt r' s) :
    ∀ (s : Str) (n : Nat), Re.replaceAll r rep s n = Re.replaceAll r' rep s n := by
  intro s
  induction s with
  | nil => intro n; rfl
  | cons c t ih =>
    intro n
    cases n with
    | succ m => exact ih m
    | zero =>
      simp only [Re.replaceAll, h, ih]

theorem isPlain_bmp (c : Char) (h : isPlain c = true) : c.toNat < 65536 := by
  simp only [isPlain, isJsSpace, Bool.or_eq_true, Bool.and_eq_true, beq_iff_eq,
    decide_eq_true_eq] at h
  omega

theorem capitalizeWord_cons_plain [CaseMapping] (c : Char) (t : Str) (h : isPlain c = true) :
    capitalizeWord (c :: t) = toUpperChar c :: t := by
  rw [capitalizeWord_plain (c :: t) h]
  show (if c.toNat < 65536 then [c].map toUpperChar ++ t else c :: t) = _
  rw [if_pos (isPlain_bmp c h)]
  rfl

/-! ## Claims -/

/-- C1: for every non-empty injury text, `parseBodyRegion` returns exactly the keys of the
region rules that have a keyword occurring in the lower-cased text, in declaration order
(head, torso, upperArm, lowerArm, upperLeg, lowerLeg, foot) and each at most once, and it
returns the one-element list `unknown` if and only if no rule has such a keyword. The
lower-cased text is the value of the built-in `toLowerCase`; on a text of ASCII and white space
characters it is the text with the letters `A`-`Z` replaced by `a`-`z`, and a text that
lower-cases to `back`, whatever its characters, is labelled `torso`. -/
theorem C1_parseBodyRegion_exact [CaseMapping] (s : Str) (hs : s ≠ []) :
    (matchingRegions (toLowerCase s) ≠ [] →
        parseBodyRegion (.str s) = matchingRegions (toLowerCase s)) ∧
    (parseBodyRegion (.str s) = ["unknown"] ↔ matchingRegions (toLowerCase s) = []) ∧
    (∀ r, r ∈ matchingRegions (toLowerCase s) ↔
        ∃ e ∈ BODY_REGIONS, e.1 = r ∧ ∃ kw ∈ e.2.keywords, kw <:+: toLowerCase s) ∧
    (matchingRegions (toLowerCase s)).Sublist
      ["head", "torso", "upperArm", "lowerArm", "upperLeg", "lowerLeg", "foot"] ∧
    (matchingRegions (toLowerCase s)).Nodup ∧
    ((∀ c ∈ s, isPlain c = true) → toLowerCase s = s.map toLowerChar) ∧
    (toLowerCase s = "back".toList → parseBodyRegion (.str s) = ["torso"]) := by
  have hsub := matchingRegions_sublist (toLowerCase s)
  refine ⟨?_, ?_, ?_, hsub, hsub.nodup (by decide), toLowerCase_plain s, ?_⟩
  · intro hm
    rw [parseBodyRegion_str s hs, if_neg hm]
  · rw [parseBodyRegion_str s hs]
    constructor
    · intro h
      by_contra hm
      rw [if_neg hm] at h
      have hmem : "unknown" ∈
          ["head", "torso", "upperArm", "lowerArm", "upperLeg", "lowerLeg", "foot"] :=
        hsub.subset (by rw [h]; simp)
      revert hmem
      decide
    · intro hm
      rw [if_pos hm]
  · intro r
    simp only [matchingRegions, List.mem_map, List.mem_filter, regionMatches, List.any_eq_true,
      includes_iff]
    constructor
    · rintro ⟨e, ⟨he, hk⟩, rfl⟩
      exact ⟨e, he, rfl, hk⟩
    · rintro ⟨e, he, rfl, hk⟩
      exact ⟨e, ⟨he, hk⟩, rfl⟩
  · intro hback
    rw [parseBodyRegion_str s hs, hback]
    decide

/-- Witness for C1 at the text `Bitten on the LEG`, with the case mappings of the ASCII
range. -/
theorem C1_parseBodyRegion_exact_witness :
    @parseBodyRegion asciiCase (.str "Bitten on the LEG".toList) = ["lowerLeg"] ∧
    matchingRegions (@toLowerCase asciiCase "Bitten on the LEG".toList) = ["lowerLeg"] :=
  ⟨by decide,
   ((@C1_parseBodyRegion_exact asciiCase "Bitten on the LEG".toList (by decide)).1
      (by decide)).symm.trans (by decide)⟩

/-- C2: when the trimmed, lower-cased text contains no reject phrase and no uncertain
variation but contains a species keyword, `parseSpeciesName` returns the name of the first
entry of `speciesPatterns`, in declaration order, that has a keyword occurring in the text:
entry `i` has such a keyword, no entry before `i` has one, and the result is its name. -/
theorem C2_parseSpeciesName_first_match [CaseMapping] (s : Str)
    (hrej : ∀ kw ∈ rejectPhrases, ¬ kw <:+: trim (toLowerCase s))
    (hunk : ∀ kw ∈ unknownVariations, ¬ kw <:+: trim (toLowerCase s))
    (hsp : ∃ p ∈ speciesPatterns, ∃ kw ∈ p.keywords, kw <:+: trim (toLowerCase s)) :
    ∃ (i : Nat) (hi : i < speciesPatterns.length),
      (∃ kw ∈ (speciesPatterns.get ⟨i, hi⟩).keywords, kw <:+: trim (toLowerCase s)) ∧
      (∀ (j : Nat) (hj : j < speciesPatterns.length), j < i →
          ∀ kw ∈ (speciesPatterns.get ⟨j, hj⟩).keywords, ¬ kw <:+: trim (toLowerCase s)) ∧
      parseSpeciesName (.str s) = (speciesPatterns.get ⟨i, hi⟩).name := by
  have hne : trim (toLowerCase s) ≠ [] := by
    obtain ⟨p, hp, kw, hkw, hin⟩ := hsp
    exact ne_nil_of_infix kw _ (speciesPatterns_keywords_ne_nil p hp kw hkw) hin
  obtain ⟨i, hi, h1, h2, h3⟩ := patternLoop_first (trim (toLowerCase s)) speciesPatterns hsp
  refine ⟨i, hi, h1, h2, ?_⟩
  rw [parseSpeciesName_of_trim_ne s (trim_ne_nil_of_lower s hne)]
  have hr1 : includes (trim (toLowerCase s)) "shark involvement".toList = false := by
    rw [Bool.eq_false_iff, Ne, includes_iff]
    exact hrej _ (by simp [rejectPhrases])
  have hr2 : includes (trim (toLowerCase s)) "prior to death".toList = false := by
    rw [Bool.eq_false_iff, Ne, includes_iff]
    exact hrej _ (by simp [rejectPhrases])
  have hu : unknownVariations.any (fun variation => includes (trim (toLowerCase s)) variation)
      = false := by
    rw [Bool.eq_false_iff, Ne, List.any_eq_true]
    rintro ⟨kw, hkw, hinc⟩
    exact hunk kw hkw ((includes_iff _ _).mp hinc)
  unfold parseSpeciesName.classify
  rw [hr1, hr2, hu, h3]
  rfl

/-- Witness for C2 at the text `grey nurse shark`, whose result is `Nurse Shark`, with the case
mappings of the ASCII range. -/
theorem C2_parseSpeciesName_first_match_witness :
    @parseSpeciesName asciiCase (.str "grey nurse shark".toList) = "Nurse Shark".toList ∧
    ∃ (i : Nat) (hi : i < speciesPatterns.length),
      (∃ kw ∈ (speciesPatterns.get ⟨i, hi⟩).keywords,
          kw <:+: trim (@toLowerCase asciiCase "grey nurse shark".toList)) ∧
      (∀ (j : Nat) (hj : j < speciesPatterns.length), j < i →
          ∀ kw ∈ (speciesPatterns.get ⟨j, hj⟩).keywords,
            ¬ kw <:+: trim (@toLowerCase asciiCase "grey nurse shark".toList)) ∧
      @parseSpeciesName asciiCase (.str "grey nurse shark".toList) =
        (speciesPatterns.get ⟨i, hi⟩).name :=
  ⟨by decide,
   @C2_parseSpeciesName_first_match asciiCase "grey nurse shark".toList
    (fun kw hkw hin => absurd ((includes_iff _ _).mpr hin)
      ((by decide : ∀ kw ∈ rejectPhrases,
          ¬ includes (trim (@toLowerCase asciiCase "grey nurse shark".toList)) kw = true)
        kw hkw))
    (fun kw hkw hin => absurd ((includes_iff _ _).mpr hin)
      ((by decide : ∀ kw ∈ unknownVariations,
          ¬ includes (trim (@toLowerCase asciiCase "grey nurse shark".toList)) kw = true)
        kw hkw))
    ⟨SpeciesPattern.ofStrings ["nurse"] "Nurse Shark", by simp [speciesPatterns],
      "nurse".toList, by simp [SpeciesPattern.ofStrings],
      (includes_iff _ _).mp (by decide)⟩⟩

/-- C3: every string whose lower-cased text contains `shark involvement`, `prior to death` or
one of the uncertain variations is classified `Unknown` by `parseSpeciesName`, whatever
species keyword it also contains. -/
theorem C3_parseSpeciesName_uncertain [CaseMapping] (s : Str)
    (h : ∃ kw ∈ rejectPhrases ++ unknownVariations, kw <:+: toLowerCase s) :
    parseSpeciesName (.str s) = "Unknown".toList := by
  obtain ⟨kw, hkw, hin⟩ := h
  have hsafe := keywords_trimSafe kw hkw
  have hin2 : kw <:+: trim (toLowerCase s) := infix_trim kw _ hsafe hin
  have hne : trim (toLowerCase s) ≠ [] := ne_nil_of_infix kw _ (ne_nil_of_trimSafe kw hsafe) hin2
  rw [parseSpeciesName_of_trim_ne s (trim_ne_nil_of_lower s hne)]
  exact classify_unknown _ ⟨kw, hkw, hin2⟩

/-- Witness for C3 at the text `Unconfirmed, possibly a WHITE or TIGER shark`, with the case
mappings of the ASCII range. -/
theorem C3_parseSpeciesName_uncertain_witness :
    @parseSpeciesName asciiCase (.str "Unconfirmed, possibly a WHITE or TIGER shark".toList) =
      "Unknown".toList :=
  @C3_parseSpeciesName_uncertain asciiCase "Unconfirmed, possibly a WHITE or TIGER shark".toList
    ⟨"unconfirmed".toList, by simp [unknownVariations], (includes_iff _ _).mp (by decide)⟩

/-- C4 fails as stated: a retained row whose `Injury` cell is empty yields a record whose
`bodyRegions` list is empty, not the list holding `unknown`. -/
theorem C4_bodyRegions_counterexample :
    (∀ [CaseMapping], loadData.incidentData [exampleRowNoInjury] =
      [{ year := .fin 1990, injury := [], fatal := false, state := "FL".toList,
         bodyRegions := [] }]) ∧
    (∀ [CaseMapping],
      ¬ (∀ r ∈ loadData.incidentData [exampleRowNoInjury], r.bodyRegions ≠ [])) := by
  have h : ∀ [CaseMapping], loadData.incidentData [exampleRowNoInjury] =
      [{ year := .fin 1990, injury := [], fatal := false, state := "FL".toList,
         bodyRegions := [] }] := by
    intro cm
    rw [incidentData_plain _ (by decide)]
    decide
  refine ⟨h, ?_⟩
  intro cm hall
  rw [h] at hall
  exact hall _ (List.mem_singleton.mpr rfl) rfl

/-- C4 (amended): every record of `incidentData` comes from a retained row; when the injury
text of the record is not empty its `bodyRegions` list is not empty, and is the one-element
list `unknown` when no region keyword occurs in the text; when the injury text is missing or
empty the `bodyRegions` list is empty. -/
theorem C4_bodyRegions_amended [CaseMapping] (incidentRaw : List Row) (r : Incident)
    (hr : r ∈ loadData.incidentData incidentRaw) :
    (∃ d ∈ incidentRaw, loadData.keep d = true ∧ r = loadData.toIncident d ∧
        r.injury = d.Injury.orElse []) ∧
    (r.injury ≠ [] →
        r.bodyRegions ≠ [] ∧
        (matchingRegions (toLowerCase r.injury) = [] → r.bodyRegions = ["unknown"])) ∧
    (r.injury = [] → r.bodyRegions = []) := by
  simp only [loadData.incidentData, List.mem_map, List.mem_filter] at hr
  obtain ⟨d, ⟨hd, hkeep⟩, rfl⟩ := hr
  refine ⟨⟨d, hd, hkeep, rfl, rfl⟩, ?_, ?_⟩
  · intro hne
    simp only [loadData.toIncident] at hne ⊢
    cases hinj : d.Injury with
    | undefined => rw [hinj] at hne; exact absurd rfl hne
    | null => rw [hinj] at hne; exact absurd rfl hne
    | str s =>
      rw [hinj] at hne
      have hs : s ≠ [] := by
        rintro rfl
        exact hne rfl
      have horElse : (JsVal.str s).orElse [] = s := by
        cases s with
        | nil => exact absurd rfl hs
        | cons c t => rfl
      rw [horElse, parseBodyRegion_str s hs]
      constructor
      · split
        · simp
        · assumption
      · intro hm
        rw [if_pos hm]
  · intro he
    simp only [loadData.toIncident] at he ⊢
    cases hinj : d.Injury with
    | undefined => rfl
    | null => rfl
    | str s =>
      rw [hinj] at he
      cases s with
      | nil => rfl
      | cons c t => exact absurd he (by simp [JsVal.orElse])

/-- Witness for C4 (amended) at one retained row with the injury text `Bitten on the LEG`, with
the case mappings of the ASCII range. -/
theorem C4_bodyRegions_amended_witness :
    (@loadData.toIncident asciiCase { exampleRowNoInjury with
        Injury := .str "Bitten on the LEG".toList }).bodyRegions ≠ [] :=
  ((@C4_bodyRegions_amended asciiCase
      [{ exampleRowNoInjury with Injury := .str "Bitten on the LEG".toList }]
      (@loadData.toIncident asciiCase
        { exampleRowNoInjury with Injury := .str "Bitten on the LEG".toList })
      (by decide)).2.1 (by decide)).1

/-- C5: for every non-empty input string, `parseBodyRegion` returns a non-empty list of
labels and `parseSpeciesName` returns a non-empty string. -/
theorem C5_classification_total [CaseMapping] (s : Str) (hs : s ≠ []) :
    parseBodyRegion (.str s) ≠ [] ∧ parseSpeciesName (.str s) ≠ [] := by
  refine ⟨?_, parseSpeciesName_ne_nil _⟩
  rw [parseBodyRegion_str s hs]
  split
  · simp
  · assumption

/-- Witness for C5 at the text `2 m zebra shark`, with the case mappings of the ASCII range. -/
theorem C5_classification_total_witness :
    @parseBodyRegion asciiCase (.str "2 m zebra shark".toList) ≠ [] ∧
    @parseSpeciesName asciiCase (.str "2 m zebra shark".toList) ≠ [] :=
  @C5_classification_total asciiCase "2 m zebra shark".toList (by decide)

/-- C6: for `undefined`, `null`, the empty string and every string made only of white space,
`parseSpeciesName` returns `Unknown` at its guard: the result is `Unknown` whatever the code
after the guard (the keyword rules) would compute. -/
theorem C6_parseSpeciesName_blank [CaseMapping] (rawText : JsVal)
    (h : rawText = .undefined ∨ rawText = .null ∨
      ∃ s, rawText = .str s ∧ ∀ c ∈ s, isJsSpace c = true) :
    (∀ rest : Str → Str, parseSpeciesName.guarded rest rawText = "Unknown".toList) ∧
    parseSpeciesName rawText = "Unknown".toList := by
  have key : ∀ rest : Str → Str, parseSpeciesName.guarded rest rawText = "Unknown".toList := by
    intro rest
    rcases h with rfl | rfl | ⟨s, rfl, hs⟩
    · rfl
    · rfl
    · simp [parseSpeciesName.guarded, trim_of_spaces s hs]
  exact ⟨key, key _⟩

/-- Witness for C6 at a string of a blank, a tab and a line feed, with the case mappings of the
ASCII range. -/
theorem C6_parseSpeciesName_blank_witness :
    @parseSpeciesName asciiCase (.str [Char.ofNat 32, Char.ofNat 9, Char.ofNat 10]) =
      "Unknown".toList :=
  (@C6_parseSpeciesName_blank asciiCase (.str [Char.ofNat 32, Char.ofNat 9, Char.ofNat 10])
    (Or.inr (Or.inr ⟨_, rfl, by decide⟩))).2

/-- C7 fails as stated: six rows of one species with the fatal flag `UNKNOWN` give a bucket
with 6 incidents, 0 fatal and 0 non-fatal. -/
theorem C7_split_counterexample :
    (∀ [CaseMapping], cleanAttackData exampleRowsUnknownFlag =
      [{ species := .str "White Shark".toList, incidents := 6, fatal := 0, nonFatal := 0 }]) ∧
    (∀ [CaseMapping],
      ¬ (∀ b ∈ cleanAttackData exampleRowsUnknownFlag, b.incidents = b.fatal + b.nonFatal)) := by
  have h : ∀ [CaseMapping], cleanAttackData exampleRowsUnknownFlag =
      [{ species := .str "White Shark".toList, incidents := 6, fatal := 0, nonFatal := 0 }] := by
    intro cm
    rw [cleanAttackData_plain _ (by decide)]
    decide
  refine ⟨h, ?_⟩
  intro cm hall
  rw [h] at hall
  exact absurd (hall _ (List.mem_singleton.mpr rfl)) (by decide)

/-- C7 (amended): for every bucket returned by `cleanAttackData`, `incidents` is `fatal` plus
`nonFatal` plus the number of rows of that species whose flag is none of `Y`, `N` and the
empty string; so `fatal + nonFatal` never exceeds `incidents`, and the two are equal when the
flag of every row of that species is recognised. -/
theorem C7_split_amended [CaseMapping] (data : List Row) (b : Bucket) (hb : b ∈ cleanAttackData data) :
    b.incidents = b.fatal + b.nonFatal +
        data.countP (fun d => decide (d.Species = b.species) &&
          !cleanAttackData.recognised d) ∧
    b.fatal + b.nonFatal ≤ b.incidents ∧
    ((∀ d ∈ data, d.Species = b.species → cleanAttackData.recognised d = true) →
        b.incidents = b.fatal + b.nonFatal) := by
  have hmem := (cleanAttackData_mem data b hb).1
  have hred := buckets_mem data b hmem
  have hsplit := reduce_split b.species (data.filter (fun d => d.Species = b.species))
  rw [← hred, List.countP_filter] at hsplit
  have hcount : data.countP (fun d => decide (d.Species = b.species) &&
      !cleanAttackData.recognised d) =
      data.countP (fun d => !cleanAttackData.recognised d && decide (d.Species = b.species)) := by
    congr 1
    funext d
    exact Bool.and_comm _ _
  rw [hcount]
  refine ⟨hsplit, by omega, ?_⟩
  intro hall
  have hzero : data.countP (fun d => !cleanAttackData.recognised d &&
      decide (d.Species = b.species)) = 0 := by
    rw [List.countP_eq_zero]
    intro d hd
    simp only [Bool.and_eq_true, Bool.not_eq_true', decide_eq_true_eq, not_and]
    intro hrec hsp
    rw [hall d hd hsp] at hrec
    exact absurd hrec (by simp)
  omega

/-- Witness for C7 (amended) at six rows of one species with the flag `UNKNOWN`, with the case
mappings of the ASCII range. -/
theorem C7_split_amended_witness :
    (6 : Nat) = 0 + 0 + exampleRowsUnknownFlag.countP (fun d =>
      decide (d.Species = JsVal.str "White Shark".toList) &&
        !@cleanAttackData.recognised asciiCase d) :=
  (@C7_split_amended asciiCase exampleRowsUnknownFlag
    { species := .str "White Shark".toList, incidents := 6, fatal := 0, nonFatal := 0 }
    (by decide)).1

/-- C8: `cleanAttackData` returns at most 10 buckets and every returned bucket has more than
5 incidents. -/
theorem C8_top_ten_filter [CaseMapping] (data : List Row) :
    (cleanAttackData data).length ≤ 10 ∧ ∀ b ∈ cleanAttackData data, b.incidents > 5 := by
  refine ⟨?_, fun b hb => (cleanAttackData_mem data b hb).2⟩
  unfold cleanAttackData
  rw [List.length_take]
  exact Nat.min_le_left _ _

/-- C9: the buckets returned by `cleanAttackData` are in order of non-increasing incidents,
have pairwise distinct species, and each holds the number of input rows of its species, more
than 5. They are the top 10 of the species with more than 5 rows: their number is 10, or the
number of such species when this is less; a species with more than 5 rows that is not returned
has at most as many rows as every returned bucket has incidents; and when fewer than 10
species have more than 5 rows all of them are returned. -/
theorem C9_sorted_top_ten [CaseMapping] (data : List Row) :
    (cleanAttackData data).Pairwise (fun a b => a.incidents ≥ b.incidents) ∧
    ((cleanAttackData data).map (fun b => b.species)).Nodup ∧
    (∀ b ∈ cleanAttackData data,
        b.incidents = data.countP (fun d => d.Species = b.species) ∧ b.incidents > 5) ∧
    (cleanAttackData data).length = min 10 (qualifyingSpecies data).length ∧
    (∀ k : JsVal, k ∈ qualifyingSpecies data ↔ data.countP (fun d => d.Species = k) > 5) ∧
    (∀ k : JsVal, data.countP (fun d => d.Species = k) > 5 →
        k ∉ (cleanAttackData data).map (fun b => b.species) →
        ∀ b ∈ cleanAttackData data, data.countP (fun d => d.Species = k) ≤ b.incidents) ∧
    ((qualifyingSpecies data).length < 10 →
        ∀ k : JsVal, data.countP (fun d => d.Species = k) > 5 →
          k ∈ (cleanAttackData data).map (fun b => b.species)) := by
  have hsorted := sortByIncidents_sorted
    ((cleanAttackData.buckets data).filter (fun d => d.incidents > 5))
  have hperm := sortByIncidents_perm
    ((cleanAttackData.buckets data).filter (fun d => d.incidents > 5))
  have hflen := filtered_buckets_length data
  have hnd : ((cleanAttackData data).map (fun b => b.species)).Nodup := by
    have h1 : ((cleanAttackData.buckets data).map (fun b => b.species)).Nodup := by
      rw [buckets_species]
      exact (rollup_groups_inv data).1
    have h2 : (((cleanAttackData.buckets data).filter (fun d => d.incidents > 5)).map
        (fun b => b.species)).Nodup :=
      h1.sublist ((List.filter_sublist _).map _)
    have h3 : ((sortByIncidents ((cleanAttackData.buckets data).filter
        (fun d => d.incidents > 5))).map (fun b => b.species)).Nodup :=
      (((sortByIncidents_perm _).map _).nodup_iff).mpr h2
    exact h3.sublist ((List.take_sublist _ _).map _)
  refine ⟨hsorted.sublist (List.take_sublist _ _), hnd, ?_, ?_, ?_, ?_, ?_⟩
  · intro b hb
    have hmem := cleanAttackData_mem data b hb
    exact ⟨buckets_incidents data b hmem.1, hmem.2⟩
  · unfold cleanAttackData
    rw [List.length_take, hperm.length_eq, hflen]
  · intro k
    simp only [qualifyingSpecies, List.mem_filter, List.mem_dedup, List.mem_map,
      decide_eq_true_eq]
    constructor
    · exact fun h => h.2
    · intro hk
      have hpos : 0 < data.countP (fun d => d.Species = k) := by omega
      obtain ⟨d, hd, hs⟩ := List.countP_pos_iff.mp hpos
      simp only [decide_eq_true_eq] at hs
      exact ⟨⟨d, hd, hs⟩, hk⟩
  · intro k hk hnot b hb
    obtain ⟨g, hg, hgk⟩ := bucket_of_species data k hk
    have hginc : g.incidents = data.countP (fun d => d.Species = k) := by
      rw [buckets_incidents data g (List.mem_of_mem_filter hg), hgk]
    have hg2 := hperm.mem_iff.mpr hg
    have hsplit := List.take_append_drop 10
      (sortByIncidents ((cleanAttackData.buckets data).filter (fun d => d.incidents > 5)))
    rw [← hsplit, List.mem_append] at hg2
    rcases hg2 with hg2 | hg2
    · exact absurd (List.mem_map.mpr ⟨g, hg2, hgk⟩) hnot
    · rw [← hsplit, List.pairwise_append] at hsorted
      rw [← hginc]
      exact hsorted.2.2 b hb g hg2
  · intro hlen k hk
    obtain ⟨g, hg, hgk⟩ := bucket_of_species data k hk
    have hg2 := hperm.mem_iff.mpr hg
    refine List.mem_map.mpr ⟨g, ?_, hgk⟩
    unfold cleanAttackData
    rw [List.take_of_length_le]
    · exact hg2
    · rw [hperm.length_eq, hflen]
      omega

/-- C10: the buckets returned by `cleanAttackData` have pairwise distinct species, the
incidents of each bucket is the number of input rows with that species, and the sum of the
incidents of the returned buckets is the number of input rows whose species is among the
returned buckets. -/
theorem C10_aggregation_conservation [CaseMapping] (data : List Row) :
    ((cleanAttackData data).map (fun b => b.species)).Nodup ∧
    (∀ b ∈ cleanAttackData data,
        b.incidents = data.countP (fun d => d.Species = b.species)) ∧
    ((cleanAttackData data).map (fun b => b.incidents)).sum =
      data.countP (fun d => d.Species ∈ (cleanAttackData data).map (fun b => b.species)) := by
  have hinc : ∀ b ∈ cleanAttackData data,
      b.incidents = data.countP (fun d => d.Species = b.species) := by
    intro b hb
    have hred := buckets_mem data b (cleanAttackData_mem data b hb).1
    rw [hred]
    simp only [cleanAttackData.reduce]
    rw [List.countP_eq_length_filter]
  have hnd : ((cleanAttackData data).map (fun b => b.species)).Nodup := by
    have h1 : ((cleanAttackData.buckets data).map (fun b => b.species)).Nodup := by
      rw [buckets_species]
      exact (rollup_groups_inv data).1
    have h2 : (((cleanAttackData.buckets data).filter (fun d => d.incidents > 5)).map
        (fun b => b.species)).Nodup :=
      h1.sublist ((List.filter_sublist _).map _)
    have h3 : ((sortByIncidents ((cleanAttackData.buckets data).filter
        (fun d => d.incidents > 5))).map (fun b => b.species)).Nodup :=
      (((sortByIncidents_perm _).map _).nodup_iff).mpr h2
    exact h3.sublist ((List.take_sublist _ _).map _)
  exact ⟨hnd, hinc, sum_incidents_eq_countP data _ hnd hinc⟩

/-- C13: the body-map loader retains a row exactly when its country, upper-cased, is `USA` or
`UNITED STATES` and its year parses to an integer between 1980 and 2019; the records are the
images of the retained rows, one for each retained row and in input order (the loader of a
concatenation is the concatenation of the loaders, and the loader of one row is its record or
nothing); every record has its year in that range; and a row whose year does not parse to a
finite number (`NaN` for a text without leading digits or a missing field) leaves the loaded
records as they are without it. -/
theorem C13_loader_filter [CaseMapping] (incidentRaw : List Row) :
    (∀ d : Row, loadData.keep d = true ↔
        (toUpperCase (d.Country.orElse []) = "USA".toList ∨
          toUpperCase (d.Country.orElse []) = "UNITED STATES".toList) ∧
        ∃ y, parseInt d.Year = .fin y ∧ 1980 ≤ y ∧ y ≤ 2019) ∧
    (loadData.incidentData [] = [] ∧
      (∀ d : Row, loadData.incidentData [d] =
        if loadData.keep d = true then [loadData.toIncident d] else []) ∧
      (∀ a b : List Row, loadData.incidentData (a ++ b) =
        loadData.incidentData a ++ loadData.incidentData b)) ∧
    (loadData.incidentData incidentRaw =
        (incidentRaw.filter (fun d => loadData.keep d)).map (fun d => loadData.toIncident d) ∧
      (loadData.incidentData incidentRaw).length =
        incidentRaw.countP (fun d => loadData.keep d)) ∧
    (∀ r ∈ loadData.incidentData incidentRaw, ∃ y, r.year = .fin y ∧ 1980 ≤ y ∧ y ≤ 2019) ∧
    (∀ (before after : List Row) (d : Row), (∀ y, parseInt d.Year ≠ .fin y) →
        loadData.incidentData (before ++ d :: after) =
          loadData.incidentData (before ++ after)) ∧
    (parseInt (.str "unknown".toList) = .nan ∧ parseInt .undefined = .nan ∧
      loadData.incidentData exampleRowsLoader =
        [loadData.toIncident { exampleRowNoInjury with Country := .str "usa".toList },
         loadData.toIncident { exampleRowNoInjury with
           Country := .str "United States".toList, Year := .str "2019".toList }]) := by
  refine ⟨loadData_keep_iff, ⟨rfl, ?_, ?_⟩, ⟨rfl, ?_⟩, ?_, ?_, by decide, by decide, ?_⟩
  · intro d
    simp only [loadData.incidentData, List.filter_cons, List.filter_nil]
    split <;> rfl
  · intro a b
    simp only [loadData.incidentData, List.filter_append, List.map_append]
  · simp only [loadData.incidentData, List.length_map, List.countP_eq_length_filter]
  · intro r hr
    simp only [loadData.incidentData, List.mem_map, List.mem_filter] at hr
    obtain ⟨d, ⟨_, hkeep⟩, rfl⟩ := hr
    exact ((loadData_keep_iff d).mp hkeep).2
  · intro before after d hd
    have hk : loadData.keep d = false := by
      rw [Bool.eq_false_iff]
      intro hkeep
      obtain ⟨y, hy, _⟩ := ((loadData_keep_iff d).mp hkeep).2
      exact hd y hy
    simp only [loadData.incidentData, List.filter_append, List.filter_cons, hk,
      Bool.false_eq_true, if_false]
  · have hk : ∀ d ∈ exampleRowsLoader, loadData.keep d = @loadData.keep asciiCase d :=
      fun d hd => keep_plain d ((by decide : ∀ d ∈ exampleRowsLoader, plainRow d = true) d hd)
    simp only [loadData.incidentData]
    rw [List.filter_congr hk]
    rfl

/-- C14: for every retained row, the record is loaded with `fatal` true exactly when the
`Fatal Y/N` field is a string whose upper-cased form is `Y`, and false when the field is
missing or empty; a missing or empty `State` or `Injury` field becomes the empty string; and
whether a row is retained does not depend on these three fields. -/
theorem C14_field_defaulting [CaseMapping] (incidentRaw : List Row) (d : Row) (hd : d ∈ incidentRaw)
    (hkeep : loadData.keep d = true) :
    loadData.toIncident d ∈ loadData.incidentData incidentRaw ∧
    ((loadData.toIncident d).fatal = true ↔
        ∃ s, d.Fatal_Y_N = .str s ∧ toUpperCase s = "Y".toList) ∧
    (d.Fatal_Y_N = .undefined ∨ d.Fatal_Y_N = .null ∨ d.Fatal_Y_N = .str [] →
        (loadData.toIncident d).fatal = false) ∧
    (d.State = .undefined ∨ d.State = .null ∨ d.State = .str [] →
        (loadData.toIncident d).state = []) ∧
    (d.Injury = .undefined ∨ d.Injury = .null ∨ d.Injury = .str [] →
        (loadData.toIncident d).injury = []) ∧
    (∀ flag state injury : JsVal,
        loadData.keep { d with Fatal_Y_N := flag, State := state, Injury := injury } =
          loadData.keep d) := by
  refine ⟨?_, ?_, ?_, ?_, ?_, fun _ _ _ => rfl⟩
  · exact List.mem_map.mpr ⟨d, List.mem_filter.mpr ⟨hd, hkeep⟩, rfl⟩
  · simp only [loadData.toIncident, beq_iff_eq]
    cases hf : d.Fatal_Y_N with
    | undefined =>
      simp only [JsVal.orElse, toUpperCase_nil]
      constructor
      · intro h; exact absurd h (by decide)
      · rintro ⟨s, hs, _⟩; exact absurd hs (by simp)
    | null =>
      simp only [JsVal.orElse, toUpperCase_nil]
      constructor
      · intro h; exact absurd h (by decide)
      · rintro ⟨s, hs, _⟩; exact absurd hs (by simp)
    | str s =>
      cases s with
      | nil =>
        simp only [JsVal.orElse, List.isEmpty_nil, if_true, toUpperCase_nil]
        constructor
        · intro h; exact absurd h (by decide)
        · rintro ⟨s, hs, hY⟩
          simp only [JsVal.str.injEq] at hs
          subst hs
          rw [toUpperCase_nil] at hY
          exact absurd hY (by decide)
      | cons c t =>
        simp only [JsVal.orElse, List.isEmpty_cons, Bool.false_eq_true, if_false]
        constructor
        · intro h; exact ⟨c :: t, rfl, h⟩
        · rintro ⟨s, hs, hY⟩
          simp only [JsVal.str.injEq] at hs
          subst hs
          exact hY
  · intro h
    have hempty : d.Fatal_Y_N.orElse [] = [] := by
      rcases h with h | h | h <;> rw [h] <;> rfl
    simp only [loadData.toIncident, hempty, toUpperCase_nil]
    decide
  · intro h
    simp only [loadData.toIncident]
    rcases h with h | h | h <;> rw [h] <;> rfl
  · intro h
    simp only [loadData.toIncident]
    rcases h with h | h | h <;> rw [h] <;> rfl

/-- Witness for C14 at a retained row (USA, 1990) whose flag is `y` and whose `State` and
`Injury` columns are absent, with the case mappings of the ASCII range. -/
theorem C14_field_defaulting_witness :
    (@loadData.toIncident asciiCase { exampleRowNoInjury with
        Fatal_Y_N := .str "y".toList, State := .undefined, Injury := .undefined }) =
      { year := .fin 1990, injury := [], fatal := true, state := [], bodyRegions := [] } ∧
    (@loadData.toIncident asciiCase { exampleRowNoInjury with
        Fatal_Y_N := .str "y".toList, State := .undefined, Injury := .undefined }) ∈
      @loadData.incidentData asciiCase [{ exampleRowNoInjury with
        Fatal_Y_N := .str "y".toList, State := .undefined, Injury := .undefined }] :=
  ⟨by decide,
   (@C14_field_defaulting asciiCase
      [{ exampleRowNoInjury with
        Fatal_Y_N := .str "y".toList, State := .undefined, Injury := .undefined }]
      { exampleRowNoInjury with
        Fatal_Y_N := .str "y".toList, State := .undefined, Injury := .undefined }
      (by decide) (by decide)).1⟩

/-- C18: `parseSpeciesName` maps `3.5 m great white shark` to `White Shark` and
`shark involvement prior to death unconfirmed` to `Unknown`. -/
theorem C18_species_examples [CaseMapping] :
    parseSpeciesName (.str "3.5 m great white shark".toList) = "White Shark".toList ∧
    parseSpeciesName (.str "shark involvement prior to death unconfirmed".toList) =
      "Unknown".toList :=
  ⟨(parseSpeciesName_plain _ (by decide) (by decide)).trans (by decide),
   (parseSpeciesName_plain _ (by decide) (by decide)).trans (by decide)⟩

/-- C19: the labels returned by `parseBodyRegion` for `laceration to forearm and chest`
contain both `lowerArm` and `torso`. -/
theorem C19_region_example [CaseMapping] :
    "lowerArm" ∈ parseBodyRegion (.str "laceration to forearm and chest".toList) ∧
    "torso" ∈ parseBodyRegion (.str "laceration to forearm and chest".toList) := by
  rw [parseBodyRegion_plain _ (by decide)]
  decide

/-- C11: in `updateVisualization` on the loaded records, for each of the seven body regions
`regionCounts` holds the number of records of the year whose labels contain the region and
`regionFatal` the number of those that are fatal; a record with several labels counts in each
of its regions, and for some input the region counts add up to more than the number of
records of the year. -/
theorem C11_region_counts [CaseMapping] (incidentRaw : List Row) (populationData : PopulationData)
    (basePopulation : JsNum) (year : Int) :
    (∀ r ∈ ["head", "torso", "upperArm", "lowerArm", "upperLeg", "lowerLeg", "foot"],
      (updateVisualization (loadData.incidentData incidentRaw) populationData basePopulation
          year).regionCounts r =
        some ((loadData.incidentData incidentRaw).countP
          (fun d => decide (r ∈ d.bodyRegions) && (d.year == .fin year))) ∧
      (updateVisualization (loadData.incidentData incidentRaw) populationData basePopulation
          year).regionFatal r =
        some ((loadData.incidentData incidentRaw).countP
          (fun d => decide (r ∈ d.bodyRegions) && d.fatal && (d.year == .fin year)))) ∧
    (∃ (rows : List Row) (y : Int),
      (updateVisualization (loadData.incidentData rows) populationData basePopulation
          y).totalIncidents <
        ((["head", "torso", "upperArm", "lowerArm", "upperLeg", "lowerLeg", "foot"].map
          (fun r => ((updateVisualization (loadData.incidentData rows) populationData
            basePopulation y).regionCounts r).getD 0)).sum)) := by
  constructor
  · intro r hr
    have hkey : r ∈ BODY_REGIONS.map Prod.fst := by rw [regionKeys_eq]; exact hr
    have h := updateVisualization_regions (loadData.incidentData incidentRaw)
      (incidentData_nodup incidentRaw) populationData basePopulation year r hkey
    rw [h.1, h.2]
    simp only [updateVisualization, List.countP_filter, and_self]
  · refine ⟨[exampleRowThreeRegions], 1990, ?_⟩
    have hcounts : ∀ r,
        (updateVisualization (loadData.incidentData [exampleRowThreeRegions]) populationData
          basePopulation 1990).regionCounts r =
        (updateVisualization (@loadData.incidentData asciiCase [exampleRowThreeRegions])
          (fun _ => none) .nan 1990).regionCounts r := by
      intro r
      rw [incidentData_plain _ (by decide)]
      rfl
    have htotal :
        (updateVisualization (loadData.incidentData [exampleRowThreeRegions]) populationData
          basePopulation 1990).totalIncidents = 1 := by
      rw [incidentData_plain _ (by decide)]
      simp only [updateVisualization]
      decide
    simp only [hcounts, htotal]
    decide

/-- C20: on the loaded records `updateVisualization` computes `totalIncidents` as
`fatalCount + nonFatalCount` with both parts non-negative; for each of the seven body regions
the fatal count is at most the region count, which is at most `totalIncidents`; and the
non-fatal value shown by the tooltip, the region count minus the fatal count, is not
negative. -/
theorem C20_stats_nonnegative [CaseMapping] (incidentRaw : List Row) (populationData : PopulationData)
    (basePopulation : JsNum) (year : Int) :
    ((updateVisualization (loadData.incidentData incidentRaw) populationData basePopulation
        year).totalIncidents : Int) =
      ((updateVisualization (loadData.incidentData incidentRaw) populationData basePopulation
        year).fatalCount : Int) +
      (updateVisualization (loadData.incidentData incidentRaw) populationData basePopulation
        year).nonFatalCount ∧
    0 ≤ (updateVisualization (loadData.incidentData incidentRaw) populationData basePopulation
        year).nonFatalCount ∧
    (0 : Int) ≤ ((updateVisualization (loadData.incidentData incidentRaw) populationData
        basePopulation year).fatalCount : Int) ∧
    (∀ r ∈ ["head", "torso", "upperArm", "lowerArm", "upperLeg", "lowerLeg", "foot"],
      ∃ c f : Nat,
        (updateVisualization (loadData.incidentData incidentRaw) populationData basePopulation
          year).regionCounts r = some c ∧
        (updateVisualization (loadData.incidentData incidentRaw) populationData basePopulation
          year).regionFatal r = some f ∧
        f ≤ c ∧
        c ≤ (updateVisualization (loadData.incidentData incidentRaw) populationData
          basePopulation year).totalIncidents ∧
        showBubbleTooltip
          (some (updateVisualization (loadData.incidentData incidentRaw) populationData
            basePopulation year).regionCounts)
          (some (updateVisualization (loadData.incidentData incidentRaw) populationData
            basePopulation year).regionFatal) r =
          { count := c, fatalCount := f, nonFatalCount := (c : Int) - (f : Int) } ∧
        (0 : Int) ≤ (c : Int) - (f : Int)) := by
  have hfatal :
      (updateVisualization (loadData.incidentData incidentRaw) populationData basePopulation
        year).fatalCount ≤
      (updateVisualization (loadData.incidentData incidentRaw) populationData basePopulation
        year).totalIncidents := by
    simp only [updateVisualization]
    exact List.length_filter_le _ _
  refine ⟨?_, ?_, Int.natCast_nonneg _, ?_⟩
  · simp only [updateVisualization]
    omega
  · have h : (updateVisualization (loadData.incidentData incidentRaw) populationData
        basePopulation year).nonFatalCount =
        ((updateVisualization (loadData.incidentData incidentRaw) populationData
          basePopulation year).totalIncidents : Int) -
        ((updateVisualization (loadData.incidentData incidentRaw) populationData
          basePopulation year).fatalCount : Int) := rfl
    rw [h]
    omega
  · intro r hr
    have hkey : r ∈ BODY_REGIONS.map Prod.fst := by rw [regionKeys_eq]; exact hr
    have h := updateVisualization_regions (loadData.incidentData incidentRaw)
      (incidentData_nodup incidentRaw) populationData basePopulation year r hkey
    have hfc :
        ((updateVisualization (loadData.incidentData incidentRaw) populationData
          basePopulation year).yearIncidents.filter (fun d => d.fatal)).countP
            (fun d => decide (r ∈ d.bodyRegions)) ≤
        (updateVisualization (loadData.incidentData incidentRaw) populationData
          basePopulation year).yearIncidents.countP (fun d => decide (r ∈ d.bodyRegions)) :=
      (List.filter_sublist _).countP_le _
    have hct :
        (updateVisualization (loadData.incidentData incidentRaw) populationData
          basePopulation year).yearIncidents.countP (fun d => decide (r ∈ d.bodyRegions)) ≤
        (updateVisualization (loadData.incidentData incidentRaw) populationData
          basePopulation year).totalIncidents := List.countP_le_length _
    refine ⟨_, _, h.1, h.2, hfc, hct, ?_, ?_⟩
    · simp only [showBubbleTooltip, Option.getD_some, h.1, h.2]
    · omega

/-- C12: the denominator of the rate in `updateVisualization` is the entry of the year in
`populationData` when that entry is a number other than 0 and `NaN`, and `basePopulation`
otherwise, where `basePopulation` is the entry of 1980 when it is a number other than 0 and
`NaN`, and 100000000 otherwise; it is never 0 (nor `NaN`); the numerator is the number of
records of the year; and when no entry is negative the denominator is positive and the rate is
the quotient of the two, times 1000000, each operation rounded to the nearest double. -/
theorem C12_rate_denominator (incidentData : List Incident) (populationData : PopulationData)
    (year : Int) :
    ((∀ v : JsNum, populationData 1980 = some v → v ≠ .fin 0 → v ≠ .nan →
        loadData.basePopulation populationData = v) ∧
      (populationData 1980 = none ∨ populationData 1980 = some (.fin 0) ∨
          populationData 1980 = some .nan →
        loadData.basePopulation populationData = .fin 100000000)) ∧
    ((∀ v : JsNum, populationData year = some v → v ≠ .fin 0 → v ≠ .nan →
        (updateVisualization incidentData populationData
          (loadData.basePopulation populationData) year).population = v) ∧
      (populationData year = none ∨ populationData year = some (.fin 0) ∨
          populationData year = some .nan →
        (updateVisualization incidentData populationData
          (loadData.basePopulation populationData) year).population =
            loadData.basePopulation populationData)) ∧
    ((updateVisualization incidentData populationData
        (loadData.basePopulation populationData) year).population ≠ .fin 0 ∧
      (updateVisualization incidentData populationData
        (loadData.basePopulation populationData) year).population ≠ .nan) ∧
    (updateVisualization incidentData populationData
        (loadData.basePopulation populationData) year).totalIncidents =
      incidentData.countP (fun d => d.year == .fin year) ∧
    ((∀ (y : Int) (v : JsNum), populationData y = some v → v.isNegative = false) →
      (updateVisualization incidentData populationData
        (loadData.basePopulation populationData) year).population.isPositive = true ∧
      (updateVisualization incidentData populationData
        (loadData.basePopulation populationData) year).rate =
        (JsFloat.quotient (incidentData.countP (fun d => d.year == .fin year))
          (updateVisualization incidentData populationData
            (loadData.basePopulation populationData) year).population).times 1000000) := by
  have htruthy : ∀ v : JsNum, v ≠ .fin 0 → v ≠ .nan → v.truthy = true := by
    intro v h0 hn
    cases v with
    | nan => exact absurd rfl hn
    | posInf => rfl
    | negInf => rfl
    | fin n =>
      simp only [JsNum.truthy, decide_eq_true_eq]
      exact fun h => h0 (by rw [h])
  have hfalsy : ∀ v : JsNum, v.truthy = true → v ≠ .fin 0 ∧ v ≠ .nan := by
    intro v hv
    constructor <;> rintro rfl <;> exact absurd hv (by decide)
  have hbase : (loadData.basePopulation populationData).truthy = true :=
    entryOr_truthy _ _ (by decide)
  have hpop : (updateVisualization incidentData populationData
      (loadData.basePopulation populationData) year).population =
      entryOr (populationData year) (loadData.basePopulation populationData) := rfl
  have hcount : (updateVisualization incidentData populationData
      (loadData.basePopulation populationData) year).totalIncidents =
      incidentData.countP (fun d => d.year == .fin year) := by
    simp only [updateVisualization, List.countP_eq_length_filter]
  refine ⟨⟨?_, ?_⟩, ⟨?_, ?_⟩, ?_, hcount, ?_⟩
  · intro v hv h0 hn
    simp only [loadData.basePopulation, entryOr, hv, htruthy v h0 hn, if_true]
  · intro h
    rcases h with h | h | h <;> simp [loadData.basePopulation, entryOr, h, JsNum.truthy]
  · intro v hv h0 hn
    rw [hpop]
    simp only [entryOr, hv, htruthy v h0 hn, if_true]
  · intro h
    rw [hpop]
    rcases h with h | h | h <;> simp [entryOr, h, JsNum.truthy]
  · rw [hpop]
    exact hfalsy _ (entryOr_truthy _ _ hbase)
  · intro hnonneg
    have hbasepos : (loadData.basePopulation populationData).isPositive = true :=
      entryOr_pos _ _ (hnonneg 1980) (by decide)
    have hpos : (entryOr (populationData year)
        (loadData.basePopulation populationData)).isPositive = true :=
      entryOr_pos _ _ (hnonneg year) hbasepos
    refine ⟨hpop ▸ hpos, ?_⟩
    have hrate : (updateVisualization incidentData populationData
        (loadData.basePopulation populationData) year).rate =
        updateVisualization.rate
          (updateVisualization incidentData populationData
            (loadData.basePopulation populationData) year).totalIncidents
          (entryOr (populationData year) (loadData.basePopulation populationData)) := rfl
    rw [hrate, hcount, hpop]
    simp only [updateVisualization.rate, hpos, if_true]

/-- Witness for C12 at a series whose entry for 1990 is 0 and that has no entry for 1980, with
five records of 1990: the denominator is the default 100000000, and the rate is the double
`7205759403792793 * 2 ^ (-57)`, printed `0.049999999999999996` (not the fraction 1/20). -/
theorem C12_rate_denominator_witness :
    (updateVisualization (List.replicate 5 exampleIncident)
        examplePopulationZero (loadData.basePopulation examplePopulationZero) 1990).population =
      .fin 100000000 ∧
    (updateVisualization (List.replicate 5 exampleIncident)
        examplePopulationZero (loadData.basePopulation examplePopulationZero) 1990).rate =
      .fin 7205759403792793 (-57) ∧
    (updateVisualization (List.replicate 5 exampleIncident)
        examplePopulationZero (loadData.basePopulation examplePopulationZero) 1990).rate =
      (JsFloat.quotient ((List.replicate 5 exampleIncident).countP (fun d => d.year == .fin 1990))
        (updateVisualization (List.replicate 5 exampleIncident) examplePopulationZero
          (loadData.basePopulation examplePopulationZero) 1990).population).times 1000000 :=
  ⟨by decide, by decide,
   ((C12_rate_denominator (List.replicate 5 exampleIncident)
      examplePopulationZero 1990).2.2.2.2
    (fun y v h => by
      unfold examplePopulationZero at h
      split at h
      · rw [← Option.some.inj h]
        rfl
      · exact absurd h (by simp))).2⟩

/-- C15 fails on the code: of three lines for CA and 1980 with the population fields `5`,
`abc` and `7`, the entry of 1980 ends as 7, not as the sum: the second line leaves `NaN`, and
at the third line the initialisation `if (!populationData[y]) populationData[y] = 0` takes
the entry `NaN` for a missing one and starts again from 0. In general the entry of a year of
the range with a line that counts for it is the result of the two statements of the loop
body on the population values of those lines, in order. When these values are finite numbers
the reset does nothing and the entry is their sum in the arithmetic of the program, which is
their exact sum when the absolute values add up to less than `2 ^ 53` (the values `2 ^ 53`, 1
and 1 leave the entry at `2 ^ 53`: each addition of 1 is rounded away). A year without a line
that counts for it, or outside 1980..2019, has no entry, and a line whose state code is not in
the allow-list or whose year is not a number of 1980..2019 leaves `populationData`
unchanged. -/
theorem C15_population_divergence :
    (loadData.populationData (fun _ => none) examplePopRawBadLine 1980 = some (.fin 7) ∧
      (contributing (loadData.popLines examplePopRawBadLine) 1980).map loadData.linePop =
        [.fin 5, .nan, .fin 7] ∧
      populationSum (loadData.popLines examplePopRawBadLine) 1980 = .nan) ∧
    (∀ (popRaw : Str) (y : Int), 1980 ≤ y → y ≤ 2019 →
      contributing (loadData.popLines popRaw) y ≠ [] →
      loadData.populationData (fun _ => none) popRaw y =
        some (((contributing (loadData.popLines popRaw) y).map loadData.linePop).foldl
          addToEntry (.fin 0))) ∧
    (∀ (popRaw : Str) (y : Int), 1980 ≤ y → y ≤ 2019 →
      contributing (loadData.popLines popRaw) y ≠ [] →
      (∀ l ∈ contributing (loadData.popLines popRaw) y, ∃ p : Int, loadData.linePop l = .fin p) →
      loadData.populationData (fun _ => none) popRaw y =
          some (populationSum (loadData.popLines popRaw) y) ∧
        (((contributing (loadData.popLines popRaw) y).map
            (fun l => (loadData.linePop l).toInt.natAbs)).sum < 2 ^ 53 →
          loadData.populationData (fun _ => none) popRaw y =
            some (.fin (((contributing (loadData.popLines popRaw) y).map
              (fun l => (loadData.linePop l).toInt)).sum)))) ∧
    (∀ (popRaw : Str) (y : Int), contributing (loadData.popLines popRaw) y = [] →
      loadData.populationData (fun _ => none) popRaw y = none) ∧
    (∀ (popRaw : Str) (y : Int), y < 1980 ∨ 2019 < y →
      loadData.populationData (fun _ => none) popRaw y = none) ∧
    (∀ (populationData : PopulationData) (line : Str),
      (arrayIncludes COASTAL_STATES (loadData.lineState line) = false ∨
        ∀ y0, loadData.lineYear line = .fin y0 → y0 < 1980 ∨ 2019 < y0) →
      loadData.popLine populationData line = populationData) ∧
    (loadData.populationData (fun _ => none) examplePopRaw 1980 = some (.fin 12) ∧
      (contributing (loadData.popLines examplePopRaw) 1980).map loadData.linePop =
        [.fin 5, .fin 7] ∧
      loadData.populationData (fun _ => none) examplePopRawLarge 1980 =
        some (.fin 9007199254740992)) := by
  have hout : ∀ (popRaw : Str) (y : Int), y < 1980 ∨ 2019 < y →
      loadData.populationData (fun _ => none) popRaw y = none := fun popRaw y hy =>
    populationData_out_of_range (loadData.popLines popRaw) (fun _ => none) y hy
  have hloop : ∀ (popRaw : Str) (y : Int), 1980 ≤ y → y ≤ 2019 →
      contributing (loadData.popLines popRaw) y ≠ [] →
      loadData.populationData (fun _ => none) popRaw y =
        some (((contributing (loadData.popLines popRaw) y).map loadData.linePop).foldl
          addToEntry (.fin 0)) := by
    intro popRaw y hlo hhi hne
    have h := populationData_fold (loadData.popLines popRaw) (fun _ => none) y hlo hhi
    rw [if_neg hne] at h
    unfold loadData.populationData
    rw [h]
    cases hc : contributing (loadData.popLines popRaw) y with
    | nil => exact absurd hc hne
    | cons l ls => rfl
  refine ⟨by decide, hloop, ?_, ?_, hout, ?_, by decide⟩
  · intro popRaw y hlo hhi hne hnum
    have hnum' : ∀ e ∈ (contributing (loadData.popLines popRaw) y).map loadData.linePop,
        ∃ p : Int, e = .fin p := by
      intro e he
      obtain ⟨l, hl, rfl⟩ := List.mem_map.mp he
      exact hnum l hl
    have hsum : loadData.populationData (fun _ => none) popRaw y =
        some (populationSum (loadData.popLines popRaw) y) := by
      rw [hloop popRaw y hlo hhi hne, foldl_addToEntry_numeric _ _ (by simp) hnum']
      rfl
    refine ⟨hsum, ?_⟩
    intro hbound
    have hfin : (contributing (loadData.popLines popRaw) y).map loadData.linePop =
        ((contributing (loadData.popLines popRaw) y).map
          (fun l => (loadData.linePop l).toInt)).map JsNum.fin := by
      rw [List.map_map]
      apply List.map_congr_left
      intro l hl
      obtain ⟨p, hp⟩ := hnum l hl
      simp only [Function.comp, hp, JsNum.toInt]
    rw [hsum]
    unfold populationSum
    rw [hfin, foldl_numAdd_exact _ 0 (by
      rw [List.map_map]
      simpa [Function.comp_def] using hbound)]
    simp
  · intro popRaw y hnil
    by_cases hr : 1980 ≤ y ∧ y ≤ 2019
    · have h := populationData_fold (loadData.popLines popRaw) (fun _ => none) y hr.1 hr.2
      rw [if_pos hnil] at h
      exact h
    · exact hout popRaw y (by omega)
  · intro populationData line hline
    funext y0
    rw [popLine_apply, if_neg]
    rintro ⟨h1, h2, h3, h4⟩
    rcases hline with h | h
    · rw [h1] at h
      exact absurd h (by simp)
    · have := h y0 h2
      omega

/-- C16 fails on the code: `estimated zebra shark` is classified `Imated Zebra Shark` and
`2 meter zebra shark` is classified `Eter Zebra Shark`. In the qualifier pattern the
alternative `estimated` stands behind `est`, and in the measurement pattern the units `meter`
and `metre` stand behind `m`: the three are never reached (each pattern matches as the pattern
without them does), so of `estimated` only `est` is removed and of `2 meter` only `2 m`. Apart
from that the fallback is as claimed: for an input whose trimmed, lower-cased text has no
reject phrase, no uncertain variation, no species keyword and no match of the bare-shark
pattern, with the residue being the value `cleaned` of that text, the result is `Unknown` when
the residue is empty, has fewer than 3 characters (UTF-16 code units), or consists only of
digits, white space and the punctuation `- , . ; : ' " ?`; otherwise it is the white-space
separated words of the residue, each with its first character upper-cased, joined by single
spaces and followed by ` Shark`. An input that none of the three alternatives concerns goes
through the six removal steps as claimed. -/
theorem C16_cleanup_divergence [CaseMapping] :
    (parseSpeciesName (.str "estimated zebra shark".toList) = "Imated Zebra Shark".toList ∧
      parseSpeciesName.cleaned "estimated zebra shark".toList = "imated zebra".toList ∧
      parseSpeciesName (.str "2 meter zebra shark".toList) = "Eter Zebra Shark".toList ∧
      parseSpeciesName.cleaned "2 meter zebra shark".toList = "eter zebra".toList) ∧
    ((∀ s : Str, Re.matchAt reQualifier s = Re.matchAt reQualifierReached s) ∧
      (∀ s : Str, Re.matchAt reMeasure s = Re.matchAt reMeasureReached s) ∧
      (∀ rest : Str, Re.matchAt reQualifier ("estimated".toList ++ rest) =
        some ("imated".toList ++ rest)) ∧
      (∀ rest : Str, Re.matchAt reMeasure ("2 meter".toList ++ rest) =
        some ("eter".toList ++ rest))) ∧
    (∀ s : Str,
      (∀ kw ∈ rejectPhrases, ¬ kw <:+: trim (toLowerCase s)) →
      (∀ kw ∈ unknownVariations, ¬ kw <:+: trim (toLowerCase s)) →
      (∀ p ∈ speciesPatterns, ∀ kw ∈ p.keywords, ¬ kw <:+: trim (toLowerCase s)) →
      (Re.test reBareShark (trim (toLowerCase s)) = false ∧
        trim (toLowerCase s) ≠ "shark".toList) →
      ((parseSpeciesName.cleaned (trim (toLowerCase s)) = [] ∨
          utf16Length (parseSpeciesName.cleaned (trim (toLowerCase s))) < 3 ∨
          (∀ c ∈ parseSpeciesName.cleaned (trim (toLowerCase s)),
            isDigit c = true ∨ isJsSpace c = true ∨
              c.toNat ∈ [45, 44, 46, 59, 58, 39, 34, 63])) →
        parseSpeciesName (.str s) = "Unknown".toList) ∧
      (¬ (parseSpeciesName.cleaned (trim (toLowerCase s)) = [] ∨
          utf16Length (parseSpeciesName.cleaned (trim (toLowerCase s))) < 3 ∨
          (∀ c ∈ parseSpeciesName.cleaned (trim (toLowerCase s)),
            isDigit c = true ∨ isJsSpace c = true ∨
              c.toNat ∈ [45, 44, 46, 59, 58, 39, 34, 63])) →
        parseSpeciesName (.str s) =
          joinSpace ((wordsOf (parseSpeciesName.cleaned (trim (toLowerCase s)))).map
            capitalizeWord) ++ " Shark".toList)) ∧
    ((∀ (c : Char) (t : Str), isPlain c = true → capitalizeWord (c :: t) = toUpperChar c :: t) ∧
      (∀ (c : Char) (t : Str), c.toNat < 65536 →
        capitalizeWord (c :: t) = toUpperCase [c] ++ t) ∧
      (∀ (c : Char) (t : Str), 65536 ≤ c.toNat → capitalizeWord (c :: t) = c :: t)) ∧
    (parseSpeciesName
        (.str "Possibly a 2.5 m zebra shark (female?); 10-ft long, involved".toList) =
        "A Zebra Long Shark".toList ∧
      parseSpeciesName.cleaned
        "possibly a 2.5 m zebra shark (female?); 10-ft long, involved".toList =
        "a  zebra     long".toList ∧
      wordsOf "a  zebra     long".toList = ["a".toList, "zebra".toList, "long".toList] ∧
      parseSpeciesName (.str "2 m zebra shark".toList) = "Zebra Shark".toList) := by
  refine ⟨⟨?_, by decide, ?_, by decide⟩,
    ⟨qualifier_reached, measure_reached, fun _ => rfl, fun _ => rfl⟩, ?_,
    ⟨capitalizeWord_cons_plain, ?_, ?_⟩, ⟨?_, by decide, by decide, ?_⟩⟩
  · exact (parseSpeciesName_plain _ (by decide) (by decide)).trans (by decide)
  · exact (parseSpeciesName_plain _ (by decide) (by decide)).trans (by decide)
  · intro s hrej hunk hsp hbare
    by_cases hts : trim s = []
    · obtain ⟨hres, htext⟩ := parseSpeciesName_blank s hts
      have hclean : parseSpeciesName.cleaned (trim (toLowerCase s)) = [] := by
        rw [htext]
        rfl
      exact ⟨fun _ => hres, fun h => absurd (Or.inl hclean) h⟩
    · have hb : ¬ (Re.test reBareShark (trim (toLowerCase s)) ||
          trim (toLowerCase s) == "shark".toList) = true := by
        rw [hbare.1, Bool.false_or, beq_iff_eq]
        exact hbare.2
      rw [parseSpeciesName_of_trim_ne s hts,
        classify_no_keyword _ hrej hunk hsp, if_neg hb]
      constructor
      · intro hcond
        rw [if_pos ((fallback_condition _).mpr hcond)]
      · intro hcond
        rw [if_neg (fun h => hcond ((fallback_condition _).mp h)),
          cleaned_words _ (fun h => hcond (Or.inl h))]
  · intro c t hc
    simp only [capitalizeWord, if_pos hc]
  · intro c t hc
    have hc' : ¬ c.toNat < 65536 := by omega
    simp only [capitalizeWord, if_neg hc']
  · exact (parseSpeciesName_plain _ (by decide) (by decide)).trans (by decide)
  · exact (parseSpeciesName_plain _ (by decide) (by decide)).trans (by decide)

/-- Witness for C16 at the text `estimated zebra shark`, with the case mappings of the ASCII
range: the text passes the four keyword tests, its residue `imated zebra` passes the three
tests on the residue, and the result is made of the two words of the residue. -/
theorem C16_cleanup_divergence_witness :
    @parseSpeciesName asciiCase (.str "estimated zebra shark".toList) =
      joinSpace ((wordsOf (parseSpeciesName.cleaned
        (trim (@toLowerCase asciiCase "estimated zebra shark".toList)))).map
          (@capitalizeWord asciiCase)) ++ " Shark".toList ∧
    wordsOf (parseSpeciesName.cleaned
        (trim (@toLowerCase asciiCase "estimated zebra shark".toList))) =
      ["imated".toList, "zebra".toList] :=
  ⟨((@C16_cleanup_divergence asciiCase).2.2.1 "estimated zebra shark".toList
    (fun kw hkw hin => absurd ((includes_iff _ _).mpr hin)
      ((by decide : ∀ kw ∈ rejectPhrases,
          ¬ includes (trim (@toLowerCase asciiCase "estimated zebra shark".toList)) kw = true)
        kw hkw))
    (fun kw hkw hin => absurd ((includes_iff _ _).mpr hin)
      ((by decide : ∀ kw ∈ unknownVariations,
          ¬ includes (trim (@toLowerCase asciiCase "estimated zebra shark".toList)) kw = true)
        kw hkw))
    (fun p hp kw hkw hin => absurd ((includes_iff _ _).mpr hin)
      ((by decide : ∀ p ∈ speciesPatterns, ∀ kw ∈ p.keywords,
          ¬ includes (trim (@toLowerCase asciiCase "estimated zebra shark".toList)) kw = true)
        p hp kw hkw))
    (by decide)).2 (by decide), by decide⟩

/-- C17: for an input whose trimmed, lower-cased text has no reject phrase, no uncertain
variation and no species keyword, `parseSpeciesName` returns `Unknown` when the text is
exactly `shark`, or contains `small`, then white space, then `shark`, or contains `shark`,
then optional white space, then a digit. -/
theorem C17_bare_shark [CaseMapping] (s : Str)
    (hrej : ∀ kw ∈ rejectPhrases, ¬ kw <:+: trim (toLowerCase s))
    (hunk : ∀ kw ∈ unknownVariations, ¬ kw <:+: trim (toLowerCase s))
    (hsp : ∀ p ∈ speciesPatterns, ∀ kw ∈ p.keywords, ¬ kw <:+: trim (toLowerCase s))
    (hbare : trim (toLowerCase s) = "shark".toList ∨
      (∃ pre ws post : Str, ws ≠ [] ∧ (∀ c ∈ ws, isJsSpace c = true) ∧
        trim (toLowerCase s) = pre ++ ("small".toList ++ (ws ++ ("shark".toList ++ post)))) ∨
      (∃ (pre ws : Str) (d : Char) (post : Str), (∀ c ∈ ws, isJsSpace c = true) ∧
        isDigit d = true ∧
        trim (toLowerCase s) = pre ++ ("shark".toList ++ (ws ++ d :: post)))) :
    parseSpeciesName (.str s) = "Unknown".toList := by
  have hcond : (Re.test reBareShark (trim (toLowerCase s)) ||
      trim (toLowerCase s) == "shark".toList) = true := by
    rcases hbare with h | ⟨pre, ws, post, hne, hws, h⟩ | ⟨pre, ws, d, post, hws, hd, h⟩
    · rw [h]
      decide
    · rw [h, bareShark_small pre ws post hne hws]
      rfl
    · rw [h, bareShark_digit pre ws post d hws hd]
      rfl
  have hne : trim (toLowerCase s) ≠ [] := by
    rcases hbare with h | ⟨pre, ws, post, _, _, h⟩ | ⟨pre, ws, d, post, _, _, h⟩
    · rw [h]; decide
    · rw [h]; simp
    · rw [h]; simp
  rw [parseSpeciesName_of_trim_ne s (trim_ne_nil_of_lower s hne),
    classify_no_keyword _ hrej hunk hsp, if_pos hcond]

/-- Witness for C17 at the text `Small shark`, with the case mappings of the ASCII range. -/
theorem C17_bare_shark_witness :
    @parseSpeciesName asciiCase (.str "Small shark".toList) = "Unknown".toList :=
  @C17_bare_shark asciiCase "Small shark".toList
    (fun kw hkw hin => absurd ((includes_iff _ _).mpr hin)
      ((by decide : ∀ kw ∈ rejectPhrases,
          ¬ includes (trim (@toLowerCase asciiCase "Small shark".toList)) kw = true) kw hkw))
    (fun kw hkw hin => absurd ((includes_iff _ _).mpr hin)
      ((by decide : ∀ kw ∈ unknownVariations,
          ¬ includes (trim (@toLowerCase asciiCase "Small shark".toList)) kw = true) kw hkw))
    (fun p hp kw hkw hin => absurd ((includes_iff _ _).mpr hin)
      ((by decide : ∀ p ∈ speciesPatterns, ∀ kw ∈ p.keywords,
          ¬ includes (trim (@toLowerCase asciiCase "Small shark".toList)) kw = true)
        p hp kw hkw))
    (Or.inr (Or.inl ⟨[], " ".toList, [], by decide, by decide, by decide⟩))

/-- C21: for every string whose lower-cased text contains `forearm`, the labels returned by
`parseBodyRegion` contain `head` (the head keyword `ear` occurs inside `forearm`) and
`lowerArm`; and `laceration to forearm and chest` is labelled `head`, `torso`, `lowerArm`. -/
theorem C21_forearm_overlap [CaseMapping] :
    (∀ s : Str, "forearm".toList <:+: toLowerCase s →
      "head" ∈ parseBodyRegion (.str s) ∧ "lowerArm" ∈ parseBodyRegion (.str s)) ∧
    "ear".toList <:+: "forearm".toList ∧
    parseBodyRegion (.str "laceration to forearm and chest".toList) =
      ["head", "torso", "lowerArm"] :=
  ⟨forearm_regions, (includes_iff _ _).mp (by decide),
   (parseBodyRegion_plain _ (by decide)).trans (by decide)⟩

/-- Witness for C21 at the text `Bitten on FOREARM`, with the case mappings of the ASCII
range. -/
theorem C21_forearm_overlap_witness :
    "head" ∈ @parseBodyRegion asciiCase (.str "Bitten on FOREARM".toList) ∧
    "lowerArm" ∈ @parseBodyRegion asciiCase (.str "Bitten on FOREARM".toList) :=
  (@C21_forearm_overlap asciiCase).1 "Bitten on FOREARM".toList
    ((includes_iff _ _).mp (by decide))

/-- C22: a string whose lower-cased text contains `sand tiger`, `grey nurse` or `gray nurse`
is never classified `Sand Tiger Shark` by `parseSpeciesName`: the result is `Unknown` or the
name of one of the first two patterns (for `sand tiger`, which contains `tiger`) or of the
first eight (for the two `nurse` keywords, which contain `nurse`). A string whose text
contains `oceanic whitetip` or `oceanic white tip` is never classified
`Oceanic Whitetip Shark`: the result is `Unknown` or `White Shark`. -/
theorem C22_shadowed_keywords [CaseMapping] (s : Str) :
    ("sand tiger".toList <:+: toLowerCase s →
      parseSpeciesName (.str s) ≠ "Sand Tiger Shark".toList ∧
      (parseSpeciesName (.str s) = "Unknown".toList ∨
        ∃ p ∈ speciesPatterns.take 2, parseSpeciesName (.str s) = p.name)) ∧
    ("grey nurse".toList <:+: toLowerCase s ∨ "gray nurse".toList <:+: toLowerCase s →
      parseSpeciesName (.str s) ≠ "Sand Tiger Shark".toList ∧
      (parseSpeciesName (.str s) = "Unknown".toList ∨
        ∃ p ∈ speciesPatterns.take 8, parseSpeciesName (.str s) = p.name)) ∧
    ("oceanic whitetip".toList <:+: toLowerCase s ∨
        "oceanic white tip".toList <:+: toLowerCase s →
      parseSpeciesName (.str s) ≠ "Oceanic Whitetip Shark".toList ∧
      (parseSpeciesName (.str s) = "Unknown".toList ∨
        parseSpeciesName (.str s) = "White Shark".toList)) := by
  have hsand : ∀ n, n = 2 ∨ n = 8 →
      (parseSpeciesName (.str s) = "Unknown".toList ∨
        ∃ p ∈ speciesPatterns.take n, parseSpeciesName (.str s) = p.name) →
      parseSpeciesName (.str s) ≠ "Sand Tiger Shark".toList := by
    intro n hn hres heq
    rcases hres with h | ⟨p, hp, h⟩
    · rw [h] at heq
      exact absurd heq (by decide)
    · rw [h] at heq
      rcases hn with rfl | rfl
      · exact (by decide : ∀ p ∈ speciesPatterns.take 2,
          p.name ≠ "Sand Tiger Shark".toList) p hp heq
      · exact (by decide : ∀ p ∈ speciesPatterns.take 8,
          p.name ≠ "Sand Tiger Shark".toList) p hp heq
  refine ⟨?_, ?_, ?_⟩
  · intro h
    have hres := parseSpeciesName_shadow s 1 (by decide) "sand tiger".toList "tiger".toList
      (by decide) ((includes_iff _ _).mp (by decide)) (by decide) h
    exact ⟨hsand 2 (Or.inl rfl) hres, hres⟩
  · intro h
    have hres : parseSpeciesName (.str s) = "Unknown".toList ∨
        ∃ p ∈ speciesPatterns.take 8, parseSpeciesName (.str s) = p.name := by
      rcases h with h | h
      · exact parseSpeciesName_shadow s 7 (by decide) "grey nurse".toList "nurse".toList
          (by decide) ((includes_iff _ _).mp (by decide)) (by decide) h
      · exact parseSpeciesName_shadow s 7 (by decide) "gray nurse".toList "nurse".toList
          (by decide) ((includes_iff _ _).mp (by decide)) (by decide) h
    exact ⟨hsand 8 (Or.inr rfl) hres, hres⟩
  · intro h
    have hres : parseSpeciesName (.str s) = "Unknown".toList ∨
        ∃ p ∈ speciesPatterns.take 1, parseSpeciesName (.str s) = p.name := by
      rcases h with h | h
      · exact parseSpeciesName_shadow s 0 (by decide) "oceanic whitetip".toList
          "white".toList (by decide) ((includes_iff _ _).mp (by decide)) (by decide) h
      · exact parseSpeciesName_shadow s 0 (by decide) "oceanic white tip".toList
          "white".toList (by decide) ((includes_iff _ _).mp (by decide)) (by decide) h
    have hres' : parseSpeciesName (.str s) = "Unknown".toList ∨
        parseSpeciesName (.str s) = "White Shark".toList := by
      rcases hres with h1 | ⟨p, hp, h1⟩
      · exact Or.inl h1
      · right
        rw [h1]
        exact (by decide : ∀ p ∈ speciesPatterns.take 1,
          p.name = "White Shark".toList) p hp
    refine ⟨?_, hres'⟩
    intro heq
    rcases hres' with h1 | h1
    · rw [h1] at heq
      exact absurd heq (by decide)
    · rw [h1] at heq
      exact absurd heq (by decide)

/-- Witness for C22 at the texts `Sand tiger shark` (classified `Tiger Shark`) and
`Oceanic whitetip shark` (classified `White Shark`), with the case mappings of the ASCII
range. -/
theorem C22_shadowed_keywords_witness :
    @parseSpeciesName asciiCase (.str "Sand tiger shark".toList) = "Tiger Shark".toList ∧
    @parseSpeciesName asciiCase (.str "Sand tiger shark".toList) ≠ "Sand Tiger Shark".toList ∧
    @parseSpeciesName asciiCase (.str "Oceanic whitetip shark".toList) =
      "White Shark".toList ∧
    @parseSpeciesName asciiCase (.str "Oceanic whitetip shark".toList) ≠
      "Oceanic Whitetip Shark".toList :=
  ⟨by decide,
   ((@C22_shadowed_keywords asciiCase "Sand tiger shark".toList).1
      ((includes_iff _ _).mp (by decide))).1,
   by decide,
   ((@C22_shadowed_keywords asciiCase "Oceanic whitetip shark".toList).2.2
      (Or.inl ((includes_iff _ _).mp (by decide)))).1⟩

/-- C23 fails on the code: for the flag `Y` after a leading blank the body-map loader marks the
retained row as not fatal (it upper-cases without trimming) while the reducer of
`cleanAttackData` counts it as fatal (it trims first). A record that the loader marks fatal is
always counted fatal by `cleanAttackData`, and the two agree on every flag that has no white
space around it. -/
theorem C23_fatal_flag_divergence [CaseMapping] :
    loadData.keep exampleRowFlagSpaced = true ∧
    (loadData.toIncident exampleRowFlagSpaced).fatal = false ∧
    (cleanAttackData.reduce exampleRowFlagSpaced.Species [exampleRowFlagSpaced]).fatal = 1 ∧
    (∀ d : Row, (loadData.toIncident d).fatal = true →
      (cleanAttackData.reduce d.Species [d]).fatal = 1) ∧
    (∀ d : Row, trim (d.Fatal_Y_N.orElse []) = d.Fatal_Y_N.orElse [] →
      ((loadData.toIncident d).fatal = true ↔
        (cleanAttackData.reduce d.Species [d]).fatal = 1)) :=
  ⟨(keep_plain _ (by decide)).trans (by decide),
   (congrArg Incident.fatal (toIncident_plain _ (by decide))).trans (by decide),
   (congrArg Bucket.fatal (reduce_plain _ _ (by decide))).trans (by decide),
   bubbleFatal_of_bodyFatal, fatal_agree_of_trimmed⟩

end SharkViz
